import Mathlib

/-!
# UPDATE binder and JSON scan of DuckDB: a shallow embedding

The definitions of the binder follow `src/planner/binder/statement/bind_update.cpp`
function by function.  Vectors are lists, `push_back` appends at the end, the
operators that the C++ code receives by reference are passed in and handed back
as values, and exceptions are the `Except.error` results.

Classes that are only declared elsewhere (the catalog entry of the table, the
column list, the indexes, the expression binder) appear as records of the
accessors that the code calls.

`DateFormatMap` follows `extension/json/include/json_scan.hpp`.  The scan itself is
only declared in that header; the definitions that stand for its missing bodies say so.
-/

set_option autoImplicit false

namespace duckdb

/-! ## Basic types -/

abbrev idx_t := Nat

abbrev column_t := Nat

/-- The reserved row-id marker `COLUMN_IDENTIFIER_ROW_ID`, `(column_t)-1` on 64 bits. -/
def COLUMN_IDENTIFIER_ROW_ID : column_t := 2 ^ 64 - 1

/-- The type ids `LogicalTypeId`; the code under study only tells LIST, MAP, UNION and STRUCT
from the rest. -/
inductive LogicalTypeId where
  | INVALID | SQLNULL | UNKNOWN | ANY | USER
  | BOOLEAN | TINYINT | SMALLINT | INTEGER | BIGINT
  | DATE | TIME | TIMESTAMP_SEC | TIMESTAMP_MS | TIMESTAMP | TIMESTAMP_NS
  | DECIMAL | FLOAT | DOUBLE | CHAR | VARCHAR | BLOB | INTERVAL
  | UTINYINT | USMALLINT | UINTEGER | UBIGINT | TIMESTAMP_TZ | TIME_TZ | BIT
  | HUGEINT | POINTER | VALIDITY | UUID
  | STRUCT | LIST | MAP | TABLE | ENUM | AGGREGATE_STATE | LAMBDA | UNION
  deriving DecidableEq, Repr

/-- A logical type: its id and, for nested types, the named child types
(what `StructType::GetChildTypes` returns for a STRUCT). -/
inductive LogicalType where
  | mk (id : LogicalTypeId) (child_types : List (String × LogicalType))

namespace LogicalType

def id : LogicalType → LogicalTypeId
  | mk i _ => i

def child_types : LogicalType → List (String × LogicalType)
  | mk _ cs => cs

def BIGINT : LogicalType := mk .BIGINT []

/-- The type of row identifiers, `LogicalType::ROW_TYPE`. -/
def ROW_TYPE : LogicalType := mk .BIGINT []

end LogicalType

structure PhysicalIndex where
  index : idx_t
  deriving DecidableEq, Repr

/-- The container `physical_index_set_t` (an unordered set of physical indexes): the elements,
each once, in the order in which the container iterates over them. -/
structure physical_index_set_t where
  elems : List PhysicalIndex
  nodup : elems.Nodup

namespace physical_index_set_t

def empty : physical_index_set_t := ⟨[], List.nodup_nil⟩

def size (s : physical_index_set_t) : idx_t := s.elems.length

/-- The test `s.find(x) != s.end()`. -/
def contains (s : physical_index_set_t) (x : PhysicalIndex) : Bool := decide (x ∈ s.elems)

/-- The call `s.insert(x)`: nothing happens when `x` is present.  Where a new element lands in the
iteration order is left open by the container; here it is visited last. -/
def insert (s : physical_index_set_t) (x : PhysicalIndex) : physical_index_set_t :=
  if h : x ∈ s.elems then s
  else ⟨s.elems ++ [x], by
    rw [List.nodup_append]
    refine ⟨s.nodup, List.nodup_singleton x, ?_⟩
    intro a ha hb
    rw [List.mem_singleton] at hb
    subst hb
    exact h ha⟩

end physical_index_set_t

structure ColumnBinding where
  table_index : idx_t
  column_index : idx_t
  deriving DecidableEq, Repr

/-- Bound expressions.  `BoundDefaultExpression` and `BoundColumnRefExpression` are the two classes
the UPDATE binder builds itself; `other` stands for whatever the expression binder returns,
identified by a number. -/
inductive Expression where
  | BoundDefaultExpression (return_type : LogicalType)
  | BoundColumnRefExpression (return_type : LogicalType) (binding : ColumnBinding)
  | other (return_type : LogicalType) (id : Nat)

def Expression.return_type : Expression → LogicalType
  | .BoundDefaultExpression t => t
  | .BoundColumnRefExpression t _ => t
  | .other t _ => t

inductive ExpressionType where
  | VALUE_CONSTANT | VALUE_DEFAULT | COLUMN_REF | FUNCTION | OPERATOR_CAST | COMPARE_BETWEEN | SUBQUERY
  deriving DecidableEq, Repr

/-- A parsed expression: its `type` tag and a number standing for the rest of it. -/
structure ParsedExpression where
  type : ExpressionType
  id : Nat
  deriving DecidableEq, Repr

/-! ## Catalog -/

/-- A column of the table with the four accessors the binder calls:
`Name()`, `Type()`, `Generated()` and `Physical()`. -/
structure ColumnDefinition where
  Name : String
  GetType : LogicalType
  Generated : Bool
  Physical : PhysicalIndex

/-- The column list returned by `table.GetColumns()`, with its lookup by physical index. -/
structure ColumnList where
  GetColumn : PhysicalIndex → ColumnDefinition

inductive ConstraintType where
  | INVALID | NOT_NULL | CHECK | UNIQUE | FOREIGN_KEY
  deriving DecidableEq, Repr

/-- Bound constraints; only a CHECK constraint carries the `bound_columns` read by the binder. -/
inductive BoundConstraint where
  | BoundNotNullConstraint (index : PhysicalIndex)
  | BoundCheckConstraint (bound_columns : physical_index_set_t)
  | BoundUniqueConstraint (is_primary_key : Bool)
  | BoundForeignKeyConstraint

def BoundConstraint.type : BoundConstraint → ConstraintType
  | .BoundNotNullConstraint _ => .NOT_NULL
  | .BoundCheckConstraint _ => .CHECK
  | .BoundUniqueConstraint _ => .UNIQUE
  | .BoundForeignKeyConstraint => .FOREIGN_KEY

/-- An index of the table, with its answer to `IndexIsUpdated(columns)`. -/
structure Index where
  IndexIsUpdated : List PhysicalIndex → Bool

/-- The storage of a duck table: `column_definitions` and the indexes of `info->indexes`. -/
structure DataTable where
  column_definitions : List ColumnDefinition
  indexes : List Index

/-- The catalog entry of the updated table. -/
structure TableCatalogEntry where
  IsDuckTable : Bool
  temporary : Bool
  ColumnExists : String → Bool
  GetColumn : String → ColumnDefinition
  GetColumns : ColumnList
  GetBoundConstraints : List BoundConstraint
  GetStorage : DataTable

/-! ## Logical operators -/

inductive LogicalOperatorType where
  | LOGICAL_INVALID | LOGICAL_PROJECTION | LOGICAL_FILTER | LOGICAL_GET | LOGICAL_CROSS_PRODUCT
  | LOGICAL_INSERT | LOGICAL_DELETE | LOGICAL_UPDATE
  deriving DecidableEq, Repr

/-- Plan trees.  `plan` is a tree built outside the binder of UPDATE (by `CreatePlan` or
`PlanSubqueries`), given by its root type and a number; the scan of the target table lives
in it and is reached through the `LogicalGet` handle below. -/
inductive LogicalOperator where
  | plan (type : LogicalOperatorType) (id : Nat)
  | filter (condition : Expression) (child : LogicalOperator)
  | projection (table_index : idx_t) (expressions : List Expression) (child : LogicalOperator)
  | update (columns : List PhysicalIndex) (expressions : List Expression) (return_chunk : Bool)
      (update_is_del_and_insert : Bool) (table_index : idx_t) (child : LogicalOperator)

def LogicalOperator.type : LogicalOperator → LogicalOperatorType
  | .plan t _ => t
  | .filter _ _ => .LOGICAL_FILTER
  | .projection _ _ _ => .LOGICAL_PROJECTION
  | .update _ _ _ _ _ _ => .LOGICAL_UPDATE

/-- The scan of the target table, as far as the binder touches it. -/
structure LogicalGet where
  table_index : idx_t
  column_ids : List column_t

structure LogicalProjection where
  table_index : idx_t
  expressions : List Expression
  child : LogicalOperator

structure LogicalUpdate where
  columns : List PhysicalIndex
  expressions : List Expression
  return_chunk : Bool
  update_is_del_and_insert : Bool
  table_index : idx_t
  bound_defaults : List Expression

/-- The three operators that `BindExtraColumns` and `BindUpdateConstraints` receive by reference. -/
structure Operators where
  get : LogicalGet
  proj : LogicalProjection
  update : LogicalUpdate

/-! ## BindExtraColumns -/

/-- First loop of `BindExtraColumns` (lines 28-36): the number of entries of `update.columns`
that are in `bound_columns`, and the set of those entries. -/
def FindColumns (bound_columns : physical_index_set_t) :
    List PhysicalIndex → idx_t × physical_index_set_t → idx_t × physical_index_set_t
  | [], acc => acc
  | c :: rest, (found_column_count, found_columns) =>
    if bound_columns.contains c then
      FindColumns bound_columns rest (found_column_count + 1, found_columns.insert c)
    else
      FindColumns bound_columns rest (found_column_count, found_columns)

/-- Body of the second loop of `BindExtraColumns` for a column that is not projected yet
(lines 46-52): the four `push_back`s, in the order of the source. -/
def ProjectColumn (table : TableCatalogEntry) (s : Operators) (check_column_id : PhysicalIndex) :
    Operators :=
  let column := table.GetColumns.GetColumn check_column_id
  let update_expressions := s.update.expressions ++
    [Expression.BoundColumnRefExpression column.GetType ⟨s.proj.table_index, s.proj.expressions.length⟩]
  let proj_expressions := s.proj.expressions ++
    [Expression.BoundColumnRefExpression column.GetType ⟨s.get.table_index, s.get.column_ids.length⟩]
  let column_ids := s.get.column_ids ++ [check_column_id.index]
  let columns := s.update.columns ++ [check_column_id]
  { get := { s.get with column_ids := column_ids },
    proj := { s.proj with expressions := proj_expressions },
    update := { s.update with expressions := update_expressions, columns := columns } }

/-- Second loop of `BindExtraColumns` (lines 40-53), over `bound_columns` in iteration order. -/
def AddMissingColumns (table : TableCatalogEntry) (found_columns : physical_index_set_t) :
    List PhysicalIndex → Operators → Operators
  | [], s => s
  | check_column_id :: rest, s =>
    if found_columns.contains check_column_id then
      AddMissingColumns table found_columns rest s
    else
      AddMissingColumns table found_columns rest (ProjectColumn table s check_column_id)

def BindExtraColumns (table : TableCatalogEntry) (s : Operators)
    (bound_columns : physical_index_set_t) : Operators :=
  if bound_columns.size ≤ 1 then s
  else
    let found := FindColumns bound_columns s.update.columns (0, physical_index_set_t.empty)
    let found_column_count := found.1
    let found_columns := found.2
    if found_column_count > 0 ∧ found_column_count ≠ bound_columns.size then
      AddMissingColumns table found_columns bound_columns.elems s
    else s

/-! ## TypeSupportsRegularUpdate -/

mutual
def TypeSupportsRegularUpdate : LogicalType → Bool
  | .mk .LIST _ => false
  | .mk .MAP _ => false
  | .mk .UNION _ => false
  | .mk .STRUCT child_types => StructChildrenSupportRegularUpdate child_types
  | .mk _ _ => true
/-- The loop over the child types of a STRUCT (lines 66-71). -/
def StructChildrenSupportRegularUpdate : List (String × LogicalType) → Bool
  | [] => true
  | entry :: rest =>
    if !TypeSupportsRegularUpdate entry.2 then false
    else StructChildrenSupportRegularUpdate rest
end

/-! ## BindUpdateConstraints -/

/-- The loop over the bound constraints of the table (lines 88-94). -/
def BindCheckConstraints (table : TableCatalogEntry) : List BoundConstraint → Operators → Operators
  | [], s => s
  | constraint :: rest, s =>
    match constraint with
    | .BoundCheckConstraint bound_columns =>
      BindCheckConstraints table rest (BindExtraColumns table s bound_columns)
    | _ => BindCheckConstraints table rest s

/-- The loop `for i < n: all_columns.insert(PhysicalIndex(i))`, from `i` on, with `n - i` rounds left. -/
def InsertAllColumns : Nat → idx_t → physical_index_set_t → physical_index_set_t
  | 0, _, all_columns => all_columns
  | rounds + 1, i, all_columns => InsertAllColumns rounds (i + 1) (all_columns.insert ⟨i⟩)

/-- The set `all_columns` built at lines 97-100 and again at lines 128-131. -/
def AllColumns (storage : DataTable) : physical_index_set_t :=
  InsertAllColumns storage.column_definitions.length 0 physical_index_set_t.empty

/-- The state at line 103: after the CHECK constraints and the expansion for `return_chunk`. -/
def BindCheckAndReturning (table : TableCatalogEntry) (s : Operators) : Operators :=
  let s1 := BindCheckConstraints table table.GetBoundConstraints s
  if s1.update.return_chunk then BindExtraColumns table s1 (AllColumns table.GetStorage) else s1

/-- The call `indexes.Scan(...)` of lines 108-114: the callback stops the scan at the first index
that is updated, after setting the flag. -/
def ScanIndexes (columns : List PhysicalIndex) : List Index → Bool → Bool
  | [], flag => flag
  | index :: rest, flag => if index.IndexIsUpdated columns then true else ScanIndexes columns rest flag

/-- The loop of lines 117-123 over `update.columns`. -/
def ScanColumnTypes (table : TableCatalogEntry) : List PhysicalIndex → Bool → Bool
  | [], flag => flag
  | col_index :: rest, flag =>
    let column := table.GetColumns.GetColumn col_index
    if !TypeSupportsRegularUpdate column.GetType then true else ScanColumnTypes table rest flag

def BindUpdateConstraints (table : TableCatalogEntry) (s : Operators) : Operators :=
  if !table.IsDuckTable then s
  else
    let s2 := BindCheckAndReturning table s
    let storage := table.GetStorage
    let flag0 := false
    let flag1 := ScanIndexes s2.update.columns storage.indexes flag0
    let flag2 := ScanColumnTypes table s2.update.columns flag1
    let s3 : Operators := { s2 with update := { s2.update with update_is_del_and_insert := flag2 } }
    if flag2 then BindExtraColumns table s3 (AllColumns storage) else s3

/-! ## BindUpdateSet -/

/-- What the binder throws.  The three bind errors of `BindUpdateSet` carry the name their message
is formatted with:
`ColumnNotFound c` is "Referenced update column c not found in table!",
`GeneratedColumn c` is "Cant update column "c" because it is a generated column!",
`MultipleAssignments c` is "Multiple assignments to same column "c"".
`CanOnlyUpdateBaseTable` is the bind error "Can only update base table!" of
`Bind(UpdateStatement &)`.
`External` is an error thrown by code called from the binder (expression binding, subquery
planning), `Internal` a failed bounds check or cast. -/
inductive Exception where
  | ColumnNotFound (colname : String)
  | GeneratedColumn (name : String)
  | MultipleAssignments (colname : String)
  | CanOnlyUpdateBaseTable
  | External (code : Nat)
  | Internal
  deriving DecidableEq, Repr

structure UpdateSetInfo where
  condition : Option ParsedExpression
  columns : List String
  expressions : List ParsedExpression

/-- The binding services defined outside `bind_update.cpp` that the UPDATE binder calls. -/
structure BinderServices where
  /-- The call `UpdateBinder::Bind(expr)` with `target_type` set to the second argument. -/
  BindUpdateExpression : ParsedExpression → LogicalType → Except Exception Expression
  /-- The call `PlanSubqueries(expr, root)`, which may rewrite both. -/
  PlanSubqueries : Expression → LogicalOperator → Except Exception (Expression × LogicalOperator)
  /-- The call `WhereBinder::Bind(condition)`. -/
  BindCondition : ParsedExpression → Except Exception Expression
  /-- The call `BindDefaultValues(table.GetColumns(), bound_defaults)`. -/
  BindDefaultValues : ColumnList → Except Exception (List Expression)

/-- The variables of `BindUpdateSet` that its loop changes. -/
structure SetState where
  root : LogicalOperator
  op_expressions : List Expression
  columns : List PhysicalIndex
  projection_expressions : List Expression

/-- The loop of `BindUpdateSet` (lines 145-171) from position `i` on: the arguments are
`set_info.columns` and `set_info.expressions` from `i` on.  The loop runs over the columns;
reading `set_info.expressions[i]` past the end fails the bounds check of the vector. -/
def BindUpdateSetLoop (svc : BinderServices) (proj_index : idx_t) (table : TableCatalogEntry) :
    List String → List ParsedExpression → SetState → Except Exception SetState
  | [], _, st => .ok st
  | _ :: _, [], _ => .error .Internal
  | colname :: colnames, expr :: exprs, st =>
    if !table.ColumnExists colname then
      .error (.ColumnNotFound colname)
    else
      let column := table.GetColumn colname
      if column.Generated then
        .error (.GeneratedColumn column.Name)
      else if column.Physical ∈ st.columns then
        .error (.MultipleAssignments colname)
      else
        let columns := st.columns ++ [column.Physical]
        if expr.type = .VALUE_DEFAULT then
          BindUpdateSetLoop svc proj_index table colnames exprs
            { st with columns := columns,
                      op_expressions := st.op_expressions ++
                        [Expression.BoundDefaultExpression column.GetType] }
        else
          match svc.BindUpdateExpression expr column.GetType with
          | .error e => .error e
          | .ok bound_expr0 =>
            match svc.PlanSubqueries bound_expr0 st.root with
            | .error e => .error e
            | .ok (bound_expr, root) =>
              BindUpdateSetLoop svc proj_index table colnames exprs
                { root := root,
                  columns := columns,
                  op_expressions := st.op_expressions ++
                    [Expression.BoundColumnRefExpression bound_expr.return_type
                      ⟨proj_index, st.projection_expressions.length⟩],
                  projection_expressions := st.projection_expressions ++ [bound_expr] }

/-- What `BindUpdateSet` leaves behind: the operator it returns, and the `expressions` of `op`
and the vector `columns`, both passed by reference. -/
structure BindUpdateSetResult where
  result : LogicalOperator
  op_expressions : List Expression
  columns : List PhysicalIndex

/-- The method `Binder::BindUpdateSet`.  `proj_index` is the value that `GenerateTableIndex()`
returns at line 141; `op_type` and `op_expressions` are the `type` and `expressions` of `op`. -/
def BindUpdateSet (svc : BinderServices) (proj_index : idx_t) (op_type : LogicalOperatorType)
    (op_expressions : List Expression) (root : LogicalOperator) (set_info : UpdateSetInfo)
    (table : TableCatalogEntry) (columns : List PhysicalIndex) :
    Except Exception BindUpdateSetResult :=
  match BindUpdateSetLoop svc proj_index table set_info.columns set_info.expressions
      { root := root, op_expressions := op_expressions, columns := columns,
        projection_expressions := [] } with
  | .error e => .error e
  | .ok st =>
    if op_type ≠ .LOGICAL_UPDATE ∧ st.projection_expressions.isEmpty then
      .ok { result := st.root, op_expressions := st.op_expressions, columns := st.columns }
    else
      .ok { result := .projection proj_index st.projection_expressions st.root,
            op_expressions := st.op_expressions, columns := st.columns }

/-! ## Bind(UpdateStatement) -/

/-- Lines 237-246 of `Bind(UpdateStatement &)`: `BindUpdateSet` on the fresh update operator,
the cast of its result to a projection, `BindUpdateConstraints`, and the row-id column appended
to the projection and to `get.column_ids`.  The scan `get` enters `BindUpdateConstraints` as the
caller holds it: `BindUpdateSet` has no access to it in this file, and what the expression
binder registers in `get.column_ids` through the bind context while it binds the SET
expressions lies outside `bind_update.cpp` and has no counterpart here.
`BindConstraintsAndRowId` is the part of these lines behind `BindUpdateSet`, for an arbitrary
scan. -/
def BindUpdateOperators (svc : BinderServices) (proj_index : idx_t) (table : TableCatalogEntry)
    (get : LogicalGet) (root : LogicalOperator) (update : LogicalUpdate)
    (set_info : UpdateSetInfo) : Except Exception Operators :=
  match BindUpdateSet svc proj_index .LOGICAL_UPDATE update.expressions root set_info table
      update.columns with
  | .error e => .error e
  | .ok r =>
    match r.result with
    | .projection table_index expressions child =>
      let s := BindUpdateConstraints table
        { get := get,
          proj := { table_index := table_index, expressions := expressions, child := child },
          update := { update with expressions := r.op_expressions, columns := r.columns } }
      .ok { s with
            proj := { s.proj with expressions := s.proj.expressions ++
              [Expression.BoundColumnRefExpression LogicalType.ROW_TYPE
                ⟨s.get.table_index, s.get.column_ids.length⟩] },
            get := { s.get with column_ids := s.get.column_ids ++ [COLUMN_IDENTIFIER_ROW_ID] } }
    | _ => .error .Internal

/-- Lines 242-246 of `Bind(UpdateStatement &)`, on the operators as they are once
`BindUpdateSet` has returned: `BindUpdateConstraints`, then the row-id column appended to the
projection and to `get.column_ids`.  `s.get` is the scan that the pointer `get` of lines 203 and
207 reaches at line 242, with whatever has been registered in it until then. -/
def BindConstraintsAndRowId (table : TableCatalogEntry) (s : Operators) : Operators :=
  let s1 := BindUpdateConstraints table s
  { s1 with
    proj := { s1.proj with expressions := s1.proj.expressions ++
      [Expression.BoundColumnRefExpression LogicalType.ROW_TYPE
        ⟨s1.get.table_index, s1.get.column_ids.length⟩] },
    get := { s1.get with column_ids := s1.get.column_ids ++ [COLUMN_IDENTIFIER_ROW_ID] } }

/-! ## Bind(UpdateStatement): the whole method -/

inductive TableReferenceType where
  | INVALID | BASE_TABLE | SUBQUERY | JOIN | TABLE_FUNCTION | EXPRESSION_LIST | CTE | EMPTY
  deriving DecidableEq, Repr

/-- A parsed table reference: its alias and a number standing for the rest of it. -/
structure TableRef where
  «alias» : String
  id : Nat
  deriving DecidableEq, Repr

/-- A bound table reference; only a reference to a base table carries the catalog entry that
`Cast<BoundBaseTableRef>().table` reads. -/
inductive BoundTableRef where
  | BoundBaseTableRef (table : TableCatalogEntry)
  | BoundOtherRef (type : TableReferenceType)

def BoundTableRef.type : BoundTableRef → TableReferenceType
  | .BoundBaseTableRef _ => .BASE_TABLE
  | .BoundOtherRef t => t

inductive StatementReturnType where
  | QUERY_RESULT | CHANGED_ROWS | NOTHING
  deriving DecidableEq, Repr

/-- The member `properties` of the binder, as far as the UPDATE binder writes it. -/
structure StatementProperties where
  modified_databases : List String
  allow_stream_result : Bool
  return_type : StatementReturnType
  deriving DecidableEq, Repr

structure BoundStatement where
  plan : Option LogicalOperator
  types : List LogicalType
  names : List String

structure UpdateStatement where
  table : TableRef
  from_table : Option TableRef
  set_info : UpdateSetInfo
  returning_list : List ParsedExpression

/-- The services of the binder and the catalog that `Bind(UpdateStatement &)` calls and that are
defined outside `bind_update.cpp`. -/
structure StatementServices where
  /-- The call `Bind(*stmt.table)`. -/
  BindTableRef : TableRef → Except Exception BoundTableRef
  /-- Lines 206-207: `CreatePlan(*bound_table)`; the root is the scan of the table. -/
  PlanTable : BoundTableRef → Except Exception (LogicalOperator × LogicalGet)
  /-- Lines 198-204: the FROM clause bound in a child binder, the plan of the cross product with
  the table, and the scan of the table, which is child 0 of that plan. -/
  PlanCrossProduct : BoundTableRef → TableRef → Except Exception (LogicalOperator × LogicalGet)
  /-- The name `table.catalog.GetName()`. -/
  CatalogName : TableCatalogEntry → String
  /-- The operator that `make_uniq<LogicalUpdate>(table)` builds. -/
  MakeLogicalUpdate : TableCatalogEntry → LogicalUpdate
  /-- The call `BindReturning(returning_list, table, alias, update_table_index, update, result)`,
  which may also write the statement properties. -/
  BindReturning : List ParsedExpression → TableCatalogEntry → String → idx_t →
    LogicalOperator → BoundStatement → StatementProperties →
    Except Exception (BoundStatement × StatementProperties)

/-- The call `modified_databases.insert(name)` on the set of modified databases. -/
def InsertDatabase (modified_databases : List String) (name : String) : List String :=
  if name ∈ modified_databases then modified_databases else modified_databases ++ [name]

/-- Lines 224-232: the WHERE condition, if there is one, is bound, its subqueries are planned on
the root, and the root is put under a filter. -/
def BindUpdateCondition (svc : BinderServices) (condition : Option ParsedExpression)
    (root : LogicalOperator) : Except Exception LogicalOperator :=
  match condition with
  | none => .ok root
  | some parsed =>
    match svc.BindCondition parsed with
    | .error e => .error e
    | .ok condition0 =>
      match svc.PlanSubqueries condition0 root with
      | .error e => .error e
      | .ok (bound_condition, root1) => .ok (.filter bound_condition root1)

/-- What `Bind(UpdateStatement &)` leaves behind: the bound statement it returns, the statement
properties of the binder, and the scan of the table, which the plan holds. -/
structure BindOutput where
  result : BoundStatement
  properties : StatementProperties
  get : LogicalGet

/-- The method `Binder::Bind(UpdateStatement &)`.  `proj_index` and `update_table_index` are the
values of the two calls of `GenerateTableIndex()` (lines 141 and 251), `properties` the statement
properties of the binder when the method is entered.  The call `AddCTEMap` of line 194 only
feeds the name resolution of the services and has no counterpart here. -/
def Bind (svc : BinderServices) (ssvc : StatementServices) (proj_index update_table_index : idx_t)
    (properties : StatementProperties) (stmt : UpdateStatement) : Except Exception BindOutput :=
  match ssvc.BindTableRef stmt.table with
  | .error e => .error e
  | .ok bound_table =>
    match bound_table with
    | .BoundOtherRef _ => .error .CanOnlyUpdateBaseTable
    | .BoundBaseTableRef table =>
      let planned :=
        match stmt.from_table with
        | some from_table => ssvc.PlanCrossProduct bound_table from_table
        | none => ssvc.PlanTable bound_table
      match planned with
      | .error e => .error e
      | .ok (root0, get0) =>
        let properties1 : StatementProperties :=
          if !table.temporary then
            { properties with
              modified_databases :=
                InsertDatabase properties.modified_databases (ssvc.CatalogName table) }
          else properties
        let update0 := ssvc.MakeLogicalUpdate table
        let update1 : LogicalUpdate :=
          if !stmt.returning_list.isEmpty then { update0 with return_chunk := true } else update0
        match svc.BindDefaultValues table.GetColumns with
        | .error e => .error e
        | .ok bound_defaults =>
          let update2 : LogicalUpdate := { update1 with bound_defaults := bound_defaults }
          match BindUpdateCondition svc stmt.set_info.condition root0 with
          | .error e => .error e
          | .ok root1 =>
            match BindUpdateOperators svc proj_index table get0 root1 update2 stmt.set_info with
            | .error e => .error e
            | .ok s =>
              let update_operator : LogicalOperator :=
                .update s.update.columns s.update.expressions s.update.return_chunk
                  s.update.update_is_del_and_insert update_table_index
                  (.projection s.proj.table_index s.proj.expressions s.proj.child)
              let result0 : BoundStatement := { plan := none, types := [], names := [] }
              if !stmt.returning_list.isEmpty then
                match ssvc.BindReturning stmt.returning_list table stmt.table.alias
                    update_table_index update_operator result0 properties1 with
                | .error e => .error e
                | .ok (result, properties2) =>
                  .ok { result := result, properties := properties2, get := s.get }
              else
                .ok { result := { plan := some update_operator,
                                  types := [LogicalType.BIGINT],
                                  names := ["Count"] },
                      properties := { properties1 with allow_stream_result := false,
                                                       return_type := .CHANGED_ROWS },
                      get := s.get }

/-! ## DateFormatMap (json_scan.hpp, lines 52-91) -/

/-- A `StrpTimeFormat`: the format specifier it was built from, and a number standing for what
`ParseFormatSpecifier` has derived from it. -/
structure StrpTimeFormat where
  format_specifier : String
  parsed : Nat
  deriving DecidableEq, Repr

/-- A default-constructed `StrpTimeFormat`, as `emplace_back()` creates it. -/
def StrpTimeFormat.default : StrpTimeFormat := ⟨"", 0⟩

/-- The container `type_id_map_t<T>`, an unordered map keyed by type id, given by its lookup:
`none` where `find` returns `end()`. -/
abbrev type_id_map_t (T : Type) := LogicalTypeId → Option T

structure DateFormatMap where
  candidate_formats : type_id_map_t (List StrpTimeFormat)

namespace DateFormatMap

/-- A map without entry, as the member is default-constructed. -/
def empty : DateFormatMap := ⟨fun _ => none⟩

/-- The method `AddFormat`.  The first argument is `StrpTimeFormat::ParseFormatSpecifier`, which is
defined elsewhere and fills the format it is given.  `candidate_formats[type]` creates an empty
vector when the map has no entry for `type`. -/
def AddFormat (ParseFormatSpecifier : String → StrpTimeFormat → StrpTimeFormat)
    (map : DateFormatMap) (type : LogicalTypeId) (format_string : String) : DateFormatMap :=
  let formats := (map.candidate_formats type).getD []
  let back0 : StrpTimeFormat := StrpTimeFormat.default
  let back1 : StrpTimeFormat := { back0 with format_specifier := format_string }
  let back2 := ParseFormatSpecifier back1.format_specifier back1
  { candidate_formats := fun t => if t = type then some (formats ++ [back2])
      else map.candidate_formats t }

/-- The inner loop of `Initialize` (lines 57-59) over the format strings of one entry. -/
def AddFormats (ParseFormatSpecifier : String → StrpTimeFormat → StrpTimeFormat)
    (map : DateFormatMap) (type : LogicalTypeId) : List String → DateFormatMap
  | [] => map
  | format_string :: rest =>
    AddFormats ParseFormatSpecifier (AddFormat ParseFormatSpecifier map type format_string) type rest

/-- The method `Initialize`: `format_templates` is given by its entries in iteration order. -/
def Initialize (ParseFormatSpecifier : String → StrpTimeFormat → StrpTimeFormat)
    (map : DateFormatMap) : List (LogicalTypeId × List String) → DateFormatMap
  | [] => map
  | entry :: rest =>
    Initialize ParseFormatSpecifier (AddFormats ParseFormatSpecifier map entry.1 entry.2) rest

def HasFormats (map : DateFormatMap) (type : LogicalTypeId) : Bool :=
  (map.candidate_formats type).isSome

/-- The method `GetCandidateFormats`: the vector `candidate_formats[type]`, and the map, in which
the subscript has created an empty entry if there was none. -/
def GetCandidateFormats (map : DateFormatMap) (type : LogicalTypeId) :
    List StrpTimeFormat × DateFormatMap :=
  match map.candidate_formats type with
  | some formats => (formats, map)
  | none => ([], { candidate_formats := fun t => if t = type then some []
      else map.candidate_formats t })

/-- The method `GetFormat`: `candidate_formats.find(type)->second.back()`.  The result is `none`
where the C++ expression has no defined value: no entry for `type`, or an empty vector. -/
def GetFormat (map : DateFormatMap) (type : LogicalTypeId) : Option StrpTimeFormat :=
  match map.candidate_formats type with
  | some formats => formats.getLast?
  | none => none

end DateFormatMap

/-- A call that builds up a `DateFormatMap`. -/
inductive DateFormatCall where
  | Initialize (format_templates : List (LogicalTypeId × List String))
  | AddFormat (type : LogicalTypeId) (format_string : String)

/-- The map after one call. -/
def DateFormatMap.Apply (ParseFormatSpecifier : String → StrpTimeFormat → StrpTimeFormat)
    (map : DateFormatMap) : DateFormatCall → DateFormatMap
  | .Initialize format_templates => map.Initialize ParseFormatSpecifier format_templates
  | .AddFormat type format_string => map.AddFormat ParseFormatSpecifier type format_string

/-- The map after a sequence of calls, from left to right. -/
def DateFormatMap.Run (ParseFormatSpecifier : String → StrpTimeFormat → StrpTimeFormat)
    (map : DateFormatMap) : List DateFormatCall → DateFormatMap
  | [] => map
  | call :: rest => DateFormatMap.Run ParseFormatSpecifier (map.Apply ParseFormatSpecifier call) rest

/-! ## JSON scan: batch indices (json_scan.hpp, lines 162-256) -/

/-- The global state of the JSON scan, as far as batch indices go: the atomic counter
`batch_index` (line 186). -/
structure JSONScanGlobalState where
  batch_index : idx_t

/-- The local state of a worker, as far as batch indices go: the batch index of the buffer it
holds (line 210). -/
structure JSONScanLocalState where
  batch_index : idx_t

/-- Modelled from the spec: the hand-out of a batch index when a worker acquires a buffer, which
the header only declares (`ReadNextBuffer`).  Sections 3, 4.4 and 4.6 of the specification: the
batch index is assigned at buffer-acquisition time from the atomic counter of the global state,
increasing with each hand-out.  One atomic step gives the worker the value of the counter and
advances the counter, which is a 64-bit unsigned integer. -/
def AssignBatchIndex (gstate : JSONScanGlobalState) (lstate : JSONScanLocalState) :
    JSONScanGlobalState × JSONScanLocalState :=
  ({ batch_index := (gstate.batch_index + 1) % 2 ^ 64 },
   { lstate with batch_index := gstate.batch_index })

/-- The shared global state and the local states of the workers, numbered from 0. -/
structure ScanStates where
  gstate : JSONScanGlobalState
  lstates : Nat → JSONScanLocalState

/-- Modelled from the spec: the buffer request of one worker, as far as batch indices go: the
hand-out is atomic, so the requests of the workers take place one after the other, in some
order. -/
def RequestBuffer (states : ScanStates) (worker : Nat) : ScanStates :=
  let assigned := AssignBatchIndex states.gstate (states.lstates worker)
  { gstate := assigned.1,
    lstates := fun w => if w = worker then assigned.2 else states.lstates w }

/-- The batch indices handed out, in hand-out order, when the workers request buffers in the
order of `schedule` (the list of the numbers of the requesting workers): each is read from the
local state of the worker after its request. -/
def HandedOutBatchIndices : ScanStates → List Nat → List idx_t
  | _, [] => []
  | states, worker :: rest =>
    ((RequestBuffer states worker).lstates worker).batch_index
      :: HandedOutBatchIndices (RequestBuffer states worker) rest

/-! ## JSON scan: records split over two buffers

The header declares `ReadNextBuffer`, `SkipOverArrayStart`, `ReconstructFirstObject`,
`ParseNextChunk` and `ThrowObjectSizeError` (lines 221-232) without their bodies.  The
definitions of this section follow sections 3, 4.1, 4.3, 4.4 and 4.5 of the specification, for
the newline-delimited and the array framing.  A buffer is the list of its bytes, from the cursor
on; a record is the list of the bytes in front of the boundary that ends it.  Whether the bytes
of a record are well-formed JSON is the matter of the DOM parser, so the errors for malformed
JSON of section 4.5 have no counterpart here. -/

/-- Modelled from the spec: the framing of a file.  The header names the type `JSONFormat` and
its value `AUTO_DETECT` (line 151) without the enumeration; section 4.1 of the specification
lists the framings: newline-delimited objects, one top-level array, and auto-detection. -/
inductive JSONFormat where
  | AUTO_DETECT | NEWLINE_DELIMITED | ARRAY
  deriving DecidableEq, Repr

/-- Modelled from the spec: the error of `ThrowObjectSizeError(object_size)` (declared at line
232), the `SizeError` of section 7: a record exceeds `maximum_object_size`. -/
inductive JSONScanError where
  | ObjectSizeError (object_size : idx_t)
  deriving DecidableEq, Repr

/-- Modelled from the spec: the whitespace that the scan skips in front of the leading bracket of
an array (section 4.4, step 3) and when it sniffs the framing (section 4.1). -/
def IsWhitespace (c : Char) : Bool :=
  c == ' ' || c == '\n' || c == '\t' || c == '\r'

/-- Modelled from the spec: what the boundary scan tracks over the bytes of a record (section
4.3: the depth, the backslash escapes and the toggles of the double quote). -/
structure NestingState where
  depth : Nat
  in_string : Bool
  escaped : Bool
  deriving DecidableEq, Repr

/-- Modelled from the spec: the effect of one byte on what the boundary scan tracks.  Inside a
string a backslash escapes the next byte and an unescaped double quote closes the string; outside
a double quote opens a string, an opening brace or bracket goes one level down and a closing one
comes one level up. -/
def NestingState.Next (state : NestingState) (c : Char) : NestingState :=
  if state.in_string then
    if state.escaped then { state with escaped := false }
    else if c = Char.ofNat 92 then { state with escaped := true }
    else if c = Char.ofNat 34 then { state with in_string := false }
    else state
  else if c = Char.ofNat 34 then { state with in_string := true }
  else if c = Char.ofNat 123 ∨ c = '[' then { state with depth := state.depth + 1 }
  else if c = Char.ofNat 125 ∨ c = ']' then { state with depth := state.depth - 1 }
  else state

/-- Modelled from the spec: whether the scan, after the bytes `current` of the record under way,
is at depth 0 and not inside a string. -/
def AtTopLevel (current : List Char) : Bool :=
  let state := current.foldl NestingState.Next ⟨0, false, false⟩
  state.depth == 0 && !state.in_string

/-- Modelled from the spec: the boundary rules of section 4.3, which the header only declares as
part of `ParseNextChunk`: whether the byte `c`, read after the bytes `current` of the record
under way, ends that record.  Newline-delimited: a newline at depth 0 and not inside a string.
Array: a comma that separates two elements, or the terminal closing bracket, which both stand at
depth 0 outside a string.  There is no rule before the framing is decided. -/
def JSONFormat.IsBoundary (format : JSONFormat) (current : List Char) (c : Char) : Bool :=
  match format with
  | .NEWLINE_DELIMITED => c == '\n' && AtTopLevel current
  | .ARRAY => (c == ',' || c == ']') && AtTopLevel current
  | .AUTO_DETECT => false

/-- Modelled from the spec: whether the bytes behind the last boundary of a terminal buffer are a
record.  Section 4.3: in the newline-delimited framing a "trailing record without newline is
valid iff the buffer is terminal"; in the array framing every element ends at a comma or at the
terminal bracket, which "ends the stream". -/
def JSONFormat.TrailingRecord (format : JSONFormat) : Bool :=
  match format with
  | .NEWLINE_DELIMITED => true
  | _ => false

/-- Modelled from the spec: the scan of the head of a buffer for the next record boundary
(section 4.4, step 4), with the bytes `current` of the record under way: the record that the
boundary ends and the bytes of the buffer behind the boundary, or nothing when the buffer holds
no boundary. -/
def NextRecord (format : JSONFormat) : List Char → List Char → Option (List Char × List Char)
  | _, [] => none
  | current, c :: cs =>
    if format.IsBoundary current c then some (current, cs)
    else NextRecord format (current ++ [c]) cs

/-- Modelled from the spec: the parse of a buffer from the cursor to its end (`ParseNextChunk`,
declared only; section 4.3, step 2), with the bytes `current` of the record under way: the
records that end at a boundary of the buffer, in order, and the unterminated trailing bytes. -/
def ScanRecords (format : JSONFormat) : List Char → List Char → List (List Char) × List Char
  | current, [] => ([], current)
  | current, c :: cs =>
    if format.IsBoundary current c then
      (current :: (ScanRecords format [] cs).1, (ScanRecords format [] cs).2)
    else ScanRecords format (current ++ [c]) cs

/-- Modelled from the spec: the records that a parse hands over: the terminated records, and the
unterminated trailing bytes if the buffer is terminal and the framing takes them as a record
(section 4.3). -/
def EmitRecords (format : JSONFormat) (parsed : List (List Char) × List Char) (is_last : Bool) :
    List (List Char) :=
  parsed.1 ++
    (if is_last = true ∧ format.TrailingRecord = true ∧ parsed.2 ≠ [] then [parsed.2] else [])

/-- Modelled from the spec: section 4.5, "Oversized object (> `maximum_object_size`): always
fatal": the records, or the object size error of the first record that is larger than
`maximum_object_size` (line 127). -/
def CheckObjectSizes (maximum_object_size : idx_t) (records : List (List Char)) :
    Except JSONScanError (List (List Char)) :=
  match records.find? (fun record => decide (maximum_object_size < record.length)) with
  | some record => .error (.ObjectSizeError record.length)
  | none => .ok records

/-- Modelled from the spec: `ReconstructFirstObject` (declared at line 228; section 4.4, step 4):
the leftover tail of the previous buffer is copied into the scratch buffer, the head of the new
buffer is scanned for the next record boundary, and the concatenation is the first record of this
buffer; a concatenation larger than `maximum_object_size` raises the object size error.  The
result is the reconstructed record, the bytes of a record still under way, and the bytes of the
buffer behind the boundary, where the parse goes on.  When the buffer holds no boundary, the
scratch buffer takes the whole buffer: in a terminal buffer its content is left to the parse as
the bytes under way; otherwise the record would reach into a third buffer, against the
invariants of section 3 (a record is a suffix of one buffer and a prefix of its successor, and
the buffer capacity is at least `maximum_object_size`), and the object size error is raised. -/
def ReconstructFirstObject (format : JSONFormat) (maximum_object_size : idx_t)
    (prev_buffer_remainder buffer : List Char) (is_last : Bool) :
    Except JSONScanError (List (List Char) × List Char × List Char) :=
  match NextRecord format prev_buffer_remainder buffer with
  | some (record, rest) =>
    if maximum_object_size < record.length then .error (.ObjectSizeError record.length)
    else .ok ([record], [], rest)
  | none =>
    if is_last then .ok ([], prev_buffer_remainder ++ buffer, [])
    else .error (.ObjectSizeError (prev_buffer_remainder ++ buffer).length)

/-- Modelled from the spec: the work of the worker that holds a buffer (`ReadNextBuffer` and
`ReadNext`, declared only; sections 4.3 and 4.4): when the previous buffer of the file had an
unterminated trailing record, that record is reconstructed first and the parse goes on behind
it; otherwise the buffer is parsed from its first byte.  Every record handed over is checked
against `maximum_object_size`.  The result is the records that this worker materializes and the
unterminated trailing bytes of the buffer, which are passed forward to the worker of the next
buffer. -/
def ReadBuffer (format : JSONFormat) (maximum_object_size : idx_t)
    (prev_buffer_remainder buffer : List Char) (is_last : Bool) :
    Except JSONScanError (List (List Char) × List Char) :=
  let start : Except JSONScanError (List (List Char) × List Char × List Char) :=
    if prev_buffer_remainder = [] then .ok ([], [], buffer)
    else ReconstructFirstObject format maximum_object_size prev_buffer_remainder buffer is_last
  match start with
  | .error e => .error e
  | .ok (first, current, cursor) =>
    let parsed := ScanRecords format current cursor
    match CheckObjectSizes maximum_object_size (EmitRecords format parsed is_last) with
    | .error e => .error e
    | .ok records => .ok (first ++ records, parsed.2)

/-- Modelled from the spec: the records materialized for the buffers of one file, one list for
each buffer, in the order of the buffer indexes, which is the order of the batch indexes.  The
buffers of a reader go through the reconstruction in the order of their indexes (section 3):
the worker that holds a buffer is given the unterminated trailing bytes that the worker of the
buffer before it has passed forward (the first argument).  An error of one worker is the error
of the scan. -/
def ScanBuffers (format : JSONFormat) (maximum_object_size : idx_t) :
    List Char → List (List Char) → Except JSONScanError (List (List (List Char)))
  | _, [] => .ok []
  | prev_buffer_remainder, buffer :: rest =>
    match ReadBuffer format maximum_object_size prev_buffer_remainder buffer rest.isEmpty with
    | .error e => .error e
    | .ok (records, remainder) =>
      match ScanBuffers format maximum_object_size remainder rest with
      | .error e => .error e
      | .ok outputs => .ok (records :: outputs)

/-- Modelled from the spec: the records of a file whose bytes, from the cursor on, are read as
one terminal buffer. -/
def FileRecords (format : JSONFormat) (file : List Char) : List (List Char) :=
  EmitRecords format (ScanRecords format [] file) true

/-- Modelled from the spec: the auto-detection of the framing (section 4.1): "sniff leading
non-whitespace: `[` → array, otherwise newline-delimited". -/
def DetectFormat (buffer : List Char) : JSONFormat :=
  match buffer.dropWhile IsWhitespace with
  | '[' :: _ => .ARRAY
  | _ => .NEWLINE_DELIMITED

/-- Modelled from the spec: `SkipOverArrayStart` (declared at line 225; section 4.4, step 3):
"advance the cursor past whitespace and the leading `[`". -/
def SkipOverArrayStart (buffer : List Char) : List Char :=
  match buffer.dropWhile IsWhitespace with
  | '[' :: rest => rest
  | rest => rest

/-- Modelled from the spec: the scan of the buffers of one file: the framing is decided on the
first buffer when it is to be detected (section 4.3, "Auto"), the cursor of the first buffer of
an array is put behind the leading bracket (section 4.4, step 3), and the buffers are scanned. -/
def ScanFile (format : JSONFormat) (maximum_object_size : idx_t) (buffers : List (List Char)) :
    Except JSONScanError (List (List (List Char))) :=
  match buffers with
  | [] => .ok []
  | first :: rest =>
    let detected := if format = .AUTO_DETECT then DetectFormat first else format
    let cursor := if detected = .ARRAY then SkipOverArrayStart first else first
    ScanBuffers detected maximum_object_size [] (cursor :: rest)

/-! ## Example inputs -/

namespace Example

def INTEGER : LogicalType := .mk .INTEGER []

def INTEGER_LIST : LogicalType := .mk .LIST [("", INTEGER)]

def column_i : ColumnDefinition := ⟨"i", INTEGER, false, ⟨0⟩⟩

def column_j : ColumnDefinition := ⟨"j", INTEGER, false, ⟨1⟩⟩

def column_k : ColumnDefinition := ⟨"k", INTEGER, false, ⟨2⟩⟩

/-- The set of the physical columns 0 and 1. -/
def columns_01 : physical_index_set_t := ⟨[⟨0⟩, ⟨1⟩], by decide⟩

/-- The set of the physical columns 1 and 2. -/
def columns_12 : physical_index_set_t := ⟨[⟨1⟩, ⟨2⟩], by decide⟩

/-- The table `CREATE TABLE t (i INTEGER, j INTEGER, CHECK (i + j < 10))`. -/
def table_ij : TableCatalogEntry :=
  { IsDuckTable := true,
    temporary := false,
    ColumnExists := fun n => n == "i" || n == "j",
    GetColumn := fun n => if n == "j" then column_j else column_i,
    GetColumns := ⟨fun p => if p.index = 1 then column_j else column_i⟩,
    GetBoundConstraints := [.BoundCheckConstraint columns_01],
    GetStorage := ⟨[column_i, column_j], []⟩ }

/-- Expression binding that always succeeds and plans no subquery. -/
def services : BinderServices :=
  { BindUpdateExpression := fun e t => .ok (.other t e.id),
    PlanSubqueries := fun e r => .ok (e, r),
    BindCondition := fun e => .ok (.other (.mk .BOOLEAN []) e.id),
    BindDefaultValues := fun _ => .ok [] }

/-- The scan of the table, with table index 0. -/
def get_empty : LogicalGet := ⟨0, []⟩

/-- The plan of the table scan, as `CreatePlan` hands it over. -/
def root_get : LogicalOperator := .plan .LOGICAL_GET 0

/-- A fresh update operator without RETURNING. -/
def update_fresh : LogicalUpdate := ⟨[], [], false, false, 0, []⟩

/-- A fresh update operator of a statement with RETURNING. -/
def update_returning : LogicalUpdate := ⟨[], [], true, false, 0, []⟩

/-- The set clause `SET i = i + 1` (the expression is number 1). -/
def set_i : UpdateSetInfo := ⟨none, ["i"], [⟨.FUNCTION, 1⟩]⟩

/-- The operators after `BindUpdateSet` for `UPDATE t SET i = i + 1`: the projection has index 1
and holds the bound `i + 1`, the scan reads column `i`. -/
def operators_set_i : Operators :=
  { get := ⟨0, [0]⟩,
    proj := ⟨1, [.other INTEGER 1], root_get⟩,
    update := ⟨[⟨0⟩], [.BoundColumnRefExpression INTEGER ⟨1, 0⟩], false, false, 0, []⟩ }

/-- The table `CREATE TABLE t (i INTEGER, j INTEGER, k INTEGER, CHECK (i + j < 10),
CHECK (j + k < 10))`. -/
def table_ijk : TableCatalogEntry :=
  { IsDuckTable := true,
    temporary := false,
    ColumnExists := fun n => n == "i" || n == "j" || n == "k",
    GetColumn := fun n => if n == "k" then column_k else if n == "j" then column_j else column_i,
    GetColumns := ⟨fun p => if p.index = 2 then column_k else if p.index = 1 then column_j
      else column_i⟩,
    GetBoundConstraints := [.BoundCheckConstraint columns_01, .BoundCheckConstraint columns_12],
    GetStorage := ⟨[column_i, column_j, column_k], []⟩ }

/-- The set clause `SET k = 1` (the expression is number 1). -/
def set_k : UpdateSetInfo := ⟨none, ["k"], [⟨.VALUE_CONSTANT, 1⟩]⟩

/-- The set clause `SET i = DEFAULT`. -/
def set_i_default : UpdateSetInfo := ⟨none, ["i"], [⟨.VALUE_DEFAULT, 0⟩]⟩

/-- What `BindUpdateSet` returns for `SET i = i + 1` on an update operator. -/
def result_set_i : BindUpdateSetResult :=
  { result := .projection 1 [.other INTEGER 1] root_get,
    op_expressions := [.BoundColumnRefExpression INTEGER ⟨1, 0⟩],
    columns := [⟨0⟩] }

/-- The set clause `SET i = i + 1, j = 2, i = 3`. -/
def set_i_j_i : UpdateSetInfo :=
  ⟨none, ["i", "j", "i"], [⟨.FUNCTION, 1⟩, ⟨.VALUE_CONSTANT, 2⟩, ⟨.VALUE_CONSTANT, 3⟩]⟩

/-- A generated column `b INTEGER[] GENERATED ALWAYS AS ([a])`: it has no place in the storage,
its physical index is the invalid index. -/
def column_b_generated : ColumnDefinition := ⟨"b", INTEGER_LIST, true, ⟨2 ^ 64 - 1⟩⟩

def column_a : ColumnDefinition := ⟨"a", INTEGER, false, ⟨0⟩⟩

/-- The table `CREATE TABLE t (a INTEGER, b INTEGER[] GENERATED ALWAYS AS ([a]))`: two columns,
of which only `a` is stored. -/
def table_generated : TableCatalogEntry :=
  { IsDuckTable := true,
    temporary := false,
    ColumnExists := fun n => n == "a" || n == "b",
    GetColumn := fun n => if n == "b" then column_b_generated else column_a,
    GetColumns := ⟨fun _ => column_a⟩,
    GetBoundConstraints := [],
    GetStorage := ⟨[column_a], []⟩ }

/-- The set clause `SET a = 1` (the expression is number 1). -/
def set_a : UpdateSetInfo := ⟨none, ["a"], [⟨.VALUE_CONSTANT, 1⟩]⟩

/-- The operators after `BindUpdateSet` for `UPDATE t SET a = 1 RETURNING *`. -/
def operators_set_a_returning : Operators :=
  { get := ⟨0, []⟩,
    proj := ⟨1, [.other INTEGER 1], root_get⟩,
    update := ⟨[⟨0⟩], [.BoundColumnRefExpression INTEGER ⟨1, 0⟩], true, false, 0, []⟩ }

def column_l : ColumnDefinition := ⟨"l", INTEGER_LIST, false, ⟨1⟩⟩

/-- The table `CREATE TABLE t (i INTEGER, l INTEGER[])`. -/
def table_il : TableCatalogEntry :=
  { IsDuckTable := true,
    temporary := false,
    ColumnExists := fun n => n == "i" || n == "l",
    GetColumn := fun n => if n == "l" then column_l else column_i,
    GetColumns := ⟨fun p => if p.index = 1 then column_l else column_i⟩,
    GetBoundConstraints := [],
    GetStorage := ⟨[column_i, column_l], []⟩ }

/-- The operators after `BindUpdateSet` for `UPDATE t SET i = i + 1 RETURNING *`. -/
def operators_set_i_returning : Operators :=
  { get := ⟨0, [0]⟩,
    proj := ⟨1, [.other INTEGER 1], root_get⟩,
    update := ⟨[⟨0⟩], [.BoundColumnRefExpression INTEGER ⟨1, 0⟩], true, false, 0, []⟩ }

/-- A table of another catalog (not a duck table) with the columns and the constraint of
`table_ij`. -/
def table_foreign : TableCatalogEntry := { table_ij with IsDuckTable := false }

/-- What `BindUpdateSet` returns for `SET i = DEFAULT` on an update operator: a projection
without expressions over the root. -/
def result_set_i_default : BindUpdateSetResult :=
  { result := .projection 1 [] root_get,
    op_expressions := [.BoundDefaultExpression INTEGER],
    columns := [⟨0⟩] }

/-- The operators that `BindUpdateOperators` returns for `UPDATE t SET i = i + 1` under
`CHECK (i + j < 10)`, with no column scanned initially. -/
def operators_bound_set_i : Operators :=
  { get := ⟨0, [1, COLUMN_IDENTIFIER_ROW_ID]⟩,
    proj := ⟨1, [.other INTEGER 1,
      .BoundColumnRefExpression INTEGER ⟨0, 0⟩,
      .BoundColumnRefExpression LogicalType.ROW_TYPE ⟨0, 1⟩], root_get⟩,
    update := ⟨[⟨0⟩, ⟨1⟩], [.BoundColumnRefExpression INTEGER ⟨1, 0⟩,
      .BoundColumnRefExpression INTEGER ⟨1, 1⟩], false, false, 0, []⟩ }

/-- Services that bind every table reference to `table_ij`, plan its scan as `root_get`, and
hand a RETURNING clause back as a result without columns. -/
def statement_services : StatementServices :=
  { BindTableRef := fun _ => .ok (.BoundBaseTableRef table_ij),
    PlanTable := fun _ => .ok (root_get, get_empty),
    PlanCrossProduct := fun _ _ => .ok (.plan .LOGICAL_CROSS_PRODUCT 1, get_empty),
    CatalogName := fun _ => "memory",
    MakeLogicalUpdate := fun _ => update_fresh,
    BindReturning := fun _ _ _ _ op result properties =>
      .ok ({ result with plan := some op }, properties) }

/-- The statement properties of a binder that has bound nothing yet. -/
def properties_initial : StatementProperties := ⟨[], true, .QUERY_RESULT⟩

/-- The statement `UPDATE t SET i = i + 1`. -/
def statement_set_i : UpdateStatement :=
  { table := ⟨"t", 0⟩, from_table := none, set_info := set_i, returning_list := [] }

/-- What `Bind` leaves behind for `UPDATE t SET i = i + 1` on `table_ij`, with 1 and 2 as the
generated table indexes. -/
def output_set_i : BindOutput :=
  { result :=
      { plan := some (.update operators_bound_set_i.update.columns
          operators_bound_set_i.update.expressions false false 2
          (.projection 1 operators_bound_set_i.proj.expressions root_get)),
        types := [LogicalType.BIGINT],
        names := ["Count"] },
    properties := ⟨["memory"], false, .CHANGED_ROWS⟩,
    get := operators_bound_set_i.get }

/-- A parser of format specifiers that records the length of the specifier. -/
def parse_format (format_string : String) (format : StrpTimeFormat) : StrpTimeFormat :=
  { format with parsed := format_string.length }

/-- The calls `Initialize` with two DATE templates and one TIMESTAMP template, then
`AddFormat(DATE, "%d.%m.%Y")`. -/
def date_format_calls : List DateFormatCall :=
  [.Initialize [(.DATE, ["%m-%d-%Y", "%Y-%m-%d"]), (.TIMESTAMP, ["%Y-%m-%d %H:%M:%S"])],
   .AddFormat .DATE "%d.%m.%Y"]

/-- Three workers at the start of a scan. -/
def scan_start : ScanStates := ⟨⟨0⟩, fun _ => ⟨0⟩⟩

/-- The first buffer of the file of scenario 1 of the specification, which a small buffer
capacity ends in the middle of the second record. -/
def buffer_0 : List Char := "\x7b\"a\":1\x7d\n\x7b\"a\"".toList

/-- The second and last buffer of that file. -/
def buffer_1 : List Char := ":2\x7d\n\x7b\"a\":3\x7d\n".toList

/-- Services as `statement_services`, binding every table reference to `table_il`. -/
def statement_services_il : StatementServices :=
  { statement_services with BindTableRef := fun _ => .ok (.BoundBaseTableRef table_il) }

/-- The statement `UPDATE t SET i = i + 1 RETURNING i` (the returned expression is number 2). -/
def statement_set_i_returning : UpdateStatement :=
  { table := ⟨"t", 0⟩, from_table := none, set_info := set_i,
    returning_list := [⟨.COLUMN_REF, 2⟩] }

/-- The first buffer of the file of scenario 3 of the specification, an array of two records,
which a small buffer capacity ends in the middle of the second record. -/
def array_0 : List Char := "[\x7b\"x\":1\x7d,\x7b\"x\"".toList

/-- The second and last buffer of that file. -/
def array_1 : List Char := ":2\x7d]".toList

end Example

/-! ## Notions used in the statements -/

/-- The columns that one call of `BindExtraColumns` appends to `update.columns`, computed from
`update.columns` and the bound columns alone: the bound columns outside `update.columns`, in
iteration order, when the call gets past its two tests, and nothing otherwise. -/
def ExtraColumns (columns : List PhysicalIndex) (bound_columns : physical_index_set_t) :
    List PhysicalIndex :=
  if bound_columns.size ≤ 1 then []
  else if (columns.filter (fun c => bound_columns.contains c)).length > 0 ∧
      (columns.filter (fun c => bound_columns.contains c)).length ≠ bound_columns.size then
    bound_columns.elems.filter (fun c => decide (c ∉ columns))
  else []

/-- The effect of `ProjectColumn` for each column of a list, in turn. -/
def ProjectColumns (table : TableCatalogEntry) (s : Operators) (l : List PhysicalIndex) : Operators :=
  l.foldl (ProjectColumn table) s

/-- The operators with `update.update_is_del_and_insert` set to `b`. -/
def SetDelAndInsert (s : Operators) (b : Bool) : Operators :=
  { s with update := { s.update with update_is_del_and_insert := b } }

/-- The relation between the operators before and after constraint-driven expansion: a list of
columns was appended to `update.columns`, their indexes to `get.column_ids`, and one expression
for each of them to `update.expressions` and to `proj.expressions`. -/
def ExtendsBy (s s' : Operators) (added : List PhysicalIndex) : Prop :=
  s'.update.columns = s.update.columns ++ added ∧
  s'.get.column_ids = s.get.column_ids ++ added.map (fun c => c.index) ∧
  s'.update.expressions.length = s.update.expressions.length + added.length ∧
  s'.proj.expressions.length = s.proj.expressions.length + added.length ∧
  s'.update.return_chunk = s.update.return_chunk

/-- The three checks that section 4.7 of the specification lists for one `(name, expr)` pair, in
its order: the column must exist, must not be generated, and its physical index must not be in
`columns` already.  The result is the bind error of the first check that fails, if any. -/
def PairError (table : TableCatalogEntry) (columns : List PhysicalIndex) (colname : String) :
    Option Exception :=
  if table.ColumnExists colname = false then
    some (.ColumnNotFound colname)
  else if (table.GetColumn colname).Generated = true then
    some (.GeneratedColumn (table.GetColumn colname).Name)
  else if (table.GetColumn colname).Physical ∈ columns then
    some (.MultipleAssignments colname)
  else none

/-- The physical indexes assigned by the pairs before position `i` of the set clause. -/
def AssignedBefore (table : TableCatalogEntry) (colnames : List String) (i : Nat) :
    List PhysicalIndex :=
  (colnames.take i).map (fun n => (table.GetColumn n).Physical)

/-- The relation `u` is the type of a field of the STRUCT type `t`. -/
def IsStructField (t u : LogicalType) : Prop :=
  t.id = .STRUCT ∧ ∃ name : String, (name, u) ∈ t.child_types

/-- The type is a LIST, a MAP or a UNION. -/
def IsListMapOrUnion (t : LogicalType) : Prop :=
  t.id = .LIST ∨ t.id = .MAP ∨ t.id = .UNION

/-- The type is LIST, MAP or UNION, or a STRUCT with such a field at some depth of STRUCT
nesting: a chain of STRUCT fields leads from `t` to a LIST, MAP or UNION type. -/
def HasListMapOrUnion (t : LogicalType) : Prop :=
  ∃ u, Relation.ReflTransGen IsStructField t u ∧ IsListMapOrUnion u

/-- The format strings that one `Initialize` call adds for the type `t`, in the order of the
calls of `AddFormat` that it makes. -/
def TemplateFormats (t : LogicalTypeId) : List (LogicalTypeId × List String) → List String
  | [] => []
  | entry :: rest => (if entry.1 = t then entry.2 else []) ++ TemplateFormats t rest

/-- The format strings added for the type `t` by a sequence of calls, in the order in which they
were added. -/
def AddedFormats (t : LogicalTypeId) : List DateFormatCall → List String
  | [] => []
  | .Initialize format_templates :: rest => TemplateFormats t format_templates ++ AddedFormats t rest
  | .AddFormat type format_string :: rest =>
    (if type = t then [format_string] else []) ++ AddedFormats t rest

/-- The format that `AddFormat` appends for a format string. -/
def NewFormat (ParseFormatSpecifier : String → StrpTimeFormat → StrpTimeFormat)
    (format_string : String) : StrpTimeFormat :=
  ParseFormatSpecifier format_string { StrpTimeFormat.default with format_specifier := format_string }

/-- The candidate list of a type, empty when the map has no entry for it. -/
def DateFormatMap.Candidates (map : DateFormatMap) (t : LogicalTypeId) : List StrpTimeFormat :=
  (map.candidate_formats t).getD []

/-- The expression `e` is what `BindUpdateSet` pushes to `update.expressions` for the pair
`(colname, expr)` of the set clause: a bound default expression when `expr` is DEFAULT, and
otherwise a reference to the slot `k` of the projection `proj_index`, where `projection` holds
the bound form of `expr` (bound with the type of the column as target type, its subqueries
planned on the root of the moment). -/
def IsSetAssignment (svc : BinderServices) (table : TableCatalogEntry) (proj_index : idx_t)
    (projection : List Expression) (colname : String) (expr : ParsedExpression)
    (e : Expression) : Prop :=
  (expr.type = .VALUE_DEFAULT ∧
    e = Expression.BoundDefaultExpression (table.GetColumn colname).GetType) ∨
  (expr.type ≠ .VALUE_DEFAULT ∧
    ∃ (bound_expr0 : Expression) (root0 : LogicalOperator) (bound_expr : Expression)
      (root1 : LogicalOperator) (k : idx_t),
      svc.BindUpdateExpression expr (table.GetColumn colname).GetType = .ok bound_expr0 ∧
      svc.PlanSubqueries bound_expr0 root0 = .ok (bound_expr, root1) ∧
      e = Expression.BoundColumnRefExpression bound_expr.return_type ⟨proj_index, k⟩ ∧
      projection[k]? = some bound_expr)

/-- The expression `e` is the self-assignment `c = c` of a column added by constraint expansion:
a reference to a slot `k` of the projection, which holds a reference to the output column `p` of
the scan, and `get.column_ids[p]` is the index of `c`. -/
def IsSelfAssignment (table : TableCatalogEntry) (s : Operators) (c : PhysicalIndex)
    (e : Expression) : Prop :=
  ∃ (k p : idx_t),
    e = Expression.BoundColumnRefExpression (table.GetColumns.GetColumn c).GetType
      ⟨s.proj.table_index, k⟩ ∧
    s.proj.expressions[k]? = some (Expression.BoundColumnRefExpression
      (table.GetColumns.GetColumn c).GetType ⟨s.get.table_index, p⟩) ∧
    s.get.column_ids[p]? = some c.index

/-- The column references of the list have different ordinals at different positions. -/
def DistinctOrdinals (exprs : List Expression) : Prop :=
  ∀ (i j : Nat) (ti tj : LogicalType) (bi bj : ColumnBinding),
    exprs[i]? = some (Expression.BoundColumnRefExpression ti bi) →
    exprs[j]? = some (Expression.BoundColumnRefExpression tj bj) →
    bi.column_index = bj.column_index → i = j

/-- The column references of the list have the given table index and an ordinal from `lo` on and
below `hi`. -/
def OrdinalsWithin (exprs : List Expression) (table_index lo hi : idx_t) : Prop :=
  ∀ (i : Nat) (t : LogicalType) (b : ColumnBinding),
    exprs[i]? = some (Expression.BoundColumnRefExpression t b) →
    b.table_index = table_index ∧ lo ≤ b.column_index ∧ b.column_index < hi

/-- The link between the update operator, the projection and the scan that the binder builds for
a set clause: `update.expressions` has one entry for each entry of `update.columns`; the first
entries are the set assignments of the pairs of the set clause, in order; every later entry is
the self-assignment of its column; and the column references in `update.expressions` point into
the projection, with distinct ordinals. -/
def UpdateLinked (svc : BinderServices) (table : TableCatalogEntry) (set_info : UpdateSetInfo)
    (s : Operators) : Prop :=
  s.update.expressions.length = s.update.columns.length ∧
  (∀ (i : Nat) (colname : String), set_info.columns[i]? = some colname →
    ∃ expr e, set_info.expressions[i]? = some expr ∧ s.update.expressions[i]? = some e ∧
      s.update.columns[i]? = some (table.GetColumn colname).Physical ∧
      IsSetAssignment svc table s.proj.table_index s.proj.expressions colname expr e) ∧
  (∀ (i : Nat) (c : PhysicalIndex), set_info.columns.length ≤ i →
    s.update.columns[i]? = some c →
    ∃ e, s.update.expressions[i]? = some e ∧ IsSelfAssignment table s c e) ∧
  OrdinalsWithin s.update.expressions s.proj.table_index 0 s.proj.expressions.length ∧
  DistinctOrdinals s.update.expressions

/-- The unterminated bytes in front of buffer `k`: what the scan of the buffers before it, read
as one run of bytes, leaves behind its last boundary. -/
def RemainderBefore (format : JSONFormat) (buffers : List (List Char)) (k : Nat) : List Char :=
  (ScanRecords format [] (buffers.take k).flatten).2

/-! ## Lemmas on the set container -/

namespace physical_index_set_t

theorem contains_iff (s : physical_index_set_t) (x : PhysicalIndex) :
    s.contains x = true ↔ x ∈ s.elems := by
  simp [contains]

theorem contains_eq_false_iff (s : physical_index_set_t) (x : PhysicalIndex) :
    s.contains x = false ↔ x ∉ s.elems := by
  simp [contains]

theorem mem_insert (s : physical_index_set_t) (x y : PhysicalIndex) :
    y ∈ (s.insert x).elems ↔ y ∈ s.elems ∨ y = x := by
  unfold insert
  by_cases h : x ∈ s.elems
  · rw [dif_pos h]
    constructor
    · intro hy; exact Or.inl hy
    · rintro (hy | rfl)
      · exact hy
      · exact h
  · rw [dif_neg h]
    simp

end physical_index_set_t

/-! ## Lemmas on BindExtraColumns -/

theorem FindColumns_fst (B : physical_index_set_t) :
    ∀ (cols : List PhysicalIndex) (k : idx_t) (F : physical_index_set_t),
      (FindColumns B cols (k, F)).1 = k + (cols.filter (fun c => B.contains c)).length := by
  intro cols
  induction cols with
  | nil => intro k F; simp [FindColumns]
  | cons c rest ih =>
    intro k F
    by_cases hc : B.contains c = true
    · simp only [FindColumns, hc, if_true, List.filter_cons_of_pos, List.length_cons]
      rw [ih]; exact Nat.add_right_comm k 1 _
    · simp only [FindColumns, hc, Bool.false_eq_true, if_false]
      rw [ih, List.filter_cons_of_neg hc]

theorem FindColumns_snd_mem (B : physical_index_set_t) :
    ∀ (cols : List PhysicalIndex) (k : idx_t) (F : physical_index_set_t) (x : PhysicalIndex),
      x ∈ (FindColumns B cols (k, F)).2.elems ↔ x ∈ F.elems ∨ (x ∈ cols ∧ x ∈ B.elems) := by
  intro cols
  induction cols with
  | nil => intro k F x; simp [FindColumns]
  | cons c rest ih =>
    intro k F x
    by_cases hc : B.contains c = true
    · simp only [FindColumns, hc, if_true]
      rw [ih, physical_index_set_t.mem_insert, List.mem_cons]
      have hcB := (physical_index_set_t.contains_iff B c).1 hc
      constructor
      · rintro ((h | h) | ⟨h1, h2⟩)
        · exact Or.inl h
        · subst h; exact Or.inr ⟨Or.inl rfl, hcB⟩
        · exact Or.inr ⟨Or.inr h1, h2⟩
      · rintro (h | ⟨h1 | h1, h2⟩)
        · exact Or.inl (Or.inl h)
        · exact Or.inl (Or.inr h1)
        · exact Or.inr ⟨h1, h2⟩
    · simp only [FindColumns, hc, Bool.false_eq_true, if_false]
      rw [ih, List.mem_cons]
      have hcB : c ∉ B.elems := fun h => hc ((physical_index_set_t.contains_iff B c).2 h)
      constructor
      · rintro (h | ⟨h1, h2⟩)
        · exact Or.inl h
        · exact Or.inr ⟨Or.inr h1, h2⟩
      · rintro (h | ⟨h1 | h1, h2⟩)
        · exact Or.inl h
        · subst h1; exact absurd h2 hcB
        · exact Or.inr ⟨h1, h2⟩

theorem AddMissingColumns_eq (table : TableCatalogEntry) (F : physical_index_set_t) :
    ∀ (l : List PhysicalIndex) (s : Operators),
      AddMissingColumns table F l s
        = ProjectColumns table s (l.filter (fun c => !F.contains c)) := by
  intro l
  induction l with
  | nil => intro s; simp [AddMissingColumns, ProjectColumns]
  | cons c rest ih =>
    intro s
    by_cases hc : F.contains c = true
    · simp only [AddMissingColumns, hc, if_true]
      rw [ih]
      simp [hc]
    · have hc' : F.contains c = false := by simpa using hc
      simp only [AddMissingColumns, hc', Bool.false_eq_true, if_false]
      rw [ih]
      simp [hc', ProjectColumns]

/-- The call `BindExtraColumns` projects exactly the columns of `ExtraColumns`, one after the other. -/
theorem BindExtraColumns_eq (table : TableCatalogEntry) (s : Operators) (B : physical_index_set_t) :
    BindExtraColumns table s B = ProjectColumns table s (ExtraColumns s.update.columns B) := by
  unfold BindExtraColumns ExtraColumns
  by_cases h1 : B.size ≤ 1
  · simp [h1, ProjectColumns]
  · simp only [h1, if_false]
    rw [FindColumns_fst]
    simp only [Nat.zero_add]
    split
    · rw [AddMissingColumns_eq]
      congr 1
      apply List.filter_congr
      intro x hx
      have hmem := FindColumns_snd_mem B s.update.columns 0 physical_index_set_t.empty x
      simp only [physical_index_set_t.empty, List.not_mem_nil, false_or] at hmem
      by_cases hxc : x ∈ s.update.columns
      · have : x ∈ (FindColumns B s.update.columns (0, ⟨[], List.nodup_nil⟩)).2.elems :=
          hmem.2 ⟨hxc, hx⟩
        simp [physical_index_set_t.contains, this, hxc, physical_index_set_t.empty]
      · have : x ∉ (FindColumns B s.update.columns (0, ⟨[], List.nodup_nil⟩)).2.elems :=
          fun h => hxc (hmem.1 h).1
        simp [physical_index_set_t.contains, this, hxc, physical_index_set_t.empty]
    · simp [ProjectColumns]

theorem ProjectColumns_cons (table : TableCatalogEntry) (s : Operators) (c : PhysicalIndex)
    (l : List PhysicalIndex) :
    ProjectColumns table s (c :: l) = ProjectColumns table (ProjectColumn table s c) l := rfl

theorem ProjectColumns_update_columns (table : TableCatalogEntry) :
    ∀ (l : List PhysicalIndex) (s : Operators),
      (ProjectColumns table s l).update.columns = s.update.columns ++ l := by
  intro l
  induction l with
  | nil => intro s; simp [ProjectColumns]
  | cons c rest ih => intro s; rw [ProjectColumns_cons, ih]; simp [ProjectColumn]

theorem ProjectColumns_column_ids (table : TableCatalogEntry) :
    ∀ (l : List PhysicalIndex) (s : Operators),
      (ProjectColumns table s l).get.column_ids
        = s.get.column_ids ++ l.map (fun c => c.index) := by
  intro l
  induction l with
  | nil => intro s; simp [ProjectColumns]
  | cons c rest ih => intro s; rw [ProjectColumns_cons, ih]; simp [ProjectColumn]

theorem ProjectColumns_update_expressions_length (table : TableCatalogEntry) :
    ∀ (l : List PhysicalIndex) (s : Operators),
      (ProjectColumns table s l).update.expressions.length
        = s.update.expressions.length + l.length := by
  intro l
  induction l with
  | nil => intro s; simp [ProjectColumns]
  | cons c rest ih =>
    intro s; rw [ProjectColumns_cons, ih]; simp [ProjectColumn]; exact Nat.add_right_comm _ _ _

theorem ProjectColumns_proj_expressions_length (table : TableCatalogEntry) :
    ∀ (l : List PhysicalIndex) (s : Operators),
      (ProjectColumns table s l).proj.expressions.length
        = s.proj.expressions.length + l.length := by
  intro l
  induction l with
  | nil => intro s; simp [ProjectColumns]
  | cons c rest ih =>
    intro s; rw [ProjectColumns_cons, ih]; simp [ProjectColumn]; exact Nat.add_right_comm _ _ _

theorem ProjectColumns_return_chunk (table : TableCatalogEntry) :
    ∀ (l : List PhysicalIndex) (s : Operators),
      (ProjectColumns table s l).update.return_chunk = s.update.return_chunk := by
  intro l
  induction l with
  | nil => intro s; rfl
  | cons c rest ih => intro s; rw [ProjectColumns_cons, ih]; rfl

theorem ProjectColumns_flag (table : TableCatalogEntry) :
    ∀ (l : List PhysicalIndex) (s : Operators),
      (ProjectColumns table s l).update.update_is_del_and_insert
        = s.update.update_is_del_and_insert := by
  intro l
  induction l with
  | nil => intro s; rfl
  | cons c rest ih => intro s; rw [ProjectColumns_cons, ih]; rfl

/-! ### The list of extra columns -/

theorem filter_bound_pos_iff (cols : List PhysicalIndex) (B : physical_index_set_t) :
    (cols.filter (fun c => B.contains c)).length > 0 ↔ ∃ b ∈ B.elems, b ∈ cols := by
  rw [gt_iff_lt, List.length_pos_iff_exists_mem]
  constructor
  · rintro ⟨a, ha⟩
    rw [List.mem_filter] at ha
    exact ⟨a, (physical_index_set_t.contains_iff B a).1 ha.2, ha.1⟩
  · rintro ⟨b, hb, hc⟩
    exact ⟨b, List.mem_filter.2 ⟨hc, (physical_index_set_t.contains_iff B b).2 hb⟩⟩

theorem filter_bound_length_eq_iff (cols : List PhysicalIndex) (B : physical_index_set_t)
    (hnd : cols.Nodup) :
    (cols.filter (fun c => B.contains c)).length = B.size ↔ ∀ b ∈ B.elems, b ∈ cols := by
  have hfnd : (cols.filter (fun c => B.contains c)).Nodup := hnd.filter _
  have hsub : cols.filter (fun c => B.contains c) ⊆ B.elems := by
    intro a ha
    rw [List.mem_filter] at ha
    exact (physical_index_set_t.contains_iff B a).1 ha.2
  have hsp : (cols.filter (fun c => B.contains c)).Subperm B.elems :=
    List.subperm_of_subset hfnd hsub
  constructor
  · intro hlen b hb
    have hperm : (cols.filter (fun c => B.contains c)).Perm B.elems :=
      hsp.perm_of_length_le (by unfold physical_index_set_t.size at hlen; rw [hlen])
    have : b ∈ cols.filter (fun c => B.contains c) := hperm.mem_iff.2 hb
    exact (List.mem_filter.1 this).1
  · intro hall
    have hsub2 : B.elems ⊆ cols.filter (fun c => B.contains c) := by
      intro b hb
      exact List.mem_filter.2 ⟨hall b hb, (physical_index_set_t.contains_iff B b).2 hb⟩
    have hsp2 : B.elems.Subperm (cols.filter (fun c => B.contains c)) :=
      List.subperm_of_subset B.nodup hsub2
    exact Nat.le_antisymm hsp.length_le hsp2.length_le

theorem ExtraColumns_mem (cols : List PhysicalIndex) (B : physical_index_set_t) (c : PhysicalIndex)
    (hc : c ∈ ExtraColumns cols B) : c ∈ B.elems ∧ c ∉ cols := by
  unfold ExtraColumns at hc
  split at hc
  · simp at hc
  · split at hc
    · rw [List.mem_filter] at hc
      exact ⟨hc.1, by simpa using hc.2⟩
    · simp at hc

theorem ExtraColumns_nodup (cols : List PhysicalIndex) (B : physical_index_set_t) :
    (ExtraColumns cols B).Nodup := by
  unfold ExtraColumns
  split
  · exact List.nodup_nil
  · split
    · exact B.nodup.filter _
    · exact List.nodup_nil

/-- Appending the extra columns keeps `update.columns` duplicate-free. -/
theorem nodup_append_ExtraColumns (cols : List PhysicalIndex) (B : physical_index_set_t)
    (hnd : cols.Nodup) : (cols ++ ExtraColumns cols B).Nodup := by
  rw [List.nodup_append]
  refine ⟨hnd, ExtraColumns_nodup cols B, ?_⟩
  intro a ha hb
  exact (ExtraColumns_mem cols B a hb).2 ha

/-- When `update.columns` is duplicate-free, the two tests of `BindExtraColumns` pass exactly when
some but not all bound columns are updated. -/
theorem ExtraColumns_of_some_not_all (cols : List PhysicalIndex) (B : physical_index_set_t)
    (hnd : cols.Nodup) (hsome : ∃ b ∈ B.elems, b ∈ cols) (hnotall : ¬ ∀ b ∈ B.elems, b ∈ cols) :
    ExtraColumns cols B = B.elems.filter (fun c => decide (c ∉ cols)) := by
  have hsize : ¬ B.size ≤ 1 := by
    intro hle
    apply hnotall
    obtain ⟨b, hb, hbc⟩ := hsome
    intro b' hb'
    have : B.elems = [b] := by
      unfold physical_index_set_t.size at hle
      match hB : B.elems, hle, hb with
      | [], _, h => simp at h
      | [x], _, h => simp at h; rw [h]
      | _ :: _ :: _, hl, _ => simp at hl
    rw [this] at hb'
    rw [List.mem_singleton] at hb'
    rw [hb']; exact hbc
  unfold ExtraColumns
  rw [if_neg hsize, if_pos]
  exact ⟨(filter_bound_pos_iff cols B).2 hsome,
    fun h => hnotall ((filter_bound_length_eq_iff cols B hnd).1 h)⟩

/-- With a duplicate-free `update.columns`, a constraint one of whose columns is updated
has all its columns in `update.columns` after the call. -/
theorem ExtraColumns_complete (cols : List PhysicalIndex) (B : physical_index_set_t)
    (hnd : cols.Nodup) (hsome : ∃ b ∈ B.elems, b ∈ cols) :
    ∀ b ∈ B.elems, b ∈ cols ++ ExtraColumns cols B := by
  intro b hb
  by_cases hall : ∀ b ∈ B.elems, b ∈ cols
  · exact List.mem_append_left _ (hall b hb)
  · rw [ExtraColumns_of_some_not_all cols B hnd hsome hall]
    by_cases hbc : b ∈ cols
    · exact List.mem_append_left _ hbc
    · exact List.mem_append_right _ (List.mem_filter.2 ⟨hb, by simpa using hbc⟩)

theorem ExtraColumns_of_disjoint (cols : List PhysicalIndex) (B : physical_index_set_t)
    (hnone : ¬ ∃ b ∈ B.elems, b ∈ cols) : ExtraColumns cols B = [] := by
  unfold ExtraColumns
  split
  · rfl
  · rw [if_neg]
    intro h
    exact hnone ((filter_bound_pos_iff cols B).1 h.1)

theorem ExtraColumns_of_all (cols : List PhysicalIndex) (B : physical_index_set_t)
    (hnd : cols.Nodup) (hall : ∀ b ∈ B.elems, b ∈ cols) : ExtraColumns cols B = [] := by
  unfold ExtraColumns
  split
  · rfl
  · rw [if_neg]
    intro h
    exact h.2 ((filter_bound_length_eq_iff cols B hnd).2 hall)

/-! ### One call of BindExtraColumns -/

theorem BindExtraColumns_columns (table : TableCatalogEntry) (s : Operators)
    (B : physical_index_set_t) :
    (BindExtraColumns table s B).update.columns
      = s.update.columns ++ ExtraColumns s.update.columns B := by
  rw [BindExtraColumns_eq, ProjectColumns_update_columns]

theorem BindExtraColumns_nodup (table : TableCatalogEntry) (s : Operators)
    (B : physical_index_set_t) (hnd : s.update.columns.Nodup) :
    (BindExtraColumns table s B).update.columns.Nodup := by
  rw [BindExtraColumns_columns]
  exact nodup_append_ExtraColumns _ _ hnd

theorem BindExtraColumns_flag (table : TableCatalogEntry) (s : Operators)
    (B : physical_index_set_t) :
    (BindExtraColumns table s B).update.update_is_del_and_insert
      = s.update.update_is_del_and_insert := by
  rw [BindExtraColumns_eq, ProjectColumns_flag]

theorem BindExtraColumns_extends (table : TableCatalogEntry) (s : Operators)
    (B : physical_index_set_t) :
    ExtendsBy s (BindExtraColumns table s B) (ExtraColumns s.update.columns B) := by
  rw [BindExtraColumns_eq]
  exact ⟨ProjectColumns_update_columns table _ s, ProjectColumns_column_ids table _ s,
    ProjectColumns_update_expressions_length table _ s,
    ProjectColumns_proj_expressions_length table _ s, ProjectColumns_return_chunk table _ s⟩

theorem ExtendsBy_refl (s : Operators) : ExtendsBy s s [] := by
  simp [ExtendsBy]

theorem ExtendsBy_trans {s1 s2 s3 : Operators} {a b : List PhysicalIndex}
    (h12 : ExtendsBy s1 s2 a) (h23 : ExtendsBy s2 s3 b) : ExtendsBy s1 s3 (a ++ b) := by
  obtain ⟨c1, i1, u1, p1, r1⟩ := h12
  obtain ⟨c2, i2, u2, p2, r2⟩ := h23
  refine ⟨?_, ?_, ?_, ?_, ?_⟩
  · rw [c2, c1, List.append_assoc]
  · rw [i2, i1, List.map_append, List.append_assoc]
  · rw [u2, u1, List.length_append]; exact Nat.add_assoc _ _ _
  · rw [p2, p1, List.length_append]; exact Nat.add_assoc _ _ _
  · rw [r2, r1]

theorem ProjectColumn_SetDelAndInsert (table : TableCatalogEntry) (s : Operators) (b : Bool)
    (c : PhysicalIndex) :
    ProjectColumn table (SetDelAndInsert s b) c = SetDelAndInsert (ProjectColumn table s c) b := rfl

theorem ProjectColumns_SetDelAndInsert (table : TableCatalogEntry) (b : Bool) :
    ∀ (l : List PhysicalIndex) (s : Operators),
      ProjectColumns table (SetDelAndInsert s b) l = SetDelAndInsert (ProjectColumns table s l) b := by
  intro l
  induction l with
  | nil => intro s; rfl
  | cons c rest ih =>
    intro s
    rw [ProjectColumns_cons, ProjectColumns_cons, ProjectColumn_SetDelAndInsert, ih]

theorem BindExtraColumns_SetDelAndInsert (table : TableCatalogEntry) (s : Operators) (b : Bool)
    (B : physical_index_set_t) :
    BindExtraColumns table (SetDelAndInsert s b) B
      = SetDelAndInsert (BindExtraColumns table s B) b := by
  rw [BindExtraColumns_eq, BindExtraColumns_eq, ProjectColumns_SetDelAndInsert]
  rfl

/-! ### The loop over the constraints, and the expansion for RETURNING -/

theorem BindCheckConstraints_nodup (table : TableCatalogEntry) :
    ∀ (cs : List BoundConstraint) (s : Operators), s.update.columns.Nodup →
      (BindCheckConstraints table cs s).update.columns.Nodup := by
  intro cs
  induction cs with
  | nil => intro s h; exact h
  | cons c rest ih =>
    intro s h
    cases c with
    | BoundCheckConstraint B =>
      exact ih _ (BindExtraColumns_nodup table s B h)
    | BoundNotNullConstraint i => exact ih s h
    | BoundUniqueConstraint k => exact ih s h
    | BoundForeignKeyConstraint => exact ih s h

theorem BindCheckConstraints_extends (table : TableCatalogEntry) :
    ∀ (cs : List BoundConstraint) (s : Operators),
      ∃ added, ExtendsBy s (BindCheckConstraints table cs s) added := by
  intro cs
  induction cs with
  | nil => intro s; exact ⟨[], ExtendsBy_refl s⟩
  | cons c rest ih =>
    intro s
    cases c with
    | BoundCheckConstraint B =>
      obtain ⟨a, ha⟩ := ih (BindExtraColumns table s B)
      exact ⟨_, ExtendsBy_trans (BindExtraColumns_extends table s B) ha⟩
    | BoundNotNullConstraint i => exact ih s
    | BoundUniqueConstraint k => exact ih s
    | BoundForeignKeyConstraint => exact ih s

theorem BindCheckConstraints_SetDelAndInsert (table : TableCatalogEntry) (b : Bool) :
    ∀ (cs : List BoundConstraint) (s : Operators),
      BindCheckConstraints table cs (SetDelAndInsert s b)
        = SetDelAndInsert (BindCheckConstraints table cs s) b := by
  intro cs
  induction cs with
  | nil => intro s; rfl
  | cons c rest ih =>
    intro s
    cases c with
    | BoundCheckConstraint B =>
      simp only [BindCheckConstraints]
      rw [BindExtraColumns_SetDelAndInsert, ih]
    | BoundNotNullConstraint i => exact ih s
    | BoundUniqueConstraint k => exact ih s
    | BoundForeignKeyConstraint => exact ih s

theorem BindCheckAndReturning_nodup (table : TableCatalogEntry) (s : Operators)
    (h : s.update.columns.Nodup) : (BindCheckAndReturning table s).update.columns.Nodup := by
  unfold BindCheckAndReturning
  have h1 := BindCheckConstraints_nodup table table.GetBoundConstraints s h
  simp only
  split
  · exact BindExtraColumns_nodup table _ _ h1
  · exact h1

theorem BindCheckAndReturning_extends (table : TableCatalogEntry) (s : Operators) :
    ∃ added, ExtendsBy s (BindCheckAndReturning table s) added := by
  unfold BindCheckAndReturning
  obtain ⟨a, ha⟩ := BindCheckConstraints_extends table table.GetBoundConstraints s
  simp only
  split
  · exact ⟨_, ExtendsBy_trans ha (BindExtraColumns_extends table _ _)⟩
  · exact ⟨a, ha⟩

theorem BindCheckAndReturning_SetDelAndInsert (table : TableCatalogEntry) (s : Operators)
    (b : Bool) :
    BindCheckAndReturning table (SetDelAndInsert s b)
      = SetDelAndInsert (BindCheckAndReturning table s) b := by
  unfold BindCheckAndReturning
  simp only
  rw [BindCheckConstraints_SetDelAndInsert]
  by_cases hr : (BindCheckConstraints table table.GetBoundConstraints s).update.return_chunk = true
  · have hr' : (SetDelAndInsert (BindCheckConstraints table table.GetBoundConstraints s)
        b).update.return_chunk = true := hr
    rw [if_pos hr, if_pos hr', BindExtraColumns_SetDelAndInsert]
  · have hr' : ¬ (SetDelAndInsert (BindCheckConstraints table table.GetBoundConstraints s)
        b).update.return_chunk = true := hr
    rw [if_neg hr, if_neg hr']

/-! ### The set of all columns and the two scans -/

theorem InsertAllColumns_mem :
    ∀ (rounds : Nat) (i : idx_t) (acc : physical_index_set_t) (x : PhysicalIndex),
      x ∈ (InsertAllColumns rounds i acc).elems
        ↔ x ∈ acc.elems ∨ (i ≤ x.index ∧ x.index < i + rounds) := by
  intro rounds
  induction rounds with
  | zero =>
    intro i acc x
    simp only [InsertAllColumns, Nat.add_zero]
    constructor
    · intro h; exact Or.inl h
    · rintro (h | ⟨h1, h2⟩)
      · exact h
      · exact absurd h2 (Nat.not_lt.2 h1)
  | succ n ih =>
    intro i acc x
    simp only [InsertAllColumns]
    rw [ih, physical_index_set_t.mem_insert]
    constructor
    · rintro ((h | h) | ⟨h1, h2⟩)
      · exact Or.inl h
      · subst h
        exact Or.inr ⟨Nat.le_refl i, Nat.lt_add_of_pos_right (Nat.succ_pos n)⟩
      · refine Or.inr ⟨Nat.le_of_succ_le h1, ?_⟩
        have : i + 1 + n = i + (n + 1) := by rw [Nat.add_assoc, Nat.add_comm 1 n]
        rw [← this]; exact h2
    · rintro (h | ⟨h1, h2⟩)
      · exact Or.inl (Or.inl h)
      · rcases Nat.eq_or_lt_of_le h1 with heq | hlt
        · refine Or.inl (Or.inr ?_)
          cases x with
          | mk xi => simp only at heq; rw [← heq]
        · refine Or.inr ⟨hlt, ?_⟩
          have : i + 1 + n = i + (n + 1) := by rw [Nat.add_assoc, Nat.add_comm 1 n]
          rw [this]; exact h2

theorem AllColumns_mem (storage : DataTable) (x : PhysicalIndex) :
    x ∈ (AllColumns storage).elems ↔ x.index < storage.column_definitions.length := by
  unfold AllColumns
  rw [InsertAllColumns_mem]
  simp [physical_index_set_t.empty]

theorem ScanIndexes_eq_true_iff (columns : List PhysicalIndex) :
    ∀ (indexes : List Index) (flag : Bool),
      ScanIndexes columns indexes flag = true
        ↔ flag = true ∨ ∃ index ∈ indexes, index.IndexIsUpdated columns = true := by
  intro indexes
  induction indexes with
  | nil => intro flag; simp [ScanIndexes]
  | cons index rest ih =>
    intro flag
    by_cases h : index.IndexIsUpdated columns = true
    · simp [ScanIndexes, h]
    · simp only [ScanIndexes, h, Bool.false_eq_true, if_false]
      rw [ih]
      simp [h]

theorem ScanColumnTypes_eq_true_iff (table : TableCatalogEntry) :
    ∀ (columns : List PhysicalIndex) (flag : Bool),
      ScanColumnTypes table columns flag = true
        ↔ flag = true ∨ ∃ c ∈ columns,
            TypeSupportsRegularUpdate (table.GetColumns.GetColumn c).GetType = false := by
  intro columns
  induction columns with
  | nil => intro flag; simp [ScanColumnTypes]
  | cons c rest ih =>
    intro flag
    by_cases h : TypeSupportsRegularUpdate (table.GetColumns.GetColumn c).GetType = true
    · simp only [ScanColumnTypes, h, Bool.not_true, Bool.false_eq_true, if_false]
      rw [ih]
      simp [h]
    · have h' : TypeSupportsRegularUpdate (table.GetColumns.GetColumn c).GetType = false := by
        simpa using h
      simp [ScanColumnTypes, h']

/-! ### BindUpdateConstraints -/

/-- The value that `BindUpdateConstraints` gives to `update_is_del_and_insert` on a duck table. -/
theorem BindUpdateConstraints_flag (table : TableCatalogEntry) (s : Operators)
    (hduck : table.IsDuckTable = true) :
    (BindUpdateConstraints table s).update.update_is_del_and_insert
      = ScanColumnTypes table (BindCheckAndReturning table s).update.columns
          (ScanIndexes (BindCheckAndReturning table s).update.columns
            table.GetStorage.indexes false) := by
  unfold BindUpdateConstraints
  simp only [hduck, Bool.not_true, Bool.false_eq_true, if_false]
  split
  · rw [BindExtraColumns_flag]
  · rfl

/-- On a duck table `BindUpdateConstraints` is the expansion for CHECK and RETURNING, the flag,
and, when the flag is set, one more expansion to all columns. -/
theorem BindUpdateConstraints_eq (table : TableCatalogEntry) (s : Operators)
    (hduck : table.IsDuckTable = true) :
    BindUpdateConstraints table s
      = if (BindUpdateConstraints table s).update.update_is_del_and_insert = true then
          BindExtraColumns table (SetDelAndInsert (BindCheckAndReturning table s) true)
            (AllColumns table.GetStorage)
        else SetDelAndInsert (BindCheckAndReturning table s) false := by
  rw [BindUpdateConstraints_flag table s hduck]
  unfold BindUpdateConstraints
  simp only [hduck, Bool.not_true, Bool.false_eq_true, if_false]
  split
  · rename_i h; rw [h]; rfl
  · rename_i h
    have h' : ScanColumnTypes table (BindCheckAndReturning table s).update.columns
        (ScanIndexes (BindCheckAndReturning table s).update.columns
          table.GetStorage.indexes false) = false := by simpa using h
    rw [h']; rfl

theorem BindUpdateConstraints_nodup (table : TableCatalogEntry) (s : Operators)
    (h : s.update.columns.Nodup) : (BindUpdateConstraints table s).update.columns.Nodup := by
  by_cases hduck : table.IsDuckTable = true
  · rw [BindUpdateConstraints_eq table s hduck]
    have h2 := BindCheckAndReturning_nodup table s h
    split
    · exact BindExtraColumns_nodup table _ _ h2
    · exact h2
  · unfold BindUpdateConstraints
    simp [hduck, h]

theorem BindUpdateConstraints_extends (table : TableCatalogEntry) (s : Operators) :
    ∃ added, ExtendsBy s (BindUpdateConstraints table s) added := by
  by_cases hduck : table.IsDuckTable = true
  · rw [BindUpdateConstraints_eq table s hduck]
    obtain ⟨a, ha⟩ := BindCheckAndReturning_extends table s
    split
    · have ha' : ExtendsBy s (SetDelAndInsert (BindCheckAndReturning table s) true) a := ha
      exact ⟨_, ExtendsBy_trans ha' (BindExtraColumns_extends table _ _)⟩
    · exact ⟨a, ha⟩
  · refine ⟨[], ?_⟩
    unfold BindUpdateConstraints
    simp [hduck, ExtendsBy_refl]

/-- On a duck table, an expansion to all columns that starts from a duplicate-free
`update.columns` holding one physical column of the table ends with all of them. -/
theorem BindExtraColumns_AllColumns (table : TableCatalogEntry) (s : Operators)
    (hnd : s.update.columns.Nodup)
    (hin : ∃ c ∈ s.update.columns, c.index < table.GetStorage.column_definitions.length) :
    ∀ i, i < table.GetStorage.column_definitions.length →
      (⟨i⟩ : PhysicalIndex) ∈ (BindExtraColumns table s (AllColumns table.GetStorage)).update.columns := by
  intro i hi
  rw [BindExtraColumns_columns]
  apply ExtraColumns_complete _ _ hnd
  · obtain ⟨c, hc, hlt⟩ := hin
    exact ⟨c, (AllColumns_mem _ c).2 hlt, hc⟩
  · exact (AllColumns_mem _ ⟨i⟩).2 hi

/-! ### BindUpdateSet -/

/-- What a successful run of the loop of `BindUpdateSet` has done: one column and one expression
pushed for each name, every name an existing column that is not generated, no duplicate created. -/
theorem BindUpdateSetLoop_ok (svc : BinderServices) (proj_index : idx_t)
    (table : TableCatalogEntry) :
    ∀ (colnames : List String) (exprs : List ParsedExpression) (st st' : SetState),
      BindUpdateSetLoop svc proj_index table colnames exprs st = .ok st' →
      st'.columns = st.columns ++ colnames.map (fun n => (table.GetColumn n).Physical) ∧
      (st.columns.Nodup → st'.columns.Nodup) ∧
      st'.op_expressions.length = st.op_expressions.length + colnames.length ∧
      (∀ n ∈ colnames, table.ColumnExists n = true ∧ (table.GetColumn n).Generated = false) := by
  intro colnames
  induction colnames with
  | nil =>
    intro exprs st st' h
    simp only [BindUpdateSetLoop, Except.ok.injEq] at h
    subst h
    simp
  | cons colname rest ih =>
    intro exprs st st' h
    cases exprs with
    | nil => simp [BindUpdateSetLoop] at h
    | cons expr exprs =>
      simp only [BindUpdateSetLoop] at h
      split at h
      · simp at h
      · rename_i hex
        split at h
        · simp at h
        · rename_i hgen
          split at h
          · simp at h
          · rename_i hdup
            have hex' : table.ColumnExists colname = true := by simpa using hex
            have hgen' : (table.GetColumn colname).Generated = false := by simpa using hgen
            have key : ∀ st1 : SetState,
                st1.columns = st.columns ++ [(table.GetColumn colname).Physical] →
                st1.op_expressions.length = st.op_expressions.length + 1 →
                BindUpdateSetLoop svc proj_index table rest exprs st1 = .ok st' →
                st'.columns = st.columns ++
                    (colname :: rest).map (fun n => (table.GetColumn n).Physical) ∧
                (st.columns.Nodup → st'.columns.Nodup) ∧
                st'.op_expressions.length = st.op_expressions.length + (colname :: rest).length ∧
                (∀ n ∈ colname :: rest,
                  table.ColumnExists n = true ∧ (table.GetColumn n).Generated = false) := by
              intro st1 hc1 he1 h1
              obtain ⟨a, b, c, d⟩ := ih exprs st1 st' h1
              refine ⟨?_, ?_, ?_, ?_⟩
              · rw [a, hc1]; simp
              · intro hnd
                apply b
                rw [hc1, List.nodup_append]
                refine ⟨hnd, List.nodup_singleton _, ?_⟩
                intro x hx hx'
                rw [List.mem_singleton] at hx'
                subst hx'
                exact hdup hx
              · rw [c, he1, List.length_cons]
                exact Nat.add_assoc _ _ _ |>.trans (by rw [Nat.add_comm 1])
              · intro n hn
                rw [List.mem_cons] at hn
                rcases hn with rfl | hn
                · exact ⟨hex', hgen'⟩
                · exact d n hn
            split at h
            · exact key _ rfl (by simp) h
            · split at h
              · simp at h
              · split at h
                · simp at h
                · exact key _ rfl (by simp) h

/-- A successful `BindUpdateSet` that starts from an empty `columns` returns the physical indexes
of the named columns, without duplicate, and has pushed one expression for each of them. -/
theorem BindUpdateSet_ok (svc : BinderServices) (proj_index : idx_t) (op_type : LogicalOperatorType)
    (op_expressions : List Expression) (root : LogicalOperator) (set_info : UpdateSetInfo)
    (table : TableCatalogEntry) (columns : List PhysicalIndex) (r : BindUpdateSetResult)
    (h : BindUpdateSet svc proj_index op_type op_expressions root set_info table columns = .ok r) :
    r.columns = columns ++ set_info.columns.map (fun n => (table.GetColumn n).Physical) ∧
    (columns.Nodup → r.columns.Nodup) ∧
    r.op_expressions.length = op_expressions.length + set_info.columns.length ∧
    (∀ n ∈ set_info.columns,
      table.ColumnExists n = true ∧ (table.GetColumn n).Generated = false) := by
  unfold BindUpdateSet at h
  split at h
  · simp at h
  · rename_i st hst
    have hl := BindUpdateSetLoop_ok svc proj_index table _ _ _ st hst
    split at h
    · simp only [Except.ok.injEq] at h
      subst h
      exact hl
    · simp only [Except.ok.injEq] at h
      subst h
      exact hl

/-- One round of the loop of `BindUpdateSet`, when expression binding cannot fail: either the pair
fails one of the three checks and that error is thrown, or its physical index is pushed and the
loop goes on. -/
theorem BindUpdateSetLoop_step (svc : BinderServices) (proj_index : idx_t)
    (table : TableCatalogEntry)
    (hbind : ∀ e t, ∃ b, svc.BindUpdateExpression e t = .ok b)
    (hplan : ∀ b r, ∃ p, svc.PlanSubqueries b r = .ok p)
    (colname : String) (colnames : List String) (expr : ParsedExpression)
    (exprs : List ParsedExpression) (st : SetState) :
    (∃ e, PairError table st.columns colname = some e ∧
      BindUpdateSetLoop svc proj_index table (colname :: colnames) (expr :: exprs) st = .error e) ∨
    (PairError table st.columns colname = none ∧
      ∃ st1 : SetState, st1.columns = st.columns ++ [(table.GetColumn colname).Physical] ∧
        BindUpdateSetLoop svc proj_index table (colname :: colnames) (expr :: exprs) st
          = BindUpdateSetLoop svc proj_index table colnames exprs st1) := by
  simp only [BindUpdateSetLoop, PairError]
  by_cases hex : table.ColumnExists colname = true
  · by_cases hgen : (table.GetColumn colname).Generated = true
    · left
      exact ⟨.GeneratedColumn (table.GetColumn colname).Name, by simp [hex, hgen],
        by simp [hex, hgen]⟩
    · by_cases hdup : (table.GetColumn colname).Physical ∈ st.columns
      · left
        exact ⟨.MultipleAssignments colname, by simp [hex, hgen, hdup],
          by simp [hex, hgen, hdup]⟩
      · right
        refine ⟨by simp [hex, hgen, hdup], ?_⟩
        simp only [hex, hgen, hdup, Bool.not_true, Bool.false_eq_true, if_false]
        by_cases hdef : expr.type = ExpressionType.VALUE_DEFAULT
        · simp only [hdef, if_true]
          exact ⟨_, rfl, rfl⟩
        · simp only [hdef, if_false]
          obtain ⟨b, hb⟩ := hbind expr (table.GetColumn colname).GetType
          obtain ⟨⟨b', r'⟩, hp⟩ := hplan b st.root
          rw [hb]
          simp only
          rw [hp]
          exact ⟨_, rfl, rfl⟩
  · left
    have hex' : table.ColumnExists colname = false := by simpa using hex
    exact ⟨.ColumnNotFound colname, by simp [hex'], by simp [hex']⟩

theorem AssignedBefore_succ (table : TableCatalogEntry) (columns : List PhysicalIndex)
    (colname : String) (colnames : List String) (i : Nat) :
    columns ++ AssignedBefore table (colname :: colnames) (i + 1)
      = (columns ++ [(table.GetColumn colname).Physical]) ++ AssignedBefore table colnames i := by
  simp [AssignedBefore]

theorem AssignedBefore_zero (table : TableCatalogEntry) (columns : List PhysicalIndex)
    (colnames : List String) : columns ++ AssignedBefore table colnames 0 = columns := by
  simp [AssignedBefore]

/-- A successful loop has met no offending pair. -/
theorem BindUpdateSetLoop_ok_no_offender (svc : BinderServices) (proj_index : idx_t)
    (table : TableCatalogEntry)
    (hbind : ∀ e t, ∃ b, svc.BindUpdateExpression e t = .ok b)
    (hplan : ∀ b r, ∃ p, svc.PlanSubqueries b r = .ok p) :
    ∀ (colnames : List String) (exprs : List ParsedExpression) (st st' : SetState),
      BindUpdateSetLoop svc proj_index table colnames exprs st = .ok st' →
      ∀ i c, colnames[i]? = some c →
        PairError table (st.columns ++ AssignedBefore table colnames i) c = none := by
  intro colnames
  induction colnames with
  | nil => intro exprs st st' _ i c hc; simp at hc
  | cons colname rest ih =>
    intro exprs st st' h i c hc
    cases exprs with
    | nil => simp [BindUpdateSetLoop] at h
    | cons expr exprs =>
      rcases BindUpdateSetLoop_step svc proj_index table hbind hplan colname rest expr exprs st
        with ⟨e, -, he⟩ | ⟨hnone, st1, hst1, hgo⟩
      · rw [he] at h; simp at h
      · rw [hgo] at h
        cases i with
        | zero =>
          simp only [List.getElem?_cons_zero, Option.some.injEq] at hc
          subst hc
          rw [AssignedBefore_zero]; exact hnone
        | succ j =>
          simp only [List.getElem?_cons_succ] at hc
          rw [AssignedBefore_succ, ← hst1]
          exact ih exprs st1 st' h j c hc

/-- A failed loop has thrown the error of the first offending pair. -/
theorem BindUpdateSetLoop_error_first_offender (svc : BinderServices) (proj_index : idx_t)
    (table : TableCatalogEntry)
    (hbind : ∀ e t, ∃ b, svc.BindUpdateExpression e t = .ok b)
    (hplan : ∀ b r, ∃ p, svc.PlanSubqueries b r = .ok p) :
    ∀ (colnames : List String) (exprs : List ParsedExpression) (st : SetState) (e : Exception),
      colnames.length = exprs.length →
      BindUpdateSetLoop svc proj_index table colnames exprs st = .error e →
      ∃ i c, colnames[i]? = some c ∧
        PairError table (st.columns ++ AssignedBefore table colnames i) c = some e ∧
        ∀ j, j < i → ∀ cj, colnames[j]? = some cj →
          PairError table (st.columns ++ AssignedBefore table colnames j) cj = none := by
  intro colnames
  induction colnames with
  | nil => intro exprs st e _ h; simp [BindUpdateSetLoop] at h
  | cons colname rest ih =>
    intro exprs st e hlen h
    cases exprs with
    | nil => simp at hlen
    | cons expr exprs =>
      have hlen' : rest.length = exprs.length := by simpa using hlen
      rcases BindUpdateSetLoop_step svc proj_index table hbind hplan colname rest expr exprs st
        with ⟨e', hpe, he⟩ | ⟨hnone, st1, hst1, hgo⟩
      · rw [he] at h
        simp only [Except.error.injEq] at h
        subst h
        refine ⟨0, colname, by simp, ?_, ?_⟩
        · rw [AssignedBefore_zero]; exact hpe
        · intro j hj; exact absurd hj (Nat.not_lt_zero j)
      · rw [hgo] at h
        obtain ⟨i, c, hc, hpe, hmin⟩ := ih exprs st1 e hlen' h
        refine ⟨i + 1, c, by simpa using hc, ?_, ?_⟩
        · rw [AssignedBefore_succ, ← hst1]; exact hpe
        · intro j hj cj hcj
          cases j with
          | zero =>
            simp only [List.getElem?_cons_zero, Option.some.injEq] at hcj
            subst hcj
            rw [AssignedBefore_zero]; exact hnone
          | succ j' =>
            simp only [List.getElem?_cons_succ] at hcj
            rw [AssignedBefore_succ, ← hst1]
            exact hmin j' (Nat.lt_of_succ_lt_succ hj) cj hcj

theorem BindUpdateSet_error_iff_loop (svc : BinderServices) (proj_index : idx_t)
    (op_type : LogicalOperatorType) (op_expressions : List Expression) (root : LogicalOperator)
    (set_info : UpdateSetInfo) (table : TableCatalogEntry) (columns : List PhysicalIndex)
    (e : Exception) :
    BindUpdateSet svc proj_index op_type op_expressions root set_info table columns = .error e
      ↔ BindUpdateSetLoop svc proj_index table set_info.columns set_info.expressions
          { root := root, op_expressions := op_expressions, columns := columns,
            projection_expressions := [] } = .error e := by
  unfold BindUpdateSet
  split
  · rename_i e' he
    rw [he]
    simp
  · rename_i st hst
    rw [hst]
    split <;> simp

/-! ### TypeSupportsRegularUpdate -/

theorem HasListMapOrUnion_struct (cs : List (String × LogicalType)) :
    HasListMapOrUnion (.mk .STRUCT cs) ↔ ∃ entry ∈ cs, HasListMapOrUnion entry.2 := by
  constructor
  · rintro ⟨u, hpath, hu⟩
    rcases Relation.ReflTransGen.cases_head hpath with heq | ⟨t1, hstep, hrest⟩
    · subst heq
      rcases hu with h | h | h <;> simp [LogicalType.id] at h
    · obtain ⟨-, name, hmem⟩ := hstep
      exact ⟨(name, t1), hmem, u, hrest, hu⟩
  · rintro ⟨entry, hmem, u, hpath, hu⟩
    refine ⟨u, Relation.ReflTransGen.head ?_ hpath, hu⟩
    exact ⟨rfl, entry.1, hmem⟩

theorem HasListMapOrUnion_of_not_struct (id : LogicalTypeId) (cs : List (String × LogicalType))
    (hid : id ≠ .STRUCT) : HasListMapOrUnion (.mk id cs) ↔ IsListMapOrUnion (.mk id cs) := by
  constructor
  · rintro ⟨u, hpath, hu⟩
    rcases Relation.ReflTransGen.cases_head hpath with heq | ⟨t1, hstep, -⟩
    · subst heq; exact hu
    · exact absurd hstep.1 hid
  · intro h
    exact ⟨_, Relation.ReflTransGen.refl, h⟩

mutual
theorem TypeSupportsRegularUpdate_eq_false_iff :
    ∀ t : LogicalType, TypeSupportsRegularUpdate t = false ↔ HasListMapOrUnion t
  | .mk id cs => by
    by_cases hs : id = .STRUCT
    · subst hs
      rw [HasListMapOrUnion_struct, ← StructChildrenSupportRegularUpdate_eq_false_iff cs]
      simp [TypeSupportsRegularUpdate]
    · rw [HasListMapOrUnion_of_not_struct id cs hs]
      unfold IsListMapOrUnion
      cases id <;> simp_all [TypeSupportsRegularUpdate, LogicalType.id]
theorem StructChildrenSupportRegularUpdate_eq_false_iff :
    ∀ cs : List (String × LogicalType),
      StructChildrenSupportRegularUpdate cs = false ↔ ∃ entry ∈ cs, HasListMapOrUnion entry.2
  | [] => by simp [StructChildrenSupportRegularUpdate]
  | entry :: rest => by
    have h1 := TypeSupportsRegularUpdate_eq_false_iff entry.2
    have h2 := StructChildrenSupportRegularUpdate_eq_false_iff rest
    by_cases ht : TypeSupportsRegularUpdate entry.2 = true
    · have hnot : ¬ HasListMapOrUnion entry.2 := by
        rw [← h1, ht]; simp
      simp only [StructChildrenSupportRegularUpdate, ht, Bool.not_true, Bool.false_eq_true,
        if_false, List.mem_cons, exists_eq_or_imp]
      rw [h2]
      constructor
      · intro h; exact Or.inr h
      · rintro (h | h)
        · exact absurd h hnot
        · exact h
    · have ht' : TypeSupportsRegularUpdate entry.2 = false := by simpa using ht
      simp only [StructChildrenSupportRegularUpdate, ht', Bool.not_false, if_true, List.mem_cons,
        exists_eq_or_imp, true_iff]
      exact Or.inl (h1.1 ht')
end

/-! ### Expansion to all columns inside BindUpdateConstraints -/

theorem BindCheckConstraints_mem (table : TableCatalogEntry) (cs : List BoundConstraint)
    (s : Operators) (c : PhysicalIndex) (hc : c ∈ s.update.columns) :
    c ∈ (BindCheckConstraints table cs s).update.columns := by
  obtain ⟨a, ha, -⟩ := BindCheckConstraints_extends table cs s
  rw [ha]; exact List.mem_append_left _ hc

theorem BindCheckAndReturning_mem (table : TableCatalogEntry) (s : Operators) (c : PhysicalIndex)
    (hc : c ∈ s.update.columns) : c ∈ (BindCheckAndReturning table s).update.columns := by
  obtain ⟨a, ha, -⟩ := BindCheckAndReturning_extends table s
  rw [ha]; exact List.mem_append_left _ hc

/-- With `return_chunk` set, the state at line 103 has every physical column of the table in
`update.columns`, provided `update.columns` was duplicate-free and held one of them. -/
theorem BindCheckAndReturning_all_columns (table : TableCatalogEntry) (s : Operators)
    (hnd : s.update.columns.Nodup)
    (hin : ∃ c ∈ s.update.columns, c.index < table.GetStorage.column_definitions.length)
    (hret : s.update.return_chunk = true) :
    ∀ i, i < table.GetStorage.column_definitions.length →
      (⟨i⟩ : PhysicalIndex) ∈ (BindCheckAndReturning table s).update.columns := by
  obtain ⟨a, -, -, -, -, hr⟩ := BindCheckConstraints_extends table table.GetBoundConstraints s
  unfold BindCheckAndReturning
  simp only
  rw [if_pos (by rw [hr]; exact hret)]
  apply BindExtraColumns_AllColumns
  · exact BindCheckConstraints_nodup table _ s hnd
  · obtain ⟨c, hc, hlt⟩ := hin
    exact ⟨c, BindCheckConstraints_mem table _ s c hc, hlt⟩

theorem TypeSupportsRegularUpdate_of_IsListMapOrUnion (t : LogicalType)
    (h : IsListMapOrUnion t) : TypeSupportsRegularUpdate t = false :=
  (TypeSupportsRegularUpdate_eq_false_iff t).2 ⟨t, Relation.ReflTransGen.refl, h⟩

theorem BindUpdateConstraints_SetDelAndInsert (table : TableCatalogEntry) (s : Operators)
    (b : Bool) (hduck : table.IsDuckTable = true) :
    BindUpdateConstraints table (SetDelAndInsert s b) = BindUpdateConstraints table s := by
  have hflag : (BindUpdateConstraints table (SetDelAndInsert s b)).update.update_is_del_and_insert
      = (BindUpdateConstraints table s).update.update_is_del_and_insert := by
    rw [BindUpdateConstraints_flag table _ hduck, BindUpdateConstraints_flag table _ hduck,
      BindCheckAndReturning_SetDelAndInsert]
    rfl
  rw [BindUpdateConstraints_eq table (SetDelAndInsert s b) hduck,
    BindUpdateConstraints_eq table s hduck, hflag, BindCheckAndReturning_SetDelAndInsert]
  rfl

/-! ### One successful round of the loop of BindUpdateSet -/

/-- A successful run of the loop on a non-empty set clause, taken apart: the first pair passed the
three checks, pushed its column and its expression (a bound default, or a reference to the new
slot of the projection that holds the bound expression), and the loop went on from there. -/
theorem BindUpdateSetLoop_ok_cons (svc : BinderServices) (proj_index : idx_t)
    (table : TableCatalogEntry) (colname : String) (colnames : List String)
    (expr : ParsedExpression) (exprs : List ParsedExpression) (st st' : SetState)
    (h : BindUpdateSetLoop svc proj_index table (colname :: colnames) (expr :: exprs) st
      = .ok st') :
    ∃ st1 : SetState,
      BindUpdateSetLoop svc proj_index table colnames exprs st1 = .ok st' ∧
      st1.columns = st.columns ++ [(table.GetColumn colname).Physical] ∧
      ((expr.type = .VALUE_DEFAULT ∧ st1.root = st.root ∧
          st1.projection_expressions = st.projection_expressions ∧
          st1.op_expressions = st.op_expressions ++
            [Expression.BoundDefaultExpression (table.GetColumn colname).GetType]) ∨
        (expr.type ≠ .VALUE_DEFAULT ∧
          ∃ bound_expr0 bound_expr root,
            svc.BindUpdateExpression expr (table.GetColumn colname).GetType = .ok bound_expr0 ∧
            svc.PlanSubqueries bound_expr0 st.root = .ok (bound_expr, root) ∧
            st1.root = root ∧
            st1.projection_expressions = st.projection_expressions ++ [bound_expr] ∧
            st1.op_expressions = st.op_expressions ++
              [Expression.BoundColumnRefExpression bound_expr.return_type
                ⟨proj_index, st.projection_expressions.length⟩])) := by
  simp only [BindUpdateSetLoop] at h
  split at h
  · simp at h
  · split at h
    · simp at h
    · split at h
      · simp at h
      · split at h
        · rename_i hdef
          exact ⟨_, h, rfl, Or.inl ⟨hdef, rfl, rfl, rfl⟩⟩
        · rename_i hdef
          split at h
          · simp at h
          · rename_i b0 hb0
            split at h
            · simp at h
            · rename_i b root hp
              exact ⟨_, h, rfl, Or.inr ⟨hdef, b0, b, root, hb0, hp, rfl, rfl, rfl⟩⟩

/-- On success the projection list has grown by one expression for each set expression that is
not DEFAULT, and a run over DEFAULT expressions only leaves the root alone. -/
theorem BindUpdateSetLoop_ok_projection (svc : BinderServices) (proj_index : idx_t)
    (table : TableCatalogEntry) :
    ∀ (colnames : List String) (exprs : List ParsedExpression) (st st' : SetState),
      colnames.length = exprs.length →
      BindUpdateSetLoop svc proj_index table colnames exprs st = .ok st' →
      st'.projection_expressions.length = st.projection_expressions.length +
          (exprs.filter (fun e => decide (e.type ≠ .VALUE_DEFAULT))).length ∧
      ((∀ e ∈ exprs, e.type = .VALUE_DEFAULT) →
        st'.root = st.root ∧ st'.projection_expressions = st.projection_expressions) := by
  intro colnames
  induction colnames with
  | nil =>
    intro exprs st st' hlen h
    have hex : exprs = [] := by
      cases exprs with
      | nil => rfl
      | cons e es => simp at hlen
    subst hex
    simp only [BindUpdateSetLoop, Except.ok.injEq] at h
    subst h
    simp
  | cons colname rest ih =>
    intro exprs st st' hlen h
    cases exprs with
    | nil => simp at hlen
    | cons expr exprs =>
      have hlen' : rest.length = exprs.length := by simpa using hlen
      obtain ⟨st1, h1, -, hcase⟩ := BindUpdateSetLoop_ok_cons svc proj_index table colname rest
        expr exprs st st' h
      obtain ⟨ihlen, ihdef⟩ := ih exprs st1 st' hlen' h1
      rcases hcase with ⟨hdef, hroot, hpe, -⟩ | ⟨hdef, b0, b, root, -, -, hroot, hpe, -⟩
      · constructor
        · rw [ihlen, hpe]
          simp [hdef]
        · intro hall
          obtain ⟨a, b⟩ := ihdef (fun e he => hall e (List.mem_cons_of_mem _ he))
          exact ⟨a.trans hroot, b.trans hpe⟩
      · constructor
        · rw [ihlen, hpe]
          simp [hdef]
          exact Nat.add_assoc _ _ _ |>.trans (by rw [Nat.add_comm 1])
        · intro hall
          exact absurd (hall expr (List.mem_cons_self _ _)) hdef

/-! ### Properties kept by every step of BindUpdateConstraints -/

theorem ProjectColumns_induction (table : TableCatalogEntry) (P : Operators → Prop)
    (hstep : ∀ s c, P s → P (ProjectColumn table s c)) :
    ∀ (l : List PhysicalIndex) (s : Operators), P s → P (ProjectColumns table s l) := by
  intro l
  induction l with
  | nil => intro s h; exact h
  | cons c rest ih => intro s h; rw [ProjectColumns_cons]; exact ih _ (hstep s c h)

theorem BindExtraColumns_induction (table : TableCatalogEntry) (P : Operators → Prop)
    (hstep : ∀ s c, P s → P (ProjectColumn table s c)) (s : Operators)
    (B : physical_index_set_t) (h : P s) : P (BindExtraColumns table s B) := by
  rw [BindExtraColumns_eq]
  exact ProjectColumns_induction table P hstep _ s h

theorem BindCheckConstraints_induction (table : TableCatalogEntry) (P : Operators → Prop)
    (hstep : ∀ s c, P s → P (ProjectColumn table s c)) :
    ∀ (cs : List BoundConstraint) (s : Operators), P s → P (BindCheckConstraints table cs s) := by
  intro cs
  induction cs with
  | nil => intro s h; exact h
  | cons c rest ih =>
    intro s h
    cases c with
    | BoundCheckConstraint B => exact ih _ (BindExtraColumns_induction table P hstep s B h)
    | BoundNotNullConstraint i => exact ih s h
    | BoundUniqueConstraint k => exact ih s h
    | BoundForeignKeyConstraint => exact ih s h

theorem BindCheckAndReturning_induction (table : TableCatalogEntry) (P : Operators → Prop)
    (hstep : ∀ s c, P s → P (ProjectColumn table s c)) (s : Operators) (h : P s) :
    P (BindCheckAndReturning table s) := by
  unfold BindCheckAndReturning
  have h1 := BindCheckConstraints_induction table P hstep table.GetBoundConstraints s h
  simp only
  split
  · exact BindExtraColumns_induction table P hstep _ _ h1
  · exact h1

/-- A property of the operators that holds before `BindUpdateConstraints`, and that projecting a
column and setting the flag keep, holds after it. -/
theorem BindUpdateConstraints_induction (table : TableCatalogEntry) (P : Operators → Prop)
    (hstep : ∀ s c, P s → P (ProjectColumn table s c))
    (hflag : ∀ s b, P s → P (SetDelAndInsert s b)) (s : Operators) (h : P s) :
    P (BindUpdateConstraints table s) := by
  by_cases hduck : table.IsDuckTable = true
  · rw [BindUpdateConstraints_eq table s hduck]
    have h2 := BindCheckAndReturning_induction table P hstep s h
    split
    · exact BindExtraColumns_induction table P hstep _ _ (hflag _ true h2)
    · exact hflag _ false h2
  · unfold BindUpdateConstraints
    simp [hduck, h]

theorem BindUpdateConstraints_table_indexes (table : TableCatalogEntry) (s : Operators) :
    (BindUpdateConstraints table s).get.table_index = s.get.table_index ∧
    (BindUpdateConstraints table s).proj.table_index = s.proj.table_index ∧
    (BindUpdateConstraints table s).proj.child = s.proj.child :=
  BindUpdateConstraints_induction table
    (fun s' => s'.get.table_index = s.get.table_index ∧
      s'.proj.table_index = s.proj.table_index ∧ s'.proj.child = s.proj.child)
    (fun _ _ h => h) (fun _ _ h => h) s ⟨rfl, rfl, rfl⟩

/-! ### DateFormatMap -/

theorem AddFormat_Candidates (parse : String → StrpTimeFormat → StrpTimeFormat)
    (map : DateFormatMap) (type : LogicalTypeId) (format_string : String) (t : LogicalTypeId) :
    (map.AddFormat parse type format_string).Candidates t
      = map.Candidates t ++ (if type = t then [NewFormat parse format_string] else []) := by
  unfold DateFormatMap.AddFormat DateFormatMap.Candidates NewFormat
  by_cases h : t = type
  · subst h; simp
  · have h' : ¬ type = t := fun e => h e.symm
    simp [h, h']

theorem AddFormat_HasFormats (parse : String → StrpTimeFormat → StrpTimeFormat)
    (map : DateFormatMap) (type : LogicalTypeId) (format_string : String) (t : LogicalTypeId) :
    (map.AddFormat parse type format_string).HasFormats t
      = (map.HasFormats t || decide (type = t)) := by
  unfold DateFormatMap.AddFormat DateFormatMap.HasFormats
  by_cases h : t = type
  · subst h; simp
  · have h' : ¬ type = t := fun e => h e.symm
    simp [h, h']

theorem AddFormats_Candidates (parse : String → StrpTimeFormat → StrpTimeFormat)
    (type t : LogicalTypeId) :
    ∀ (formats : List String) (map : DateFormatMap),
      (map.AddFormats parse type formats).Candidates t
        = map.Candidates t ++ (if type = t then formats else []).map (NewFormat parse) := by
  intro formats
  induction formats with
  | nil => intro map; simp [DateFormatMap.AddFormats]
  | cons f rest ih =>
    intro map
    simp only [DateFormatMap.AddFormats]
    rw [ih, AddFormat_Candidates]
    by_cases h : type = t <;> simp [h]

theorem AddFormats_HasFormats (parse : String → StrpTimeFormat → StrpTimeFormat)
    (type t : LogicalTypeId) :
    ∀ (formats : List String) (map : DateFormatMap),
      (map.AddFormats parse type formats).HasFormats t
        = (map.HasFormats t || decide ((if type = t then formats else []) ≠ [])) := by
  intro formats
  induction formats with
  | nil => intro map; simp [DateFormatMap.AddFormats]
  | cons f rest ih =>
    intro map
    simp only [DateFormatMap.AddFormats]
    rw [ih, AddFormat_HasFormats]
    by_cases h : type = t <;> simp [h]

theorem Initialize_Candidates (parse : String → StrpTimeFormat → StrpTimeFormat)
    (t : LogicalTypeId) :
    ∀ (templates : List (LogicalTypeId × List String)) (map : DateFormatMap),
      (map.Initialize parse templates).Candidates t
        = map.Candidates t ++ (TemplateFormats t templates).map (NewFormat parse) := by
  intro templates
  induction templates with
  | nil => intro map; simp [DateFormatMap.Initialize, TemplateFormats]
  | cons entry rest ih =>
    intro map
    simp only [DateFormatMap.Initialize, TemplateFormats]
    rw [ih, AddFormats_Candidates, List.map_append, List.append_assoc]

theorem Initialize_HasFormats (parse : String → StrpTimeFormat → StrpTimeFormat)
    (t : LogicalTypeId) :
    ∀ (templates : List (LogicalTypeId × List String)) (map : DateFormatMap),
      (map.Initialize parse templates).HasFormats t
        = (map.HasFormats t || decide (TemplateFormats t templates ≠ [])) := by
  intro templates
  induction templates with
  | nil => intro map; simp [DateFormatMap.Initialize, TemplateFormats]
  | cons entry rest ih =>
    intro map
    simp only [DateFormatMap.Initialize, TemplateFormats]
    rw [ih, AddFormats_HasFormats]
    by_cases h1 : (if entry.1 = t then entry.2 else []) = [] <;>
      by_cases h2 : TemplateFormats t rest = [] <;> simp [h1, h2]

/-- The candidate list of a type after a sequence of calls: what it was, followed by the formats
added for the type, in order. -/
theorem Run_Candidates (parse : String → StrpTimeFormat → StrpTimeFormat) (t : LogicalTypeId) :
    ∀ (calls : List DateFormatCall) (map : DateFormatMap),
      (map.Run parse calls).Candidates t
        = map.Candidates t ++ (AddedFormats t calls).map (NewFormat parse) := by
  intro calls
  induction calls with
  | nil => intro map; simp [DateFormatMap.Run, AddedFormats]
  | cons call rest ih =>
    intro map
    cases call with
    | Initialize templates =>
      simp only [DateFormatMap.Run, DateFormatMap.Apply, AddedFormats]
      rw [ih, Initialize_Candidates, List.map_append, List.append_assoc]
    | AddFormat type f =>
      simp only [DateFormatMap.Run, DateFormatMap.Apply, AddedFormats]
      rw [ih, AddFormat_Candidates, List.map_append, List.append_assoc]
      by_cases h : type = t <;> simp [h]

/-- A type has an entry after a sequence of calls when it had one before or a format was added
for it. -/
theorem Run_HasFormats (parse : String → StrpTimeFormat → StrpTimeFormat) (t : LogicalTypeId) :
    ∀ (calls : List DateFormatCall) (map : DateFormatMap),
      (map.Run parse calls).HasFormats t
        = (map.HasFormats t || decide (AddedFormats t calls ≠ [])) := by
  intro calls
  induction calls with
  | nil => intro map; simp [DateFormatMap.Run, AddedFormats]
  | cons call rest ih =>
    intro map
    cases call with
    | Initialize templates =>
      simp only [DateFormatMap.Run, DateFormatMap.Apply, AddedFormats]
      rw [ih, Initialize_HasFormats]
      by_cases h1 : TemplateFormats t templates = [] <;>
        by_cases h2 : AddedFormats t rest = [] <;> simp [h1, h2]
    | AddFormat type f =>
      simp only [DateFormatMap.Run, DateFormatMap.Apply, AddedFormats]
      rw [ih, AddFormat_HasFormats]
      by_cases h1 : type = t <;>
        by_cases h2 : AddedFormats t rest = [] <;> simp [h1, h2]

theorem HasFormats_candidate_formats (map : DateFormatMap) (t : LogicalTypeId)
    (h : map.HasFormats t = true) : map.candidate_formats t = some (map.Candidates t) := by
  unfold DateFormatMap.HasFormats at h
  unfold DateFormatMap.Candidates
  cases hc : map.candidate_formats t with
  | none => rw [hc] at h; simp at h
  | some l => rfl

/-! ### Batch indices -/

/-- As long as the counter does not wrap, the batch indices handed out are the consecutive
numbers from the value of the counter on. -/
theorem HandedOutBatchIndices_eq_range :
    ∀ (schedule : List Nat) (states : ScanStates),
      states.gstate.batch_index + schedule.length ≤ 2 ^ 64 →
      HandedOutBatchIndices states schedule
        = List.range' states.gstate.batch_index schedule.length := by
  intro schedule
  induction schedule with
  | nil => intro states _; rfl
  | cons worker rest ih =>
    intro states hbound
    simp only [HandedOutBatchIndices, List.length_cons, List.range'_succ]
    have hfirst : ((RequestBuffer states worker).lstates worker).batch_index
        = states.gstate.batch_index := by
      simp [RequestBuffer, AssignBatchIndex]
    rw [hfirst]
    congr 1
    cases rest with
    | nil => rfl
    | cons w2 rest2 =>
      have hb : states.gstate.batch_index + (rest2.length + 1 + 1) ≤ 2 ^ 64 := by
        simpa using hbound
      have hlt : states.gstate.batch_index + 1 < 2 ^ 64 := by
        have h1 : states.gstate.batch_index + 1 < states.gstate.batch_index + (rest2.length + 1 + 1) :=
          Nat.add_lt_add_left (Nat.lt_add_of_pos_left (Nat.succ_pos _)) _
        exact Nat.lt_of_lt_of_le h1 hb
      have hnext : (RequestBuffer states worker).gstate.batch_index
          = states.gstate.batch_index + 1 := by
        simp only [RequestBuffer, AssignBatchIndex]
        exact Nat.mod_eq_of_lt hlt
      have := ih (RequestBuffer states worker) (by
        rw [hnext]
        have e : states.gstate.batch_index + 1 + (w2 :: rest2).length
            = states.gstate.batch_index + (rest2.length + 1 + 1) := by
          simp only [List.length_cons]
          rw [Nat.add_assoc, Nat.add_comm 1]
        rw [e]; exact hb)
      rw [this, hnext]

/-! ### The expressions of the update and the slots of the projection -/

theorem getElem?_append_of_eq_some {α : Type} (l l' : List α) (i : Nat) (x : α)
    (h : l[i]? = some x) : (l ++ l')[i]? = some x := by
  rw [List.getElem?_append_left (List.getElem?_eq_some.1 h).1]
  exact h

theorem lt_length_of_getElem?_eq_some {α : Type} (l : List α) (i : Nat) (x : α)
    (h : l[i]? = some x) : i < l.length :=
  (List.getElem?_eq_some.1 h).1

theorem IsSetAssignment_append (svc : BinderServices) (table : TableCatalogEntry)
    (proj_index : idx_t) (projection more : List Expression) (colname : String)
    (expr : ParsedExpression) (e : Expression)
    (h : IsSetAssignment svc table proj_index projection colname expr e) :
    IsSetAssignment svc table proj_index (projection ++ more) colname expr e := by
  rcases h with h | ⟨hne, b0, r0, b, r1, k, h1, h2, h3, h4⟩
  · exact Or.inl h
  · exact Or.inr ⟨hne, b0, r0, b, r1, k, h1, h2, h3, getElem?_append_of_eq_some _ _ _ _ h4⟩

/-- What a successful run of the loop of `BindUpdateSet` has appended to `op.expressions` and to
the projection list: one expression for each pair, which is its set assignment, with distinct
ordinals that point into the new part of the projection list. -/
theorem BindUpdateSetLoop_ok_expressions (svc : BinderServices) (proj_index : idx_t)
    (table : TableCatalogEntry) :
    ∀ (colnames : List String) (exprs : List ParsedExpression) (st st' : SetState),
      BindUpdateSetLoop svc proj_index table colnames exprs st = .ok st' →
      ∃ new_expressions new_projection : List Expression,
        st'.op_expressions = st.op_expressions ++ new_expressions ∧
        st'.projection_expressions = st.projection_expressions ++ new_projection ∧
        new_expressions.length = colnames.length ∧
        (∀ (i : Nat) (colname : String), colnames[i]? = some colname →
          ∃ expr e, exprs[i]? = some expr ∧ new_expressions[i]? = some e ∧
            IsSetAssignment svc table proj_index st'.projection_expressions colname expr e) ∧
        OrdinalsWithin new_expressions proj_index st.projection_expressions.length
          st'.projection_expressions.length ∧
        DistinctOrdinals new_expressions := by
  intro colnames
  induction colnames with
  | nil =>
    intro exprs st st' h
    simp only [BindUpdateSetLoop, Except.ok.injEq] at h
    subst h
    refine ⟨[], [], by simp, by simp, rfl, ?_, ?_, ?_⟩
    · intro i colname hc; simp at hc
    · intro i t b hb; simp at hb
    · intro i j ti tj bi bj hi; simp at hi
  | cons colname rest ih =>
    intro exprs st st' h
    cases exprs with
    | nil => simp [BindUpdateSetLoop] at h
    | cons expr exprs =>
      obtain ⟨st1, h1, -, hcase⟩ := BindUpdateSetLoop_ok_cons svc proj_index table colname rest
        expr exprs st st' h
      obtain ⟨ops1, proj1, hops, hproj, hlen, hpairs, hwithin, hdist⟩ := ih exprs st1 st' h1
      rcases hcase with ⟨hdef, -, hpe, hoe⟩ | ⟨hne, b0, b, root, hb0, hplan, -, hpe, hoe⟩
      · -- the first pair assigns DEFAULT
        refine ⟨Expression.BoundDefaultExpression (table.GetColumn colname).GetType :: ops1,
          proj1, ?_, ?_, ?_, ?_, ?_, ?_⟩
        · rw [hops, hoe]; simp
        · rw [hproj, hpe]
        · simp [hlen]
        · intro i cn hcn
          cases i with
          | zero =>
            simp only [List.getElem?_cons_zero, Option.some.injEq] at hcn
            subst hcn
            exact ⟨expr, _, List.getElem?_cons_zero, List.getElem?_cons_zero,
              Or.inl ⟨hdef, rfl⟩⟩
          | succ i' =>
            simp only [List.getElem?_cons_succ] at hcn ⊢
            exact hpairs i' cn hcn
        · intro i t bnd hb
          cases i with
          | zero => simp at hb
          | succ i' =>
            simp only [List.getElem?_cons_succ] at hb
            have := hwithin i' t bnd hb
            rw [hpe] at this
            exact this
        · intro i j ti tj bi bj hi hj heq
          cases i with
          | zero => simp at hi
          | succ i' =>
            cases j with
            | zero => simp at hj
            | succ j' =>
              simp only [List.getElem?_cons_succ] at hi hj
              rw [hdist i' j' ti tj bi bj hi hj heq]
      · -- the first pair assigns a bound expression
        have hlen1 : st1.projection_expressions.length
            = st.projection_expressions.length + 1 := by
          rw [hpe]; simp
        have hlen' : st.projection_expressions.length < st'.projection_expressions.length := by
          rw [hproj, List.length_append, hlen1]
          exact Nat.lt_of_lt_of_le (Nat.lt_succ_self _) (Nat.le_add_right _ _)
        refine ⟨Expression.BoundColumnRefExpression b.return_type
            ⟨proj_index, st.projection_expressions.length⟩ :: ops1,
          b :: proj1, ?_, ?_, ?_, ?_, ?_, ?_⟩
        · rw [hops, hoe]; simp
        · rw [hproj, hpe]; simp
        · simp [hlen]
        · intro i cn hcn
          cases i with
          | zero =>
            simp only [List.getElem?_cons_zero, Option.some.injEq] at hcn
            subst hcn
            refine ⟨expr, _, List.getElem?_cons_zero, List.getElem?_cons_zero,
              Or.inr ⟨hne, b0, st.root, b, root,
                st.projection_expressions.length, hb0, hplan, rfl, ?_⟩⟩
            rw [hproj, hpe, List.append_assoc]
            rw [List.getElem?_append_right (Nat.le_refl _)]
            simp
          | succ i' =>
            simp only [List.getElem?_cons_succ] at hcn ⊢
            exact hpairs i' cn hcn
        · intro i t bnd hb
          cases i with
          | zero =>
            simp only [List.getElem?_cons_zero, Option.some.injEq,
              Expression.BoundColumnRefExpression.injEq] at hb
            obtain ⟨-, hbnd⟩ := hb
            subst hbnd
            exact ⟨rfl, Nat.le_refl _, hlen'⟩
          | succ i' =>
            simp only [List.getElem?_cons_succ] at hb
            obtain ⟨a1, a2, a3⟩ := hwithin i' t bnd hb
            rw [hlen1] at a2
            exact ⟨a1, Nat.le_of_succ_le a2, a3⟩
        · intro i j ti tj bi bj hi hj heq
          cases i with
          | zero =>
            cases j with
            | zero => rfl
            | succ j' =>
              simp only [List.getElem?_cons_zero, Option.some.injEq,
                Expression.BoundColumnRefExpression.injEq] at hi
              simp only [List.getElem?_cons_succ] at hj
              obtain ⟨-, a2, -⟩ := hwithin j' tj bj hj
              rw [hlen1, ← heq, ← hi.2] at a2
              exact absurd a2 (Nat.not_succ_le_self _)
          | succ i' =>
            cases j with
            | zero =>
              simp only [List.getElem?_cons_zero, Option.some.injEq,
                Expression.BoundColumnRefExpression.injEq] at hj
              simp only [List.getElem?_cons_succ] at hi
              obtain ⟨-, a2, -⟩ := hwithin i' ti bi hi
              rw [hlen1, heq, ← hj.2] at a2
              exact absurd a2 (Nat.not_succ_le_self _)
            | succ j' =>
              simp only [List.getElem?_cons_succ] at hi hj
              rw [hdist i' j' ti tj bi bj hi hj heq]

theorem IsSelfAssignment_ProjectColumn (table : TableCatalogEntry) (s : Operators)
    (c c' : PhysicalIndex) (e : Expression) (h : IsSelfAssignment table s c e) :
    IsSelfAssignment table (ProjectColumn table s c') c e := by
  obtain ⟨k, p, h1, h2, h3⟩ := h
  exact ⟨k, p, h1, getElem?_append_of_eq_some _ _ _ _ h2, getElem?_append_of_eq_some _ _ _ _ h3⟩

/-- Projecting one more column keeps the link between update, projection and scan. -/
theorem UpdateLinked_ProjectColumn (svc : BinderServices) (table : TableCatalogEntry)
    (set_info : UpdateSetInfo) (s : Operators) (c : PhysicalIndex)
    (h : UpdateLinked svc table set_info s) :
    UpdateLinked svc table set_info (ProjectColumn table s c) := by
  obtain ⟨hlen, hset, hself, hwithin, hdist⟩ := h
  have hcols : (ProjectColumn table s c).update.columns = s.update.columns ++ [c] := rfl
  have hexprs : (ProjectColumn table s c).update.expressions = s.update.expressions ++
      [Expression.BoundColumnRefExpression (table.GetColumns.GetColumn c).GetType
        ⟨s.proj.table_index, s.proj.expressions.length⟩] := rfl
  have hproj : (ProjectColumn table s c).proj.expressions = s.proj.expressions ++
      [Expression.BoundColumnRefExpression (table.GetColumns.GetColumn c).GetType
        ⟨s.get.table_index, s.get.column_ids.length⟩] := rfl
  have hids : (ProjectColumn table s c).get.column_ids = s.get.column_ids ++ [c.index] := rfl
  have hpti : (ProjectColumn table s c).proj.table_index = s.proj.table_index := rfl
  have hgti : (ProjectColumn table s c).get.table_index = s.get.table_index := rfl
  refine ⟨?_, ?_, ?_, ?_, ?_⟩
  · rw [hcols, hexprs, List.length_append, List.length_append, hlen]
    rfl
  · intro i colname hcn
    obtain ⟨expr, e, h1, h2, h3, h4⟩ := hset i colname hcn
    refine ⟨expr, e, h1, ?_, ?_, ?_⟩
    · rw [hexprs]; exact getElem?_append_of_eq_some _ _ _ _ h2
    · rw [hcols]; exact getElem?_append_of_eq_some _ _ _ _ h3
    · rw [hpti, hproj]; exact IsSetAssignment_append _ _ _ _ _ _ _ _ h4
  · intro i c' hi hc'
    rw [hcols] at hc'
    by_cases hlt : i < s.update.columns.length
    · rw [List.getElem?_append_left hlt] at hc'
      obtain ⟨e, h1, h2⟩ := hself i c' hi hc'
      refine ⟨e, ?_, IsSelfAssignment_ProjectColumn table s c' c e h2⟩
      rw [hexprs]; exact getElem?_append_of_eq_some _ _ _ _ h1
    · have hle : s.update.columns.length ≤ i := Nat.le_of_not_lt hlt
      have hi' : i < (s.update.columns ++ [c]).length :=
        lt_length_of_getElem?_eq_some _ _ _ hc'
      rw [List.length_append, List.length_singleton] at hi'
      have heq : i = s.update.columns.length := Nat.le_antisymm (Nat.le_of_lt_succ hi') hle
      subst heq
      rw [List.getElem?_concat_length] at hc'
      simp only [Option.some.injEq] at hc'
      subst hc'
      refine ⟨_, ?_, s.proj.expressions.length, s.get.column_ids.length, rfl, ?_, ?_⟩
      · rw [hexprs, ← hlen]; exact List.getElem?_concat_length _ _
      · rw [hproj]; exact List.getElem?_concat_length _ _
      · rw [hids]; exact List.getElem?_concat_length _ _
  · intro i t b hb
    rw [hexprs] at hb
    rw [hpti, hproj, List.length_append, List.length_singleton]
    by_cases hlt : i < s.update.expressions.length
    · rw [List.getElem?_append_left hlt] at hb
      obtain ⟨a1, a2, a3⟩ := hwithin i t b hb
      exact ⟨a1, a2, Nat.lt_succ_of_lt a3⟩
    · have hle : s.update.expressions.length ≤ i := Nat.le_of_not_lt hlt
      have hi' := lt_length_of_getElem?_eq_some _ _ _ hb
      rw [List.length_append, List.length_singleton] at hi'
      have heq : i = s.update.expressions.length := Nat.le_antisymm (Nat.le_of_lt_succ hi') hle
      subst heq
      rw [List.getElem?_concat_length] at hb
      simp only [Option.some.injEq, Expression.BoundColumnRefExpression.injEq] at hb
      obtain ⟨-, hbnd⟩ := hb
      subst hbnd
      exact ⟨rfl, Nat.zero_le _, Nat.lt_succ_self _⟩
  · intro i j ti tj bi bj hi hj heq
    rw [hexprs] at hi hj
    have key : ∀ (a : Nat) (t : LogicalType) (b : ColumnBinding),
        (s.update.expressions ++
          [Expression.BoundColumnRefExpression (table.GetColumns.GetColumn c).GetType
            ⟨s.proj.table_index, s.proj.expressions.length⟩])[a]?
          = some (Expression.BoundColumnRefExpression t b) →
        (a < s.update.expressions.length ∧
          s.update.expressions[a]? = some (Expression.BoundColumnRefExpression t b) ∧
          b.column_index < s.proj.expressions.length) ∨
        (a = s.update.expressions.length ∧ b.column_index = s.proj.expressions.length) := by
      intro a t b hab
      by_cases hlt : a < s.update.expressions.length
      · rw [List.getElem?_append_left hlt] at hab
        exact Or.inl ⟨hlt, hab, (hwithin a t b hab).2.2⟩
      · have hle : s.update.expressions.length ≤ a := Nat.le_of_not_lt hlt
        have ha' := lt_length_of_getElem?_eq_some _ _ _ hab
        rw [List.length_append, List.length_singleton] at ha'
        have hae : a = s.update.expressions.length :=
          Nat.le_antisymm (Nat.le_of_lt_succ ha') hle
        subst hae
        rw [List.getElem?_concat_length] at hab
        simp only [Option.some.injEq, Expression.BoundColumnRefExpression.injEq] at hab
        obtain ⟨-, hbnd⟩ := hab
        subst hbnd
        exact Or.inr ⟨rfl, rfl⟩
    rcases key i ti bi hi with ⟨-, hi1, hi2⟩ | ⟨hi1, hi2⟩
    · rcases key j tj bj hj with ⟨-, hj1, -⟩ | ⟨-, hj2⟩
      · exact hdist i j ti tj bi bj hi1 hj1 heq
      · rw [heq, hj2] at hi2
        exact absurd hi2 (Nat.lt_irrefl _)
    · rcases key j tj bj hj with ⟨-, -, hj2⟩ | ⟨hj1, -⟩
      · rw [← heq, hi2] at hj2
        exact absurd hj2 (Nat.lt_irrefl _)
      · rw [hi1, hj1]

/-- The link between update, projection and scan holds after `BindUpdateConstraints` when it
holds before. -/
theorem UpdateLinked_BindUpdateConstraints (svc : BinderServices) (table : TableCatalogEntry)
    (set_info : UpdateSetInfo) (s : Operators) (h : UpdateLinked svc table set_info s) :
    UpdateLinked svc table set_info (BindUpdateConstraints table s) :=
  BindUpdateConstraints_induction table (UpdateLinked svc table set_info)
    (fun s c hs => UpdateLinked_ProjectColumn svc table set_info s c hs)
    (fun _ _ hs => hs) s h

/-- For the update operator `BindUpdateSet` always builds the projection: on success its result
is the projection with the generated index over the projection list and the root that the loop
has left. -/
theorem BindUpdateSet_update_ok (svc : BinderServices) (proj_index : idx_t)
    (op_expressions : List Expression) (root : LogicalOperator) (set_info : UpdateSetInfo)
    (table : TableCatalogEntry) (columns : List PhysicalIndex) (r : BindUpdateSetResult)
    (h : BindUpdateSet svc proj_index .LOGICAL_UPDATE op_expressions root set_info table columns
      = .ok r) :
    ∃ st : SetState,
      BindUpdateSetLoop svc proj_index table set_info.columns set_info.expressions
          { root := root, op_expressions := op_expressions, columns := columns,
            projection_expressions := [] } = .ok st ∧
      r.result = .projection proj_index st.projection_expressions st.root ∧
      r.op_expressions = st.op_expressions ∧ r.columns = st.columns := by
  unfold BindUpdateSet at h
  split at h
  · simp at h
  · rename_i st hst
    rw [if_neg (by simp)] at h
    simp only [Except.ok.injEq] at h
    subst h
    exact ⟨st, hst, rfl, rfl, rfl⟩

/-- The operators that `BindUpdateSet` leaves for the update operator, started from empty
`update.columns` and `update.expressions`, are linked. -/
theorem UpdateLinked_BindUpdateSet (svc : BinderServices) (proj_index : idx_t)
    (root : LogicalOperator) (set_info : UpdateSetInfo) (table : TableCatalogEntry)
    (r : BindUpdateSetResult) (s : Operators)
    (hset : BindUpdateSet svc proj_index .LOGICAL_UPDATE [] root set_info table [] = .ok r)
    (hproj : r.result = .projection s.proj.table_index s.proj.expressions s.proj.child)
    (hcols : s.update.columns = r.columns) (hexprs : s.update.expressions = r.op_expressions) :
    UpdateLinked svc table set_info s := by
  obtain ⟨st, hloop, hres, hop, hcol⟩ := BindUpdateSet_update_ok _ _ _ _ _ _ _ r hset
  obtain ⟨hc, -, -, -⟩ := BindUpdateSetLoop_ok svc proj_index table _ _ _ st hloop
  obtain ⟨ops, prj, hops, hprj, hlen, hpairs, hwithin, hdist⟩ :=
    BindUpdateSetLoop_ok_expressions svc proj_index table _ _ _ st hloop
  simp only [List.nil_append, List.length_nil] at hc hops hprj hwithin
  rw [hres] at hproj
  simp only [LogicalOperator.projection.injEq] at hproj
  obtain ⟨hti, hes, -⟩ := hproj
  have hcols' : s.update.columns
      = set_info.columns.map (fun n => (table.GetColumn n).Physical) := by
    rw [hcols, hcol, hc]
  have hexprs' : s.update.expressions = ops := by rw [hexprs, hop, hops]
  refine ⟨?_, ?_, ?_, ?_, ?_⟩
  · rw [hexprs', hcols', hlen, List.length_map]
  · intro i colname hcn
    obtain ⟨expr, e, h1, h2, h3⟩ := hpairs i colname hcn
    refine ⟨expr, e, h1, by rw [hexprs']; exact h2, ?_, ?_⟩
    · rw [hcols', List.getElem?_map, hcn]; rfl
    · rw [← hti, ← hes]; exact h3
  · intro i c hi hc'
    have := lt_length_of_getElem?_eq_some _ _ _ hc'
    rw [hcols', List.length_map] at this
    exact absurd this (Nat.not_lt.2 hi)
  · rw [hexprs', ← hti, ← hes]
    exact hwithin
  · rw [hexprs']; exact hdist

/-! ### Records split over two buffers -/

theorem ScanRecords_cons_boundary (format : JSONFormat) (current cs : List Char) (c : Char)
    (hc : format.IsBoundary current c = true) :
    ScanRecords format current (c :: cs)
      = (current :: (ScanRecords format [] cs).1, (ScanRecords format [] cs).2) := by
  simp [ScanRecords, hc]

theorem ScanRecords_cons_other (format : JSONFormat) (current cs : List Char) (c : Char)
    (hc : format.IsBoundary current c = false) :
    ScanRecords format current (c :: cs) = ScanRecords format (current ++ [c]) cs := by
  simp [ScanRecords, hc]

/-- A scan of two runs of bytes one after the other is the scan of the first run, followed by
the scan of the second run that starts with the bytes the first has left. -/
theorem ScanRecords_append (format : JSONFormat) :
    ∀ (x current y : List Char),
      ScanRecords format current (x ++ y)
        = ((ScanRecords format current x).1
            ++ (ScanRecords format (ScanRecords format current x).2 y).1,
           (ScanRecords format (ScanRecords format current x).2 y).2)
  | [], current, y => by simp [ScanRecords]
  | c :: cs, current, y => by
    by_cases hc : format.IsBoundary current c = true
    · rw [List.cons_append, ScanRecords_cons_boundary format _ _ _ hc,
        ScanRecords_cons_boundary format _ _ _ hc, ScanRecords_append format cs [] y]
      simp
    · have hc' : format.IsBoundary current c = false := by simpa using hc
      rw [List.cons_append, ScanRecords_cons_other format _ _ _ hc',
        ScanRecords_cons_other format _ _ _ hc', ScanRecords_append format cs (current ++ [c]) y]

/-- When the buffer holds a boundary, the scan gives the record that the first boundary ends,
then the scan of the bytes behind it. -/
theorem ScanRecords_of_NextRecord_some (format : JSONFormat) :
    ∀ (buffer current record rest : List Char),
      NextRecord format current buffer = some (record, rest) →
      ScanRecords format current buffer
        = (record :: (ScanRecords format [] rest).1, (ScanRecords format [] rest).2)
  | [], current, record, rest, h => by simp [NextRecord] at h
  | c :: cs, current, record, rest, h => by
    by_cases hc : format.IsBoundary current c = true
    · simp only [NextRecord, hc, if_true, Option.some.injEq, Prod.mk.injEq] at h
      rw [ScanRecords_cons_boundary format _ _ _ hc, h.1, h.2]
    · have hc' : format.IsBoundary current c = false := by simpa using hc
      simp only [NextRecord, hc', Bool.false_eq_true, if_false] at h
      rw [ScanRecords_cons_other format _ _ _ hc']
      exact ScanRecords_of_NextRecord_some format cs _ record rest h

/-- When the buffer holds no boundary, the scan gives no record and leaves all the bytes. -/
theorem ScanRecords_of_NextRecord_none (format : JSONFormat) :
    ∀ (buffer current : List Char),
      NextRecord format current buffer = none →
      ScanRecords format current buffer = ([], current ++ buffer)
  | [], current, _ => by simp [ScanRecords]
  | c :: cs, current, h => by
    by_cases hc : format.IsBoundary current c = true
    · simp [NextRecord, hc] at h
    · have hc' : format.IsBoundary current c = false := by simpa using hc
      simp only [NextRecord, hc', Bool.false_eq_true, if_false] at h
      rw [ScanRecords_cons_other format _ _ _ hc',
        ScanRecords_of_NextRecord_none format cs _ h]
      simp

/-- The record that the first boundary of a buffer ends is the bytes under way followed by the
head of the buffer in front of the boundary. -/
theorem NextRecord_head (format : JSONFormat) :
    ∀ (buffer current record rest : List Char),
      NextRecord format current buffer = some (record, rest) →
      ∃ (head : List Char) (c : Char), record = current ++ head ∧ buffer = head ++ c :: rest
  | [], current, record, rest, h => by simp [NextRecord] at h
  | c :: cs, current, record, rest, h => by
    by_cases hc : format.IsBoundary current c = true
    · simp only [NextRecord, hc, if_true, Option.some.injEq, Prod.mk.injEq] at h
      exact ⟨[], c, by simp [h.1], by simp [h.2]⟩
    · have hc' : format.IsBoundary current c = false := by simpa using hc
      simp only [NextRecord, hc', Bool.false_eq_true, if_false] at h
      obtain ⟨head, c', h1, h2⟩ := NextRecord_head format cs _ record rest h
      exact ⟨c :: head, c', by simp [h1], by simp [h2]⟩

/-- The bytes that a scan from a record start leaves are a suffix of the buffer. -/
theorem ScanRecords_remainder_suffix (format : JSONFormat) :
    ∀ (n : Nat) (buffer : List Char), buffer.length ≤ n →
      (ScanRecords format [] buffer).2 <:+ buffer
  | 0, buffer, h => by
    have : buffer = [] := List.eq_nil_of_length_eq_zero (Nat.le_zero.1 h)
    subst this
    simp [ScanRecords]
  | n + 1, buffer, h => by
    cases hnext : NextRecord format [] buffer with
    | none =>
      rw [ScanRecords_of_NextRecord_none format _ _ hnext]
      simp
    | some p =>
      obtain ⟨record, rest⟩ := p
      rw [ScanRecords_of_NextRecord_some format _ _ _ _ hnext]
      obtain ⟨head, c, -, hb⟩ := NextRecord_head format _ _ _ _ hnext
      have hlen : rest.length ≤ n := by
        have := congrArg List.length hb
        simp at this
        omega
      have ih := ScanRecords_remainder_suffix format n rest hlen
      refine ih.trans ?_
      rw [hb]
      exact (List.suffix_cons c rest).trans (List.suffix_append head (c :: rest))

/-- With a boundary in the buffer, the bytes that a scan leaves are a suffix of the buffer,
whatever bytes were under way. -/
theorem ScanRecords_remainder_suffix_of_boundary (format : JSONFormat)
    (current buffer : List Char) (h : NextRecord format current buffer ≠ none) :
    (ScanRecords format current buffer).2 <:+ buffer := by
  cases hnext : NextRecord format current buffer with
  | none => exact absurd hnext h
  | some p =>
    obtain ⟨record, rest⟩ := p
    rw [ScanRecords_of_NextRecord_some format _ _ _ _ hnext]
    obtain ⟨head, c, -, hb⟩ := NextRecord_head format _ _ _ _ hnext
    refine (ScanRecords_remainder_suffix format rest.length rest (le_refl _)).trans ?_
    rw [hb]
    exact (List.suffix_cons c rest).trans (List.suffix_append head (c :: rest))

theorem CheckObjectSizes_ok_iff (maximum_object_size : idx_t) (records checked : List (List Char)) :
    CheckObjectSizes maximum_object_size records = .ok checked
      ↔ checked = records ∧ ∀ record ∈ records, record.length ≤ maximum_object_size := by
  unfold CheckObjectSizes
  split
  · rename_i record hfind
    have hmem := List.mem_of_find?_eq_some hfind
    have hbig := List.find?_some hfind
    simp only [decide_eq_true_eq] at hbig
    constructor
    · intro h; simp at h
    · intro h
      exact absurd (h.2 record hmem) (Nat.not_le.2 hbig)
  · rename_i hfind
    rw [List.find?_eq_none] at hfind
    constructor
    · intro h
      simp only [Except.ok.injEq] at h
      refine ⟨h.symm, ?_⟩
      intro record hr
      have := hfind record hr
      simpa using this
    · intro h
      rw [h.1]

/-- What a worker returns when it does not raise the error: the records that the scan of its
buffer, started with the bytes passed forward to it, hands over, none of them larger than
`maximum_object_size`, and the bytes that this scan leaves; and a record under way at the start
of a buffer that is not terminal ends in that buffer. -/
theorem ReadBuffer_ok (format : JSONFormat) (maximum_object_size : idx_t)
    (prev_buffer_remainder buffer : List Char) (is_last : Bool)
    (records : List (List Char)) (remainder : List Char)
    (h : ReadBuffer format maximum_object_size prev_buffer_remainder buffer is_last
      = .ok (records, remainder)) :
    records = EmitRecords format (ScanRecords format prev_buffer_remainder buffer) is_last ∧
    remainder = (ScanRecords format prev_buffer_remainder buffer).2 ∧
    (∀ record ∈ records, record.length ≤ maximum_object_size) ∧
    (prev_buffer_remainder = [] ∨ NextRecord format prev_buffer_remainder buffer ≠ none ∨
      is_last = true) := by
  unfold ReadBuffer at h
  by_cases hprev : prev_buffer_remainder = []
  · simp only [hprev, if_true] at h
    split at h
    · simp at h
    · rename_i checked hcheck
      simp only [List.nil_append, Except.ok.injEq, Prod.mk.injEq] at h
      obtain ⟨hc1, hc2⟩ := (CheckObjectSizes_ok_iff _ _ _).1 hcheck
      subst hprev
      refine ⟨?_, h.2.symm, ?_, Or.inl rfl⟩
      · rw [← h.1, hc1]
      · rw [← h.1, hc1]; exact hc2
  · simp only [hprev, if_false] at h
    unfold ReconstructFirstObject at h
    cases hnext : NextRecord format prev_buffer_remainder buffer with
    | none =>
      simp only [hnext] at h
      cases is_last with
      | false => simp at h
      | true =>
        simp only [if_true] at h
        split at h
        · simp at h
        · rename_i checked hcheck
          simp only [List.nil_append, Except.ok.injEq, Prod.mk.injEq] at h
          obtain ⟨hc1, hc2⟩ := (CheckObjectSizes_ok_iff _ _ _).1 hcheck
          have hscan : ScanRecords format (prev_buffer_remainder ++ buffer) []
              = ([], prev_buffer_remainder ++ buffer) := by simp [ScanRecords]
          rw [hscan] at hc1 hc2 h
          rw [ScanRecords_of_NextRecord_none format _ _ hnext]
          refine ⟨?_, h.2.symm, ?_, Or.inr (Or.inr rfl)⟩
          · rw [← h.1, hc1]
          · rw [← h.1, hc1]; exact hc2
    | some p =>
      obtain ⟨record, rest⟩ := p
      simp only [hnext] at h
      by_cases hbig : maximum_object_size < record.length
      · simp [hbig] at h
      · simp only [hbig, if_false] at h
        split at h
        · simp at h
        · rename_i checked hcheck
          simp only [Except.ok.injEq, Prod.mk.injEq] at h
          obtain ⟨hc1, hc2⟩ := (CheckObjectSizes_ok_iff _ _ _).1 hcheck
          rw [ScanRecords_of_NextRecord_some format _ _ _ _ hnext]
          refine ⟨?_, h.2.symm, ?_, Or.inr (Or.inl (by simp))⟩
          · rw [← h.1, hc1]
            simp [EmitRecords]
          · rw [← h.1, hc1]
            intro r hr
            simp only [List.singleton_append, List.mem_cons] at hr
            rcases hr with hr | hr
            · rw [hr]; exact Nat.not_lt.1 hbig
            · exact hc2 r hr

/-- A worker does not raise the error when no record that the scan of its buffer hands over is
larger than `maximum_object_size` and a record under way at the start of the buffer ends in it
or the buffer is terminal. -/
theorem ReadBuffer_eq_ok (format : JSONFormat) (maximum_object_size : idx_t)
    (prev_buffer_remainder buffer : List Char) (is_last : Bool)
    (hspan : prev_buffer_remainder = [] ∨
      NextRecord format prev_buffer_remainder buffer ≠ none ∨ is_last = true)
    (hsize : ∀ record ∈
        EmitRecords format (ScanRecords format prev_buffer_remainder buffer) is_last,
      record.length ≤ maximum_object_size) :
    ReadBuffer format maximum_object_size prev_buffer_remainder buffer is_last
      = .ok (EmitRecords format (ScanRecords format prev_buffer_remainder buffer) is_last,
             (ScanRecords format prev_buffer_remainder buffer).2) := by
  unfold ReadBuffer
  by_cases hprev : prev_buffer_remainder = []
  · subst hprev
    simp only [if_true]
    rw [(CheckObjectSizes_ok_iff _ _ _).2 ⟨rfl, hsize⟩]
    simp
  · simp only [hprev, if_false]
    unfold ReconstructFirstObject
    cases hnext : NextRecord format prev_buffer_remainder buffer with
    | none =>
      have hlast : is_last = true := by
        rcases hspan with h | h | h
        · exact absurd h hprev
        · exact absurd hnext h
        · exact h
      subst hlast
      rw [ScanRecords_of_NextRecord_none format _ _ hnext] at hsize ⊢
      have hscan : ScanRecords format (prev_buffer_remainder ++ buffer) []
          = ([], prev_buffer_remainder ++ buffer) := by simp [ScanRecords]
      simp only [if_true, hscan]
      rw [(CheckObjectSizes_ok_iff _ _ _).2 ⟨rfl, hsize⟩]
      simp
    | some p =>
      obtain ⟨record, rest⟩ := p
      rw [ScanRecords_of_NextRecord_some format _ _ _ _ hnext] at hsize ⊢
      have hrec : ¬ maximum_object_size < record.length :=
        Nat.not_lt.2 (hsize record (by simp [EmitRecords]))
      simp only [hrec, if_false]
      have hrest : ∀ r ∈ EmitRecords format (ScanRecords format [] rest) is_last,
          r.length ≤ maximum_object_size := by
        intro r hr
        apply hsize r
        simp only [EmitRecords, List.cons_append, List.mem_cons] at hr ⊢
        exact Or.inr hr
      rw [(CheckObjectSizes_ok_iff _ _ _).2 ⟨rfl, hrest⟩]
      simp [EmitRecords]

theorem isEmpty_eq_decide_length (α : Type) (rest : List α) (n : Nat) :
    rest.isEmpty = decide (n + 1 = n + rest.length + 1) := by
  cases rest with
  | nil => simp
  | cons a l => simp

/-- What a scan of the buffers returns when no worker raises the error, started with bytes
`prev` under way: one list of records for each buffer; for each buffer, the records that the
scan of this buffer hands over when it is started with the bytes that the buffers before it
leave; no record larger than `maximum_object_size`; and a record under way at the start of a
buffer that is not the last ends in that buffer. -/
theorem ScanBuffers_ok (format : JSONFormat) (maximum_object_size : idx_t) :
    ∀ (buffers : List (List Char)) (prev : List Char) (outputs : List (List (List Char))),
      ScanBuffers format maximum_object_size prev buffers = .ok outputs →
      outputs.length = buffers.length ∧
      (buffers ≠ [] →
        outputs.flatten = EmitRecords format (ScanRecords format prev buffers.flatten) true) ∧
      (∀ record ∈ outputs.flatten, record.length ≤ maximum_object_size) ∧
      ∀ (k : Nat) (buffer : List Char), buffers[k]? = some buffer →
        outputs[k]? = some (EmitRecords format
          (ScanRecords format (ScanRecords format prev (buffers.take k).flatten).2 buffer)
          (decide (k + 1 = buffers.length))) ∧
        (k + 1 < buffers.length →
          (ScanRecords format prev (buffers.take k).flatten).2 = [] ∨
          NextRecord format (ScanRecords format prev (buffers.take k).flatten).2 buffer ≠ none)
  | [], prev, outputs, h => by
    simp only [ScanBuffers, Except.ok.injEq] at h
    subst h
    simp
  | b :: rest, prev, outputs, h => by
    unfold ScanBuffers at h
    split at h
    · simp at h
    · rename_i records remainder hread
      split at h
      · simp at h
      · rename_i outputs' hrest
        simp only [Except.ok.injEq] at h
        subst h
        obtain ⟨hrec, hrem, hsz, hspan⟩ := ReadBuffer_ok _ _ _ _ _ _ _ hread
        obtain ⟨hlen, hflat, hsz', hidx⟩ := ScanBuffers_ok format maximum_object_size rest
          remainder outputs' hrest
        refine ⟨by simp [hlen], ?_, ?_, ?_⟩
        · intro _
          by_cases hr : rest = []
          · subst hr
            have : outputs' = [] := List.eq_nil_of_length_eq_zero (by simpa using hlen)
            subst this
            simpa using hrec
          · have hne : rest.isEmpty = false := by
              cases rest with
              | nil => exact absurd rfl hr
              | cons a l => rfl
            rw [hne] at hrec
            simp only [List.flatten_cons]
            rw [hflat hr, hrec, ScanRecords_append, ← hrem]
            simp [EmitRecords]
        · intro record hr
          simp only [List.flatten_cons, List.mem_append] at hr
          rcases hr with hr | hr
          · exact hsz record hr
          · exact hsz' record hr
        · intro k buffer hk
          cases k with
          | zero =>
            simp only [List.getElem?_cons_zero, Option.some.injEq] at hk
            subst hk
            have hscan : ScanRecords format prev [] = ([], prev) := by simp [ScanRecords]
            simp only [List.take_zero, List.flatten_nil, hscan, List.getElem?_cons_zero,
              List.length_cons, Option.some.injEq]
            refine ⟨?_, ?_⟩
            · rw [hrec]
              congr 1
              have := isEmpty_eq_decide_length _ rest 0
              simpa using this
            · intro hlt
              rcases hspan with h1 | h1 | h1
              · exact Or.inl h1
              · exact Or.inr h1
              · cases rest with
                | nil => simp at hlt
                | cons a l => simp at h1
          | succ k' =>
            simp only [List.getElem?_cons_succ] at hk
            obtain ⟨h1, h2⟩ := hidx k' buffer hk
            have hrem' : (ScanRecords format prev (List.take (k' + 1) (b :: rest)).flatten).2
                = (ScanRecords format remainder (List.take k' rest).flatten).2 := by
              simp only [List.take_succ_cons, List.flatten_cons]
              rw [ScanRecords_append, ← hrem]
            rw [hrem']
            simp only [List.getElem?_cons_succ, List.length_cons]
            refine ⟨?_, ?_⟩
            · rw [h1]
              simp
            · intro hlt
              exact h2 (by omega)

/-- No worker raises the error when no record of the whole run of bytes is larger than
`maximum_object_size` and every record under way at the start of a buffer that is not the last
ends in that buffer. -/
theorem ScanBuffers_eq_ok (format : JSONFormat) (maximum_object_size : idx_t) :
    ∀ (buffers : List (List Char)) (prev : List Char),
      (∀ record ∈ EmitRecords format (ScanRecords format prev buffers.flatten) true,
        record.length ≤ maximum_object_size) →
      (∀ (k : Nat) (buffer : List Char), k + 1 < buffers.length → buffers[k]? = some buffer →
        (ScanRecords format prev (buffers.take k).flatten).2 ≠ [] →
        NextRecord format (ScanRecords format prev (buffers.take k).flatten).2 buffer ≠ none) →
      ∃ outputs, ScanBuffers format maximum_object_size prev buffers = .ok outputs
  | [], prev, _, _ => ⟨[], by simp [ScanBuffers]⟩
  | b :: rest, prev, hsize, hspan => by
    have hscan : ScanRecords format prev [] = ([], prev) := by simp [ScanRecords]
    have hread : ReadBuffer format maximum_object_size prev b rest.isEmpty
        = .ok (EmitRecords format (ScanRecords format prev b) rest.isEmpty,
               (ScanRecords format prev b).2) := by
      apply ReadBuffer_eq_ok
      · by_cases hprev : prev = []
        · exact Or.inl hprev
        · cases rest with
          | nil => exact Or.inr (Or.inr rfl)
          | cons a l =>
            refine Or.inr (Or.inl ?_)
            have := hspan 0 b (by simp) (by simp)
            simp only [List.take_zero, List.flatten_nil, hscan] at this
            exact this hprev
      · intro record hr
        apply hsize
        cases rest with
        | nil => simpa using hr
        | cons a l =>
          simp only [List.flatten_cons]
          rw [ScanRecords_append]
          simp only [EmitRecords, List.isEmpty_cons, Bool.false_eq_true, false_and, if_false,
            List.append_nil] at hr
          simp only [EmitRecords, List.mem_append]
          exact Or.inl (Or.inl hr)
    have hrest : ∃ outputs, ScanBuffers format maximum_object_size (ScanRecords format prev b).2
        rest = .ok outputs := by
      apply ScanBuffers_eq_ok format maximum_object_size rest
      · intro record hr
        apply hsize
        simp only [List.flatten_cons]
        rw [ScanRecords_append]
        simp only [EmitRecords, List.mem_append] at hr ⊢
        rcases hr with hr | hr
        · exact Or.inl (Or.inr hr)
        · exact Or.inr hr
      · intro k buffer hk hb hne
        have := hspan (k + 1) buffer (by simpa using hk) (by simpa using hb)
        simp only [List.take_succ_cons, List.flatten_cons] at this
        rw [ScanRecords_append] at this
        exact this hne
    obtain ⟨outputs, ho⟩ := hrest
    refine ⟨EmitRecords format (ScanRecords format prev b) rest.isEmpty :: outputs, ?_⟩
    unfold ScanBuffers
    rw [hread]
    simp only
    rw [ho]

/-- On a file with a first buffer, `ScanFile` is `ScanBuffers` on the buffers from the cursor on,
under the framing given or detected. -/
theorem ScanFile_cons (format : JSONFormat) (maximum_object_size : idx_t) (first : List Char)
    (rest : List (List Char)) :
    ScanFile format maximum_object_size (first :: rest)
      = ScanBuffers (if format = .AUTO_DETECT then DetectFormat first else format)
          maximum_object_size []
          ((if (if format = .AUTO_DETECT then DetectFormat first else format) = .ARRAY then
              SkipOverArrayStart first else first) :: rest) :=
  rfl

/-- The bytes in front of the buffer behind buffer `k` are what the scan of buffer `k` leaves
when it is started with the bytes in front of buffer `k`. -/
theorem RemainderBefore_succ (format : JSONFormat) (buffers : List (List Char)) (k : Nat)
    (buffer : List Char) (h : buffers[k]? = some buffer) :
    RemainderBefore format buffers (k + 1)
      = (ScanRecords format (RemainderBefore format buffers k) buffer).2 := by
  unfold RemainderBefore
  rw [List.take_succ, h]
  simp only [Option.toList_some, List.flatten_append, List.flatten_cons, List.flatten_nil,
    List.append_nil]
  rw [ScanRecords_append]

/-! ### DateFormatMap: templates without formats -/

theorem TemplateFormats_eq_nil (t : LogicalTypeId) :
    ∀ (templates : List (LogicalTypeId × List String)),
      (∀ entry ∈ templates, entry.1 = t → entry.2 = []) → TemplateFormats t templates = [] := by
  intro templates
  induction templates with
  | nil => intro _; rfl
  | cons entry rest ih =>
    intro h
    simp only [TemplateFormats]
    rw [ih (fun e he => h e (List.mem_cons_of_mem _ he))]
    by_cases ht : entry.1 = t
    · rw [if_pos ht, h entry (List.mem_cons_self _ _) ht]; rfl
    · rw [if_neg ht]; rfl

/-! ### The whole bind: the flag for LIST, MAP and UNION columns under RETURNING -/

/-- `BindUpdateOperators` is `BindUpdateSet`, the cast to a projection, and
`BindConstraintsAndRowId` on the operators that the caller holds then. -/
theorem BindUpdateOperators_eq (svc : BinderServices) (proj_index : idx_t)
    (table : TableCatalogEntry) (get : LogicalGet) (root : LogicalOperator)
    (update : LogicalUpdate) (set_info : UpdateSetInfo) :
    BindUpdateOperators svc proj_index table get root update set_info
      = match BindUpdateSet svc proj_index .LOGICAL_UPDATE update.expressions root set_info table
            update.columns with
        | .error e => .error e
        | .ok r =>
          match r.result with
          | .projection table_index expressions child =>
            .ok (BindConstraintsAndRowId table
              { get := get,
                proj := { table_index := table_index, expressions := expressions,
                          child := child },
                update := { update with expressions := r.op_expressions, columns := r.columns } })
          | _ => .error .Internal :=
  rfl

/-- On a duck table whose catalog gives every column that exists and is not generated a physical
index inside the storage, after a successful `BindUpdateSet` on a set clause that assigns at
least one column: with `return_chunk` set, if any physical column of the table has type LIST,
MAP or UNION, then `update_is_del_and_insert` is true after `BindUpdateConstraints`. -/
theorem BindUpdateConstraints_flag_of_list_column (svc : BinderServices) (proj_index : idx_t)
    (op_type : LogicalOperatorType) (op_expressions : List Expression) (root : LogicalOperator)
    (set_info : UpdateSetInfo) (table : TableCatalogEntry) (r : BindUpdateSetResult)
    (s : Operators)
    (hduck : table.IsDuckTable = true)
    (hcatalog : ∀ n, table.ColumnExists n = true → (table.GetColumn n).Generated = false →
      (table.GetColumn n).Physical.index < table.GetStorage.column_definitions.length)
    (hset : BindUpdateSet svc proj_index op_type op_expressions root set_info table [] = .ok r)
    (hassign : set_info.columns ≠ [])
    (hs : s.update.columns = r.columns)
    (hret : s.update.return_chunk = true)
    (hlist : ∃ i, i < table.GetStorage.column_definitions.length ∧
      IsListMapOrUnion (table.GetColumns.GetColumn ⟨i⟩).GetType) :
    (BindUpdateConstraints table s).update.update_is_del_and_insert = true := by
  obtain ⟨hcols, hnd, -, hnames⟩ := BindUpdateSet_ok _ _ _ _ _ _ _ _ r hset
  have hnd' : s.update.columns.Nodup := by rw [hs]; exact hnd List.nodup_nil
  have hin : ∃ c ∈ s.update.columns, c.index < table.GetStorage.column_definitions.length := by
    obtain ⟨n, hn⟩ := List.exists_mem_of_ne_nil _ hassign
    refine ⟨(table.GetColumn n).Physical, ?_, hcatalog n (hnames n hn).1 (hnames n hn).2⟩
    rw [hs, hcols, List.nil_append]
    exact List.mem_map.2 ⟨n, hn, rfl⟩
  obtain ⟨i, hi, hty⟩ := hlist
  rw [BindUpdateConstraints_flag table s hduck, ScanColumnTypes_eq_true_iff]
  exact Or.inr ⟨⟨i⟩, BindCheckAndReturning_all_columns table s hnd' hin hret i hi,
    TypeSupportsRegularUpdate_of_IsListMapOrUnion _ hty⟩

/-! ## The claims -/

/-- C1: when `update.columns` is duplicate-free, `bound_columns` has more than one element and
some but not all of its elements are in `update.columns`, `BindExtraColumns` leaves every bound
column in `update.columns`; the new `update.columns` is the old list followed by the missing
bound columns, each once, in the iteration order of the set; `get.column_ids` is the old list
followed by the indexes of those columns in the same order; `update.expressions` and
`proj.expressions` grow by that many entries. -/
theorem BindExtraColumns_adds_missing_columns (table : TableCatalogEntry) (s : Operators)
    (bound_columns : physical_index_set_t)
    (hnd : s.update.columns.Nodup) (hsize : 1 < bound_columns.size)
    (hsome : ∃ b ∈ bound_columns.elems, b ∈ s.update.columns)
    (hnotall : ¬ ∀ b ∈ bound_columns.elems, b ∈ s.update.columns) :
    (∀ b ∈ bound_columns.elems, b ∈ (BindExtraColumns table s bound_columns).update.columns) ∧
    ∃ missing : List PhysicalIndex,
      missing.Nodup ∧ missing.Sublist bound_columns.elems ∧
      (∀ c, c ∈ missing ↔ c ∈ bound_columns.elems ∧ c ∉ s.update.columns) ∧
      (BindExtraColumns table s bound_columns).update.columns = s.update.columns ++ missing ∧
      (BindExtraColumns table s bound_columns).get.column_ids
        = s.get.column_ids ++ missing.map (fun c => c.index) ∧
      (BindExtraColumns table s bound_columns).update.expressions.length
        = s.update.expressions.length + missing.length ∧
      (BindExtraColumns table s bound_columns).proj.expressions.length
        = s.proj.expressions.length + missing.length := by
  have _ := hsize
  have hE := ExtraColumns_of_some_not_all s.update.columns bound_columns hnd hsome hnotall
  rw [BindExtraColumns_eq]
  refine ⟨?_, ExtraColumns s.update.columns bound_columns, ?_, ?_, ?_, ?_, ?_, ?_, ?_⟩
  · rw [ProjectColumns_update_columns]
    exact ExtraColumns_complete s.update.columns bound_columns hnd hsome
  · exact ExtraColumns_nodup _ _
  · rw [hE]; exact List.filter_sublist _
  · intro c
    constructor
    · exact ExtraColumns_mem _ _ c
    · rintro ⟨h1, h2⟩
      rw [hE]
      exact List.mem_filter.2 ⟨h1, by simpa using h2⟩
  · exact ProjectColumns_update_columns table _ s
  · exact ProjectColumns_column_ids table _ s
  · exact ProjectColumns_update_expressions_length table _ s
  · exact ProjectColumns_proj_expressions_length table _ s

/-- Witness of C1: `CHECK (i + j < 10)` with `UPDATE t SET i = i + 1` adds `j` to
`update.columns` and to `get.column_ids`. -/
theorem BindExtraColumns_adds_missing_columns_witness :
    (∀ b ∈ Example.columns_01.elems,
      b ∈ (BindExtraColumns Example.table_ij Example.operators_set_i
        Example.columns_01).update.columns) ∧
    ∃ missing : List PhysicalIndex,
      missing.Nodup ∧ missing.Sublist Example.columns_01.elems ∧
      (∀ c, c ∈ missing ↔
        c ∈ Example.columns_01.elems ∧ c ∉ Example.operators_set_i.update.columns) ∧
      (BindExtraColumns Example.table_ij Example.operators_set_i Example.columns_01).update.columns
        = Example.operators_set_i.update.columns ++ missing ∧
      (BindExtraColumns Example.table_ij Example.operators_set_i Example.columns_01).get.column_ids
        = Example.operators_set_i.get.column_ids ++ missing.map (fun c => c.index) ∧
      (BindExtraColumns Example.table_ij Example.operators_set_i
          Example.columns_01).update.expressions.length
        = Example.operators_set_i.update.expressions.length + missing.length ∧
      (BindExtraColumns Example.table_ij Example.operators_set_i
          Example.columns_01).proj.expressions.length
        = Example.operators_set_i.proj.expressions.length + missing.length :=
  BindExtraColumns_adds_missing_columns Example.table_ij Example.operators_set_i
    Example.columns_01 (by decide) (by decide) (by decide) (by decide)

/-- C2, at the failing input: on the table with `CHECK (i + j < 10)` listed before
`CHECK (j + k < 10)`, binding `UPDATE t SET k = 1` succeeds and ends with
`update.columns = [k, j]`: the second constraint has brought in `j`, a column of the first
constraint, whose other column `i` is not in `update.columns`. -/
theorem BindUpdateConstraints_check_chain_incomplete :
    ∃ s, BindUpdateOperators Example.services 1 Example.table_ijk Example.get_empty
        Example.root_get Example.update_fresh Example.set_k = .ok s ∧
      Example.table_ijk.IsDuckTable = true ∧
      Example.table_ijk.GetBoundConstraints
        = [.BoundCheckConstraint Example.columns_01, .BoundCheckConstraint Example.columns_12] ∧
      s.update.columns = [⟨2⟩, ⟨1⟩] ∧
      (⟨1⟩ : PhysicalIndex) ∈ Example.columns_01.elems ∧
      (⟨1⟩ : PhysicalIndex) ∈ s.update.columns ∧
      (⟨0⟩ : PhysicalIndex) ∈ Example.columns_01.elems ∧
      (⟨0⟩ : PhysicalIndex) ∉ s.update.columns :=
  ⟨_, rfl, rfl, rfl, by decide, by decide, by decide, by decide, by decide⟩

/-- C3 as stated fails: binding `UPDATE t SET i = DEFAULT` on the table with
`CHECK (i + j < 10)`, with no column scanned initially, succeeds with `i` in `update.columns`
and the id of `i` absent from `get.column_ids`. -/
theorem BindUpdateOperators_set_column_not_scanned :
    ¬ ∀ (svc : BinderServices) (proj_index : idx_t) (table : TableCatalogEntry) (get : LogicalGet)
        (root : LogicalOperator) (update : LogicalUpdate) (set_info : UpdateSetInfo)
        (s : Operators),
        update.columns = [] →
        BindUpdateOperators svc proj_index table get root update set_info = .ok s →
        ∀ c ∈ s.update.columns, c.index ∈ s.get.column_ids := by
  intro h
  have h0 := h Example.services 1 Example.table_ij Example.get_empty Example.root_get
    Example.update_fresh Example.set_i_default _ rfl rfl ⟨0⟩ (by decide)
  revert h0
  decide

/-- C3, amended: after a successful bind (`BindUpdateSet`, then `BindUpdateConstraints`, then the
row-id append), for every content of `get.column_ids` at the time `BindUpdateConstraints` is
entered (so for every initial content, and whatever the binding of the SET expressions has
registered in it): `update.columns` is the list `BindUpdateSet` was called with, followed by the
SET columns and by the columns `added` by `BindUpdateConstraints`; `get.column_ids` contains the
column id of every added column, and every id it held when `BindUpdateConstraints` was entered.
Nothing is said of the id of a SET column that the scan did not hold. -/
theorem BindUpdate_column_ids_of_added_columns (svc : BinderServices) (proj_index : idx_t)
    (op_type : LogicalOperatorType) (op_expressions : List Expression) (root : LogicalOperator)
    (set_info : UpdateSetInfo) (table : TableCatalogEntry) (columns : List PhysicalIndex)
    (r : BindUpdateSetResult) (s : Operators)
    (h : BindUpdateSet svc proj_index op_type op_expressions root set_info table columns = .ok r)
    (hs : s.update.columns = r.columns) :
    ∃ added : List PhysicalIndex,
      (BindConstraintsAndRowId table s).update.columns
        = columns ++ set_info.columns.map (fun n => (table.GetColumn n).Physical) ++ added ∧
      (∀ c ∈ added, c.index ∈ (BindConstraintsAndRowId table s).get.column_ids) ∧
      (∀ id ∈ s.get.column_ids, id ∈ (BindConstraintsAndRowId table s).get.column_ids) := by
  obtain ⟨hcols, -, -, -⟩ := BindUpdateSet_ok _ _ _ _ _ _ _ _ r h
  obtain ⟨added, hc, hi, -, -, -⟩ := BindUpdateConstraints_extends table s
  refine ⟨added, ?_, ?_, ?_⟩
  · show (BindUpdateConstraints table s).update.columns = _
    rw [hc, hs, hcols]
  · intro c hc'
    show c.index ∈ (BindUpdateConstraints table s).get.column_ids ++ [COLUMN_IDENTIFIER_ROW_ID]
    rw [hi]
    simp only [List.mem_append, List.mem_map, List.mem_singleton]
    exact Or.inl (Or.inr ⟨c, hc', rfl⟩)
  · intro id hid
    show id ∈ (BindUpdateConstraints table s).get.column_ids ++ [COLUMN_IDENTIFIER_ROW_ID]
    rw [hi]
    simp only [List.mem_append, List.mem_map, List.mem_singleton]
    exact Or.inl (Or.inl hid)

/-- Witness of the amended C3: `UPDATE t SET i = i + 1` under `CHECK (i + j < 10)`, the scan
holding the id of `i` when `BindUpdateConstraints` is entered: the column `j` is added and its id
1 is in `get.column_ids`, which keeps the id 0. -/
theorem BindUpdate_column_ids_of_added_columns_witness :
    ∃ added : List PhysicalIndex,
      (BindConstraintsAndRowId Example.table_ij Example.operators_set_i).update.columns
        = [] ++ Example.set_i.columns.map (fun n => (Example.table_ij.GetColumn n).Physical)
            ++ added ∧
      (∀ c ∈ added,
        c.index ∈ (BindConstraintsAndRowId Example.table_ij Example.operators_set_i).get.column_ids) ∧
      (∀ id ∈ Example.operators_set_i.get.column_ids,
        id ∈ (BindConstraintsAndRowId Example.table_ij Example.operators_set_i).get.column_ids) :=
  BindUpdate_column_ids_of_added_columns Example.services 1 .LOGICAL_UPDATE [] Example.root_get
    Example.set_i Example.table_ij [] Example.result_set_i Example.operators_set_i rfl rfl

/-- C4: when `BindUpdateSet` succeeds from an empty `columns` and `BindUpdateConstraints` is
applied to operators whose `update.columns` is the list it returned, whatever the table, its
constraints and indexes and the RETURNING flag, `update.columns` has no duplicate. -/
theorem BindUpdate_columns_nodup (svc : BinderServices) (proj_index : idx_t)
    (op_type : LogicalOperatorType) (op_expressions : List Expression) (root : LogicalOperator)
    (set_info : UpdateSetInfo) (table : TableCatalogEntry) (r : BindUpdateSetResult)
    (s : Operators)
    (h : BindUpdateSet svc proj_index op_type op_expressions root set_info table [] = .ok r)
    (hs : s.update.columns = r.columns) :
    (BindUpdateConstraints table s).update.columns.Nodup := by
  apply BindUpdateConstraints_nodup
  rw [hs]
  exact (BindUpdateSet_ok _ _ _ _ _ _ _ _ r h).2.1 List.nodup_nil

/-- Witness of C4: `UPDATE t SET i = i + 1` under `CHECK (i + j < 10)`. -/
theorem BindUpdate_columns_nodup_witness :
    (BindUpdateConstraints Example.table_ij Example.operators_set_i).update.columns.Nodup :=
  BindUpdate_columns_nodup Example.services 1 .LOGICAL_UPDATE [] Example.root_get Example.set_i
    Example.table_ij Example.result_set_i Example.operators_set_i rfl rfl

/-- C5: when `BindUpdateSet` succeeds from empty `update.columns` and `update.expressions`
and `BindUpdateConstraints` is applied to the update operator it filled, `update.columns` and
`update.expressions` have the same size, whatever the DEFAULT and other expressions of the set
clause and whatever expansions the constraints cause. -/
theorem BindUpdate_columns_size_eq_expressions_size (svc : BinderServices) (proj_index : idx_t)
    (op_type : LogicalOperatorType) (root : LogicalOperator)
    (set_info : UpdateSetInfo) (table : TableCatalogEntry) (r : BindUpdateSetResult)
    (s : Operators)
    (h : BindUpdateSet svc proj_index op_type [] root set_info table [] = .ok r)
    (hc : s.update.columns = r.columns) (he : s.update.expressions = r.op_expressions) :
    (BindUpdateConstraints table s).update.columns.length
      = (BindUpdateConstraints table s).update.expressions.length := by
  obtain ⟨hcols, -, hlen, -⟩ := BindUpdateSet_ok _ _ _ _ _ _ _ _ r h
  obtain ⟨added, hcs, -, hes, -, -⟩ := BindUpdateConstraints_extends table s
  rw [hcs, hes, hc, he, hcols, hlen]
  simp

/-- Witness of C5: `UPDATE t SET i = i + 1` under `CHECK (i + j < 10)`. -/
theorem BindUpdate_columns_size_eq_expressions_size_witness :
    (BindUpdateConstraints Example.table_ij Example.operators_set_i).update.columns.length
      = (BindUpdateConstraints Example.table_ij Example.operators_set_i).update.expressions.length :=
  BindUpdate_columns_size_eq_expressions_size Example.services 1 .LOGICAL_UPDATE Example.root_get
    Example.set_i Example.table_ij Example.result_set_i Example.operators_set_i rfl rfl rfl

/-- C6: when expression binding and subquery planning cannot fail and the set clause has as many
expressions as columns, `BindUpdateSet` (from an empty `columns`) throws `e` if and only if `e`
is the error of the first pair, in list order, that fails one of the three checks of `PairError`
(unknown column, then generated column, then physical index already assigned by an earlier
pair); and it throws at all if and only if some pair fails one of them. -/
theorem BindUpdateSet_error_iff (svc : BinderServices) (proj_index : idx_t)
    (op_type : LogicalOperatorType) (op_expressions : List Expression) (root : LogicalOperator)
    (set_info : UpdateSetInfo) (table : TableCatalogEntry)
    (hbind : ∀ e t, ∃ b, svc.BindUpdateExpression e t = .ok b)
    (hplan : ∀ b r, ∃ p, svc.PlanSubqueries b r = .ok p)
    (hlen : set_info.columns.length = set_info.expressions.length) :
    (∀ e, BindUpdateSet svc proj_index op_type op_expressions root set_info table [] = .error e ↔
      ∃ i c, set_info.columns[i]? = some c ∧
        PairError table (AssignedBefore table set_info.columns i) c = some e ∧
        ∀ j, j < i → ∀ cj, set_info.columns[j]? = some cj →
          PairError table (AssignedBefore table set_info.columns j) cj = none) ∧
    ((∃ e, BindUpdateSet svc proj_index op_type op_expressions root set_info table [] = .error e) ↔
      ∃ i c, set_info.columns[i]? = some c ∧
        PairError table (AssignedBefore table set_info.columns i) c ≠ none) := by
  have hfirst := BindUpdateSetLoop_error_first_offender svc proj_index table hbind hplan
    set_info.columns set_info.expressions
    { root := root, op_expressions := op_expressions, columns := [],
      projection_expressions := [] }
  have hnone := BindUpdateSetLoop_ok_no_offender svc proj_index table hbind hplan
    set_info.columns set_info.expressions
    { root := root, op_expressions := op_expressions, columns := [],
      projection_expressions := [] }
  simp only [List.nil_append] at hfirst hnone
  have hback : ∀ i c, set_info.columns[i]? = some c →
      PairError table (AssignedBefore table set_info.columns i) c ≠ none →
      ∃ e, BindUpdateSetLoop svc proj_index table set_info.columns set_info.expressions
        { root := root, op_expressions := op_expressions, columns := [],
          projection_expressions := [] } = .error e := by
    intro i c hc hne
    cases hres : BindUpdateSetLoop svc proj_index table set_info.columns set_info.expressions
        { root := root, op_expressions := op_expressions, columns := [],
          projection_expressions := [] } with
    | error e => exact ⟨e, rfl⟩
    | ok st => exact absurd (hnone st hres i c hc) hne
  constructor
  · intro e
    rw [BindUpdateSet_error_iff_loop]
    constructor
    · exact hfirst e hlen
    · rintro ⟨i, c, hc, hpe, hmin⟩
      obtain ⟨e', he'⟩ := hback i c hc (by rw [hpe]; simp)
      obtain ⟨i', c', hc', hpe', hmin'⟩ := hfirst e' hlen he'
      rcases Nat.lt_trichotomy i i' with hlt | heq | hgt
      · have := hmin' i hlt c hc
        rw [hpe] at this; simp at this
      · subst heq
        rw [hc] at hc'
        simp only [Option.some.injEq] at hc'
        subst hc'
        rw [hpe] at hpe'
        simp only [Option.some.injEq] at hpe'
        rw [hpe']; exact he'
      · have := hmin i' hgt c' hc'
        rw [hpe'] at this; simp at this
  · constructor
    · rintro ⟨e, he⟩
      rw [BindUpdateSet_error_iff_loop] at he
      obtain ⟨i, c, hc, hpe, -⟩ := hfirst e hlen he
      exact ⟨i, c, hc, by rw [hpe]; simp⟩
    · rintro ⟨i, c, hc, hne⟩
      obtain ⟨e, he⟩ := hback i c hc hne
      exact ⟨e, (BindUpdateSet_error_iff_loop _ _ _ _ _ _ _ _ e).2 he⟩

/-- Witness of C6: `UPDATE t SET i = i + 1, j = 2, i = 3`. -/
theorem BindUpdateSet_error_iff_witness :
    (∀ e, BindUpdateSet Example.services 1 .LOGICAL_UPDATE [] Example.root_get Example.set_i_j_i
        Example.table_ij [] = .error e ↔
      ∃ i c, Example.set_i_j_i.columns[i]? = some c ∧
        PairError Example.table_ij (AssignedBefore Example.table_ij Example.set_i_j_i.columns i) c
          = some e ∧
        ∀ j, j < i → ∀ cj, Example.set_i_j_i.columns[j]? = some cj →
          PairError Example.table_ij
            (AssignedBefore Example.table_ij Example.set_i_j_i.columns j) cj = none) ∧
    ((∃ e, BindUpdateSet Example.services 1 .LOGICAL_UPDATE [] Example.root_get Example.set_i_j_i
        Example.table_ij [] = .error e) ↔
      ∃ i c, Example.set_i_j_i.columns[i]? = some c ∧
        PairError Example.table_ij (AssignedBefore Example.table_ij Example.set_i_j_i.columns i) c
          ≠ none) :=
  BindUpdateSet_error_iff Example.services 1 .LOGICAL_UPDATE [] Example.root_get
    Example.set_i_j_i Example.table_ij (fun e t => ⟨.other t e.id, rfl⟩)
    (fun b r => ⟨(b, r), rfl⟩) rfl

/-- C7: on a duck table, after `BindUpdateConstraints` the flag `update_is_del_and_insert` is
true if and only if some index of the table reports that it is updated by `update.columns` as
they stand after the CHECK and RETURNING expansions, or some column of that `update.columns`
has a type without regular update; the same holds with the final `update.columns` in the second
part; and the result does not depend on the value the flag had before the call. -/
theorem BindUpdateConstraints_del_and_insert_iff (table : TableCatalogEntry) (s : Operators)
    (hduck : table.IsDuckTable = true) :
    ((BindUpdateConstraints table s).update.update_is_del_and_insert = true ↔
      (∃ index ∈ table.GetStorage.indexes,
        index.IndexIsUpdated (BindCheckAndReturning table s).update.columns = true) ∨
      (∃ c ∈ (BindCheckAndReturning table s).update.columns,
        TypeSupportsRegularUpdate (table.GetColumns.GetColumn c).GetType = false)) ∧
    ((BindUpdateConstraints table s).update.update_is_del_and_insert = true ↔
      (∃ index ∈ table.GetStorage.indexes,
        index.IndexIsUpdated (BindCheckAndReturning table s).update.columns = true) ∨
      (∃ c ∈ (BindUpdateConstraints table s).update.columns,
        TypeSupportsRegularUpdate (table.GetColumns.GetColumn c).GetType = false)) ∧
    (∀ b : Bool, BindUpdateConstraints table (SetDelAndInsert s b)
      = BindUpdateConstraints table s) := by
  have hmid : (BindUpdateConstraints table s).update.update_is_del_and_insert = true ↔
      (∃ index ∈ table.GetStorage.indexes,
        index.IndexIsUpdated (BindCheckAndReturning table s).update.columns = true) ∨
      (∃ c ∈ (BindCheckAndReturning table s).update.columns,
        TypeSupportsRegularUpdate (table.GetColumns.GetColumn c).GetType = false) := by
    rw [BindUpdateConstraints_flag table s hduck, ScanColumnTypes_eq_true_iff,
      ScanIndexes_eq_true_iff]
    simp
  refine ⟨hmid, ?_, fun b => BindUpdateConstraints_SetDelAndInsert table s b hduck⟩
  constructor
  · intro h
    rcases hmid.1 h with hi | ⟨c, hc, hbad⟩
    · exact Or.inl hi
    · refine Or.inr ⟨c, ?_, hbad⟩
      rw [BindUpdateConstraints_eq table s hduck, if_pos h, BindExtraColumns_columns]
      exact List.mem_append_left _ hc
  · rintro (hi | ⟨c, hc, hbad⟩)
    · exact hmid.2 (Or.inl hi)
    · by_cases hflag : (BindUpdateConstraints table s).update.update_is_del_and_insert = true
      · exact hflag
      · rw [BindUpdateConstraints_eq table s hduck, if_neg hflag] at hc
        exact hmid.2 (Or.inr ⟨c, hc, hbad⟩)

/-- Witness of C7: `UPDATE t SET i = i + 1 RETURNING *` on a table with a LIST column. -/
theorem BindUpdateConstraints_del_and_insert_iff_witness :
    Example.table_il.IsDuckTable = true ∧
    ((BindUpdateConstraints Example.table_il
        Example.operators_set_i_returning).update.update_is_del_and_insert = true ↔
      (∃ index ∈ Example.table_il.GetStorage.indexes,
        index.IndexIsUpdated (BindCheckAndReturning Example.table_il
          Example.operators_set_i_returning).update.columns = true) ∨
      (∃ c ∈ (BindCheckAndReturning Example.table_il
            Example.operators_set_i_returning).update.columns,
        TypeSupportsRegularUpdate (Example.table_il.GetColumns.GetColumn c).GetType = false)) ∧
    ((BindUpdateConstraints Example.table_il
        Example.operators_set_i_returning).update.update_is_del_and_insert = true ↔
      (∃ index ∈ Example.table_il.GetStorage.indexes,
        index.IndexIsUpdated (BindCheckAndReturning Example.table_il
          Example.operators_set_i_returning).update.columns = true) ∨
      (∃ c ∈ (BindUpdateConstraints Example.table_il
            Example.operators_set_i_returning).update.columns,
        TypeSupportsRegularUpdate (Example.table_il.GetColumns.GetColumn c).GetType = false)) ∧
    (∀ b : Bool, BindUpdateConstraints Example.table_il
        (SetDelAndInsert Example.operators_set_i_returning b)
      = BindUpdateConstraints Example.table_il Example.operators_set_i_returning) :=
  ⟨rfl, BindUpdateConstraints_del_and_insert_iff Example.table_il
    Example.operators_set_i_returning rfl⟩

/-- C8: `TypeSupportsRegularUpdate` is total, and it returns false exactly for the types that
are LIST, MAP or UNION or are a STRUCT with, at some depth of STRUCT nesting, a field of type
LIST, MAP or UNION; it returns true for every other type. -/
theorem TypeSupportsRegularUpdate_false_iff (t : LogicalType) :
    (TypeSupportsRegularUpdate t = false ↔ HasListMapOrUnion t) ∧
    (TypeSupportsRegularUpdate t = true ↔ ¬ HasListMapOrUnion t) := by
  have h := TypeSupportsRegularUpdate_eq_false_iff t
  refine ⟨h, ?_⟩
  rw [← h]
  simp

/-- C9: on a duck table, when `update.columns` is duplicate-free, not empty and made of
physical columns of the table, and `return_chunk` is true or `update_is_del_and_insert` ends up
true, every physical column of the table is in `update.columns` after `BindUpdateConstraints`. -/
theorem BindUpdateConstraints_all_columns (table : TableCatalogEntry) (s : Operators)
    (hduck : table.IsDuckTable = true) (hnd : s.update.columns.Nodup)
    (hne : s.update.columns ≠ [])
    (hin : ∀ c ∈ s.update.columns, c.index < table.GetStorage.column_definitions.length)
    (h : s.update.return_chunk = true ∨
      (BindUpdateConstraints table s).update.update_is_del_and_insert = true) :
    ∀ i, i < table.GetStorage.column_definitions.length →
      (⟨i⟩ : PhysicalIndex) ∈ (BindUpdateConstraints table s).update.columns := by
  have hin' : ∃ c ∈ s.update.columns, c.index < table.GetStorage.column_definitions.length := by
    obtain ⟨c, hc⟩ := List.exists_mem_of_ne_nil _ hne
    exact ⟨c, hc, hin c hc⟩
  intro i hi
  by_cases hflag : (BindUpdateConstraints table s).update.update_is_del_and_insert = true
  · rw [BindUpdateConstraints_eq table s hduck, if_pos hflag]
    apply BindExtraColumns_AllColumns table _ _ _ i hi
    · exact BindCheckAndReturning_nodup table s hnd
    · obtain ⟨c, hc, hlt⟩ := hin'
      exact ⟨c, BindCheckAndReturning_mem table s c hc, hlt⟩
  · rw [BindUpdateConstraints_eq table s hduck, if_neg hflag]
    rcases h with hret | hf
    · exact BindCheckAndReturning_all_columns table s hnd hin' hret i hi
    · exact absurd hf hflag

/-- Witness of C9: `UPDATE t SET i = i + 1 RETURNING *` on the table `(i INTEGER, l INTEGER[])`
brings the column `l`, of index 1, into `update.columns`. -/
theorem BindUpdateConstraints_all_columns_witness :
    Example.table_il.IsDuckTable = true ∧
    Example.operators_set_i_returning.update.columns.Nodup ∧
    Example.operators_set_i_returning.update.columns ≠ [] ∧
    Example.operators_set_i_returning.update.return_chunk = true ∧
    1 < Example.table_il.GetStorage.column_definitions.length ∧
    (⟨1⟩ : PhysicalIndex) ∈
      (BindUpdateConstraints Example.table_il Example.operators_set_i_returning).update.columns :=
  ⟨rfl, by decide, by decide, rfl, by decide,
    BindUpdateConstraints_all_columns Example.table_il Example.operators_set_i_returning rfl
      (by decide) (by decide) (by decide) (Or.inl rfl) 1 (by decide)⟩

/-- C10 as stated fails: `UPDATE t SET a = 1 RETURNING *` on the duck table
`(a INTEGER, b INTEGER[] GENERATED ALWAYS AS ([a]))` binds, the table has a column of type
LIST, and `update_is_del_and_insert` is false after `BindUpdateConstraints`: the generated
column is not stored, so it is not among the columns the binder expands to and inspects. -/
theorem BindUpdateConstraints_generated_list_column :
    ¬ ∀ (svc : BinderServices) (proj_index : idx_t) (op_type : LogicalOperatorType)
        (root : LogicalOperator) (set_info : UpdateSetInfo) (table : TableCatalogEntry)
        (r : BindUpdateSetResult) (s : Operators),
        table.IsDuckTable = true →
        (∀ n, table.ColumnExists n = true → (table.GetColumn n).Generated = false →
          (table.GetColumn n).Physical.index < table.GetStorage.column_definitions.length) →
        BindUpdateSet svc proj_index op_type [] root set_info table [] = .ok r →
        set_info.columns ≠ [] →
        s.update.columns = r.columns →
        s.update.return_chunk = true →
        (∃ n, table.ColumnExists n = true ∧ IsListMapOrUnion (table.GetColumn n).GetType) →
        (BindUpdateConstraints table s).update.update_is_del_and_insert = true := by
  intro h
  have h0 := h Example.services 1 .LOGICAL_UPDATE Example.root_get Example.set_a
    Example.table_generated
    { result := .projection 1 [.other Example.INTEGER 1] Example.root_get,
      op_expressions := [.BoundColumnRefExpression Example.INTEGER ⟨1, 0⟩],
      columns := [⟨0⟩] }
    Example.operators_set_a_returning rfl
    (by
      intro n _ hgen
      by_cases hb : n = "b"
      · subst hb; simp [Example.table_generated, Example.column_b_generated] at hgen
      · simp [Example.table_generated, hb, Example.column_a])
    rfl (by decide) rfl rfl ⟨"b", rfl, Or.inl rfl⟩
  revert h0
  decide

/-- C10, amended: for every UPDATE with a RETURNING clause on a duck table that assigns at least
one column and that `Bind(UpdateStatement &)` binds (the catalog giving every column that exists
and is not generated a physical index inside the storage, and a fresh `LogicalUpdate` having no
columns): if any physical column of the table, whether or not it is named in the SET clause, has
type LIST, MAP or UNION, then the operators `s` that `Bind` hands to `BindUpdateConstraints`
hold the SET columns and have `return_chunk` set (lines 216-219), `update_is_del_and_insert` is
true after `BindUpdateConstraints`, and the result of `Bind` is what `BindReturning` makes of
the update operator built from them, which carries both flags as true. -/
theorem Bind_returning_list_column (svc : BinderServices) (ssvc : StatementServices)
    (proj_index update_table_index : idx_t) (properties : StatementProperties)
    (stmt : UpdateStatement) (table : TableCatalogEntry) (out : BindOutput)
    (htable : ssvc.BindTableRef stmt.table = .ok (.BoundBaseTableRef table))
    (hduck : table.IsDuckTable = true)
    (hcatalog : ∀ n, table.ColumnExists n = true → (table.GetColumn n).Generated = false →
      (table.GetColumn n).Physical.index < table.GetStorage.column_definitions.length)
    (hfresh : (ssvc.MakeLogicalUpdate table).columns = [])
    (hreturning : stmt.returning_list ≠ [])
    (hassign : stmt.set_info.columns ≠ [])
    (hlist : ∃ i, i < table.GetStorage.column_definitions.length ∧
      IsListMapOrUnion (table.GetColumns.GetColumn ⟨i⟩).GetType)
    (h : Bind svc ssvc proj_index update_table_index properties stmt = .ok out) :
    ∃ (s : Operators) (properties1 : StatementProperties),
      s.update.columns = stmt.set_info.columns.map (fun n => (table.GetColumn n).Physical) ∧
      s.update.return_chunk = true ∧
      (BindUpdateConstraints table s).update.update_is_del_and_insert = true ∧
      out.get = (BindConstraintsAndRowId table s).get ∧
      ssvc.BindReturning stmt.returning_list table stmt.table.alias update_table_index
          (.update (BindConstraintsAndRowId table s).update.columns
            (BindConstraintsAndRowId table s).update.expressions true true update_table_index
            (.projection (BindConstraintsAndRowId table s).proj.table_index
              (BindConstraintsAndRowId table s).proj.expressions
              (BindConstraintsAndRowId table s).proj.child))
          { plan := none, types := [], names := [] } properties1
        = .ok (out.result, out.properties) := by
  have hne : (!stmt.returning_list.isEmpty) = true := by
    cases hl : stmt.returning_list with
    | nil => exact absurd hl hreturning
    | cons a l => rfl
  unfold Bind at h
  rw [htable] at h
  simp only [hne, if_true] at h
  split at h
  · simp at h
  · split at h
    · simp at h
    · rename_i bound_defaults hdefaults
      split at h
      · simp at h
      · rename_i root1 hroot
        split at h
        · simp at h
        · rename_i s1 hs1
          rw [BindUpdateOperators_eq] at hs1
          split at hs1
          · simp at hs1
          · rename_i r hr
            split at hs1
            · rename_i ti es child hres
              simp only [Except.ok.injEq] at hs1
              simp only [hfresh] at hr
              obtain ⟨S, hS, hcolsS, hretS⟩ : ∃ S : Operators,
                  BindConstraintsAndRowId table S = s1 ∧ S.update.columns = r.columns ∧
                  S.update.return_chunk = true := ⟨_, hs1, rfl, rfl⟩
              have hflag := BindUpdateConstraints_flag_of_list_column svc proj_index
                .LOGICAL_UPDATE _ root1 stmt.set_info table r S hduck hcatalog hr hassign
                hcolsS hretS hlist
              obtain ⟨added, -, -, -, -, hrc⟩ := BindUpdateConstraints_extends table S
              have h1 : s1.update.return_chunk = true := by
                rw [← hS]
                show (BindUpdateConstraints table S).update.return_chunk = true
                rw [hrc, hretS]
              have h2 : s1.update.update_is_del_and_insert = true := by
                rw [← hS]
                exact hflag
              rw [h1, h2] at h
              split at h
              · simp at h
              · rename_i result properties2 hreturn
                simp only [Except.ok.injEq] at h
                refine ⟨S, (if !table.temporary then
                    { properties with
                      modified_databases :=
                        InsertDatabase properties.modified_databases (ssvc.CatalogName table) }
                  else properties), ?_, hretS, hflag, ?_, ?_⟩
                · rw [hcolsS, (BindUpdateSet_ok _ _ _ _ _ _ _ _ r hr).1, List.nil_append]
                · rw [hS, ← h]
                · rw [hS, ← h]
                  exact hreturn
            · simp at hs1

/-- Witness of the amended C10: `UPDATE t SET i = i + 1 RETURNING i` on the table
`(i INTEGER, l INTEGER[])`, with 1 and 2 as the generated table indexes: the update operator in
the plan carries `return_chunk` and `update_is_del_and_insert` as true. -/
theorem Bind_returning_list_column_witness :
    ∃ out, Bind Example.services Example.statement_services_il 1 2 Example.properties_initial
        Example.statement_set_i_returning = .ok out ∧
      (∃ columns expressions child,
        out.result.plan = some (.update columns expressions true true 2 child)) ∧
      ∃ (s : Operators) (properties1 : StatementProperties),
        s.update.columns = Example.statement_set_i_returning.set_info.columns.map
          (fun n => (Example.table_il.GetColumn n).Physical) ∧
        s.update.return_chunk = true ∧
        (BindUpdateConstraints Example.table_il s).update.update_is_del_and_insert = true ∧
        out.get = (BindConstraintsAndRowId Example.table_il s).get ∧
        Example.statement_services_il.BindReturning Example.statement_set_i_returning.returning_list
            Example.table_il Example.statement_set_i_returning.table.alias 2
            (.update (BindConstraintsAndRowId Example.table_il s).update.columns
              (BindConstraintsAndRowId Example.table_il s).update.expressions true true 2
              (.projection (BindConstraintsAndRowId Example.table_il s).proj.table_index
                (BindConstraintsAndRowId Example.table_il s).proj.expressions
                (BindConstraintsAndRowId Example.table_il s).proj.child))
            { plan := none, types := [], names := [] } properties1
          = .ok (out.result, out.properties) :=
  ⟨_, rfl, ⟨_, _, _, rfl⟩,
    Bind_returning_list_column Example.services Example.statement_services_il 1 2
      Example.properties_initial Example.statement_set_i_returning Example.table_il _ rfl rfl
      (by
        intro n _ _
        by_cases hl : n = "l"
        · subst hl; decide
        · simp [Example.table_il, hl, Example.column_i])
      rfl (by decide) (by decide) ⟨1, by decide, Or.inl rfl⟩ rfl⟩

/-- C18: `BindExtraColumns` changes nothing (so `update.columns`, `update.expressions`,
`proj.expressions` and `get.column_ids` are as before) when `bound_columns` has at most one
element, or no element of it is in `update.columns`, or `update.columns` is duplicate-free and
holds every element of it. -/
theorem BindExtraColumns_unchanged (table : TableCatalogEntry) (s : Operators)
    (bound_columns : physical_index_set_t)
    (h : bound_columns.size ≤ 1 ∨
      (¬ ∃ b ∈ bound_columns.elems, b ∈ s.update.columns) ∨
      (s.update.columns.Nodup ∧ ∀ b ∈ bound_columns.elems, b ∈ s.update.columns)) :
    BindExtraColumns table s bound_columns = s ∧
    (BindExtraColumns table s bound_columns).update.columns = s.update.columns ∧
    (BindExtraColumns table s bound_columns).update.expressions = s.update.expressions ∧
    (BindExtraColumns table s bound_columns).proj.expressions = s.proj.expressions ∧
    (BindExtraColumns table s bound_columns).get.column_ids = s.get.column_ids := by
  have hE : ExtraColumns s.update.columns bound_columns = [] := by
    rcases h with h1 | h2 | ⟨hnd, hall⟩
    · unfold ExtraColumns; rw [if_pos h1]
    · exact ExtraColumns_of_disjoint _ _ h2
    · exact ExtraColumns_of_all _ _ hnd hall
  have hs : BindExtraColumns table s bound_columns = s := by
    rw [BindExtraColumns_eq, hE]; rfl
  rw [hs]
  exact ⟨rfl, rfl, rfl, rfl, rfl⟩

/-- Witness of C18: after `SET i = i + 1`, a constraint over the columns 1 and 2 shares no column
with `update.columns` and leaves the operators alone. -/
theorem BindExtraColumns_unchanged_witness :
    (¬ ∃ b ∈ Example.columns_12.elems, b ∈ Example.operators_set_i.update.columns) ∧
    BindExtraColumns Example.table_ij Example.operators_set_i Example.columns_12
      = Example.operators_set_i :=
  ⟨by decide,
    (BindExtraColumns_unchanged Example.table_ij Example.operators_set_i Example.columns_12
      (Or.inr (Or.inl (by decide)))).1⟩

/-- C19: for a table that is not a duck table `BindUpdateConstraints` returns the operators as
they were: `update.columns`, `update.expressions`, `update.update_is_del_and_insert`,
`proj.expressions` and `get.column_ids` are unchanged, whatever the constraints, the RETURNING
flag and the column types. -/
theorem BindUpdateConstraints_not_duck_table (table : TableCatalogEntry) (s : Operators)
    (h : table.IsDuckTable = false) :
    BindUpdateConstraints table s = s ∧
    (BindUpdateConstraints table s).update.columns = s.update.columns ∧
    (BindUpdateConstraints table s).update.expressions = s.update.expressions ∧
    (BindUpdateConstraints table s).update.update_is_del_and_insert
      = s.update.update_is_del_and_insert ∧
    (BindUpdateConstraints table s).proj.expressions = s.proj.expressions ∧
    (BindUpdateConstraints table s).get.column_ids = s.get.column_ids := by
  have hs : BindUpdateConstraints table s = s := by
    unfold BindUpdateConstraints
    simp [h]
  rw [hs]
  exact ⟨rfl, rfl, rfl, rfl, rfl, rfl⟩

/-- Witness of C19: the table with `CHECK (i + j < 10)` held by another catalog. -/
theorem BindUpdateConstraints_not_duck_table_witness :
    Example.table_foreign.IsDuckTable = false ∧
    BindUpdateConstraints Example.table_foreign Example.operators_set_i
      = Example.operators_set_i :=
  ⟨rfl, (BindUpdateConstraints_not_duck_table Example.table_foreign Example.operators_set_i
    rfl).1⟩

/-- C20: with a duplicate-free `update.columns`, a second call of `BindExtraColumns` with the
same `bound_columns` changes nothing; in particular, on a duck table with `return_chunk` set,
the all-columns expansion for delete and insert adds nothing to what the all-columns expansion
for RETURNING has left: `BindUpdateConstraints` ends in the state of line 103 with the flag
set. -/
theorem BindExtraColumns_idempotent (table : TableCatalogEntry) (s : Operators)
    (bound_columns : physical_index_set_t) (hnd : s.update.columns.Nodup) :
    BindExtraColumns table (BindExtraColumns table s bound_columns) bound_columns
      = BindExtraColumns table s bound_columns ∧
    (table.IsDuckTable = true → s.update.return_chunk = true →
      BindUpdateConstraints table s
        = SetDelAndInsert (BindCheckAndReturning table s)
            (BindUpdateConstraints table s).update.update_is_del_and_insert) := by
  have idem : ∀ (s0 : Operators) (B : physical_index_set_t), s0.update.columns.Nodup →
      BindExtraColumns table (BindExtraColumns table s0 B) B = BindExtraColumns table s0 B := by
    intro s0 B h0
    have hnd' := BindExtraColumns_nodup table s0 B h0
    by_cases hsome : ∃ b ∈ B.elems, b ∈ s0.update.columns
    · have hall : ∀ b ∈ B.elems, b ∈ (BindExtraColumns table s0 B).update.columns := by
        rw [BindExtraColumns_columns]
        exact ExtraColumns_complete _ _ h0 hsome
      rw [BindExtraColumns_eq table (BindExtraColumns table s0 B), ExtraColumns_of_all _ _ hnd' hall]
      rfl
    · have h1 : BindExtraColumns table s0 B = s0 := by
        rw [BindExtraColumns_eq, ExtraColumns_of_disjoint _ _ hsome]; rfl
      rw [h1, h1]
  refine ⟨idem s bound_columns hnd, ?_⟩
  intro hduck hret
  have hmid : BindCheckAndReturning table s
      = BindExtraColumns table (BindCheckConstraints table table.GetBoundConstraints s)
          (AllColumns table.GetStorage) := by
    obtain ⟨a, -, -, -, -, hr⟩ := BindCheckConstraints_extends table table.GetBoundConstraints s
    unfold BindCheckAndReturning
    simp only
    rw [if_pos (by rw [hr]; exact hret)]
  by_cases hflag : (BindUpdateConstraints table s).update.update_is_del_and_insert = true
  · have hB := BindUpdateConstraints_eq table s hduck
    rw [if_pos hflag] at hB
    rw [hflag, hB, BindExtraColumns_SetDelAndInsert, hmid,
      idem _ _ (BindCheckConstraints_nodup table _ s hnd)]
  · have hf : (BindUpdateConstraints table s).update.update_is_del_and_insert = false := by
      simpa using hflag
    rw [hf, BindUpdateConstraints_eq table s hduck, if_neg hflag]

/-- Witness of C20: `UPDATE t SET i = i + 1 RETURNING *` on the table `(i INTEGER, l INTEGER[])`,
which is turned into a delete and insert. -/
theorem BindExtraColumns_idempotent_witness :
    Example.operators_set_i_returning.update.columns.Nodup ∧
    BindExtraColumns Example.table_il
        (BindExtraColumns Example.table_il Example.operators_set_i_returning
          (AllColumns Example.table_il.GetStorage))
        (AllColumns Example.table_il.GetStorage)
      = BindExtraColumns Example.table_il Example.operators_set_i_returning
          (AllColumns Example.table_il.GetStorage) ∧
    (Example.table_il.IsDuckTable = true →
      Example.operators_set_i_returning.update.return_chunk = true →
      BindUpdateConstraints Example.table_il Example.operators_set_i_returning
        = SetDelAndInsert
            (BindCheckAndReturning Example.table_il Example.operators_set_i_returning)
            (BindUpdateConstraints Example.table_il
              Example.operators_set_i_returning).update.update_is_del_and_insert) :=
  ⟨by decide,
    BindExtraColumns_idempotent Example.table_il Example.operators_set_i_returning
      (AllColumns Example.table_il.GetStorage) (by decide)⟩

/-- C11 as stated fails: `BindUpdateSet` called for the update operator with the set clause
`SET i = DEFAULT` succeeds, every set expression is DEFAULT, and the result is a projection
(without expressions) over the root, not the root. -/
theorem BindUpdateSet_default_only_update_projects :
    ¬ ∀ (svc : BinderServices) (proj_index : idx_t) (op_type : LogicalOperatorType)
        (op_expressions : List Expression) (root : LogicalOperator) (set_info : UpdateSetInfo)
        (table : TableCatalogEntry) (columns : List PhysicalIndex) (r : BindUpdateSetResult),
        set_info.columns.length = set_info.expressions.length →
        BindUpdateSet svc proj_index op_type op_expressions root set_info table columns = .ok r →
        (∀ e ∈ set_info.expressions, e.type = .VALUE_DEFAULT) →
        r.result = root := by
  intro h
  have h0 := h Example.services 1 .LOGICAL_UPDATE [] Example.root_get Example.set_i_default
    Example.table_ij [] Example.result_set_i_default rfl rfl (by decide)
  exact LogicalOperator.noConfusion h0

/-- C11, amended: after a successful `BindUpdateSet` on a set clause with as many expressions as
columns, when `op` is not a `LogicalUpdate` and every set expression is DEFAULT (or there is
none) the result is the plan root, unchanged; when `op` is a `LogicalUpdate` or some set
expression is not DEFAULT the result is a projection with the generated index, holding one
expression for each set expression that is not DEFAULT, and its child is the root itself if
every set expression is DEFAULT. -/
theorem BindUpdateSet_result (svc : BinderServices) (proj_index : idx_t)
    (op_type : LogicalOperatorType) (op_expressions : List Expression) (root : LogicalOperator)
    (set_info : UpdateSetInfo) (table : TableCatalogEntry) (columns : List PhysicalIndex)
    (r : BindUpdateSetResult)
    (hlen : set_info.columns.length = set_info.expressions.length)
    (h : BindUpdateSet svc proj_index op_type op_expressions root set_info table columns = .ok r) :
    ((op_type ≠ .LOGICAL_UPDATE ∧ ∀ e ∈ set_info.expressions, e.type = .VALUE_DEFAULT) →
      r.result = root) ∧
    ((op_type = .LOGICAL_UPDATE ∨ ∃ e ∈ set_info.expressions, e.type ≠ .VALUE_DEFAULT) →
      ∃ expressions child, r.result = .projection proj_index expressions child ∧
        expressions.length
          = (set_info.expressions.filter (fun e => decide (e.type ≠ .VALUE_DEFAULT))).length ∧
        ((∀ e ∈ set_info.expressions, e.type = .VALUE_DEFAULT) →
          expressions = [] ∧ child = root)) := by
  unfold BindUpdateSet at h
  split at h
  · simp at h
  · rename_i st hst
    obtain ⟨hcount, hdef⟩ := BindUpdateSetLoop_ok_projection svc proj_index table _ _ _ st hlen hst
    simp only [List.length_nil, Nat.zero_add] at hcount
    constructor
    · rintro ⟨hop, hall⟩
      obtain ⟨hroot, hpe⟩ := hdef hall
      simp only at hroot hpe
      rw [if_pos ⟨hop, by rw [hpe]; rfl⟩] at h
      simp only [Except.ok.injEq] at h
      rw [← h]; exact hroot
    · intro hcase
      have hneg : ¬ (op_type ≠ .LOGICAL_UPDATE ∧ st.projection_expressions.isEmpty = true) := by
        rintro ⟨hop, hemp⟩
        rcases hcase with hu | ⟨e, he, hne⟩
        · exact hop hu
        · have hpos : 0 < (set_info.expressions.filter
              (fun e => decide (e.type ≠ .VALUE_DEFAULT))).length :=
            List.length_pos_of_mem (List.mem_filter.2 ⟨he, by simpa using hne⟩)
          rw [← hcount] at hpos
          rw [List.isEmpty_iff] at hemp
          rw [hemp] at hpos
          exact absurd hpos (Nat.lt_irrefl 0)
      rw [if_neg hneg] at h
      simp only [Except.ok.injEq] at h
      refine ⟨st.projection_expressions, st.root, by rw [← h], hcount, ?_⟩
      intro hall
      obtain ⟨hroot, hpe⟩ := hdef hall
      exact ⟨hpe, hroot⟩

/-- Witness of the amended C11: `UPDATE t SET i = DEFAULT`. -/
theorem BindUpdateSet_result_witness :
    Example.set_i_default.columns.length = Example.set_i_default.expressions.length ∧
    ((LogicalOperatorType.LOGICAL_UPDATE ≠ .LOGICAL_UPDATE ∧
        ∀ e ∈ Example.set_i_default.expressions, e.type = .VALUE_DEFAULT) →
      Example.result_set_i_default.result = Example.root_get) ∧
    ((LogicalOperatorType.LOGICAL_UPDATE = .LOGICAL_UPDATE ∨
        ∃ e ∈ Example.set_i_default.expressions, e.type ≠ .VALUE_DEFAULT) →
      ∃ expressions child,
        Example.result_set_i_default.result = .projection 1 expressions child ∧
        expressions.length = (Example.set_i_default.expressions.filter
          (fun e => decide (e.type ≠ .VALUE_DEFAULT))).length ∧
        ((∀ e ∈ Example.set_i_default.expressions, e.type = .VALUE_DEFAULT) →
          expressions = [] ∧ child = Example.root_get)) :=
  ⟨rfl, BindUpdateSet_result Example.services 1 .LOGICAL_UPDATE [] Example.root_get
    Example.set_i_default Example.table_ij [] Example.result_set_i_default rfl rfl⟩

/-- C12: after a successful bind (`BindUpdateSet`, `BindUpdateConstraints`, row-id append) the
last entry of `get.column_ids` is the row-id marker, the last expression of the projection is a
column reference of the row type bound to `(get.table_index, p)` with `p` the position of that
last entry, and `get.table_index` is the one the scan had: whatever the constraint-driven
expansion added comes before. -/
theorem BindUpdateOperators_row_id_last (svc : BinderServices) (proj_index : idx_t)
    (table : TableCatalogEntry) (get : LogicalGet) (root : LogicalOperator)
    (update : LogicalUpdate) (set_info : UpdateSetInfo) (s : Operators)
    (h : BindUpdateOperators svc proj_index table get root update set_info = .ok s) :
    s.get.column_ids.getLast? = some COLUMN_IDENTIFIER_ROW_ID ∧
    s.proj.expressions.getLast? = some (Expression.BoundColumnRefExpression LogicalType.ROW_TYPE
      ⟨s.get.table_index, s.get.column_ids.length - 1⟩) ∧
    s.get.table_index = get.table_index ∧
    ∃ column_ids expressions,
      s.get.column_ids = column_ids ++ [COLUMN_IDENTIFIER_ROW_ID] ∧
      s.proj.expressions = expressions ++ [Expression.BoundColumnRefExpression
        LogicalType.ROW_TYPE ⟨get.table_index, column_ids.length⟩] := by
  unfold BindUpdateOperators at h
  split at h
  · simp at h
  · rename_i r hr
    split at h
    · rename_i ti es child hres
      simp only [Except.ok.injEq] at h
      obtain ⟨hgi, -, -⟩ := BindUpdateConstraints_table_indexes table
        { get := get,
          proj := { table_index := ti, expressions := es, child := child },
          update := { update with expressions := r.op_expressions, columns := r.columns } }
      simp only at hgi
      rw [← h]
      simp only [List.getLast?_append, List.getLast?_singleton,
        List.length_append, List.length_singleton, Nat.add_sub_cancel, hgi]
      exact ⟨rfl, rfl, trivial, _, _, rfl, rfl⟩
    · simp at h

/-- Witness of C12: `UPDATE t SET i = i + 1` under `CHECK (i + j < 10)`. -/
theorem BindUpdateOperators_row_id_last_witness :
    Example.operators_bound_set_i.get.column_ids.getLast? = some COLUMN_IDENTIFIER_ROW_ID ∧
    Example.operators_bound_set_i.proj.expressions.getLast?
      = some (Expression.BoundColumnRefExpression LogicalType.ROW_TYPE
          ⟨Example.operators_bound_set_i.get.table_index,
            Example.operators_bound_set_i.get.column_ids.length - 1⟩) ∧
    Example.operators_bound_set_i.get.table_index = Example.get_empty.table_index ∧
    ∃ column_ids expressions,
      Example.operators_bound_set_i.get.column_ids
        = column_ids ++ [COLUMN_IDENTIFIER_ROW_ID] ∧
      Example.operators_bound_set_i.proj.expressions
        = expressions ++ [Expression.BoundColumnRefExpression LogicalType.ROW_TYPE
            ⟨Example.get_empty.table_index, column_ids.length⟩] :=
  BindUpdateOperators_row_id_last Example.services 1 Example.table_ij Example.get_empty
    Example.root_get Example.update_fresh Example.set_i Example.operators_bound_set_i rfl

/-- C14: a successful `Bind` of an UPDATE statement without RETURNING clause returns a statement
with exactly one output column, named "Count" and of type BIGINT, whose plan root is the
`LogicalUpdate` (with the generated table index), and it leaves `allow_stream_result` false and
the return type `CHANGED_ROWS`. -/
theorem Bind_without_returning (svc : BinderServices) (ssvc : StatementServices)
    (proj_index update_table_index : idx_t) (properties : StatementProperties)
    (stmt : UpdateStatement) (out : BindOutput)
    (hret : stmt.returning_list = [])
    (h : Bind svc ssvc proj_index update_table_index properties stmt = .ok out) :
    out.result.names = ["Count"] ∧
    out.result.types = [LogicalType.BIGINT] ∧
    out.result.names.length = 1 ∧ out.result.types.length = 1 ∧
    (∃ columns expressions return_chunk update_is_del_and_insert child,
      out.result.plan = some (.update columns expressions return_chunk update_is_del_and_insert
        update_table_index child)) ∧
    (∀ op, out.result.plan = some op → op.type = .LOGICAL_UPDATE) ∧
    out.properties.allow_stream_result = false ∧
    out.properties.return_type = .CHANGED_ROWS := by
  unfold Bind at h
  split at h
  · simp at h
  · split at h
    · simp at h
    · simp only at h
      split at h
      · simp at h
      · split at h
        · simp at h
        · split at h
          · simp at h
          · split at h
            · simp at h
            · rename_i s hs
              simp only [hret, List.isEmpty_nil, Bool.not_true, Bool.false_eq_true,
                if_false, Except.ok.injEq] at h
              subst h
              refine ⟨rfl, rfl, rfl, rfl, ⟨_, _, _, _, _, rfl⟩, ?_, rfl, rfl⟩
              intro op hop
              simp only [Option.some.injEq] at hop
              subst hop
              rfl

/-- Witness of C14: `UPDATE t SET i = i + 1` on the table with `CHECK (i + j < 10)`. -/
theorem Bind_without_returning_witness :
    Example.statement_set_i.returning_list = [] ∧
    Example.output_set_i.result.names = ["Count"] ∧
    Example.output_set_i.result.types = [LogicalType.BIGINT] ∧
    Example.output_set_i.result.names.length = 1 ∧
    Example.output_set_i.result.types.length = 1 ∧
    (∃ columns expressions return_chunk update_is_del_and_insert child,
      Example.output_set_i.result.plan
        = some (.update columns expressions return_chunk update_is_del_and_insert 2 child)) ∧
    (∀ op, Example.output_set_i.result.plan = some op → op.type = .LOGICAL_UPDATE) ∧
    Example.output_set_i.properties.allow_stream_result = false ∧
    Example.output_set_i.properties.return_type = .CHANGED_ROWS :=
  ⟨rfl, Bind_without_returning Example.services Example.statement_services 1 2
    Example.properties_initial Example.statement_set_i Example.output_set_i rfl rfl⟩

/-- C13: for a `DateFormatMap` built from the empty map by any sequence of `Initialize` and
`AddFormat` calls (`ParseFormatSpecifier` keeping the specifier of the format it fills) and a
type `t` that received at least one format: `GetCandidateFormats(t)` lists the format
specifiers added for `t` in the order in which they were added, `GetFormat(t)` is the last
candidate, the one added last, and `AddFormat(type, f)` leaves the candidate list of every
other type as it was, in any map. -/
theorem DateFormatMap_candidates_in_order (parse : String → StrpTimeFormat → StrpTimeFormat)
    (hparse : ∀ f : StrpTimeFormat, (parse f.format_specifier f).format_specifier
      = f.format_specifier)
    (calls : List DateFormatCall) (t : LogicalTypeId) (hadded : AddedFormats t calls ≠ []) :
    ((DateFormatMap.empty.Run parse calls).GetCandidateFormats t).1.map
        (fun f => f.format_specifier) = AddedFormats t calls ∧
    (DateFormatMap.empty.Run parse calls).GetFormat t
      = ((DateFormatMap.empty.Run parse calls).GetCandidateFormats t).1.getLast? ∧
    ((DateFormatMap.empty.Run parse calls).GetFormat t).map (fun f => f.format_specifier)
      = (AddedFormats t calls).getLast? ∧
    (∀ (map : DateFormatMap) (type : LogicalTypeId) (f : String) (t' : LogicalTypeId),
      t' ≠ type →
      (map.AddFormat parse type f).candidate_formats t' = map.candidate_formats t' ∧
      ((map.AddFormat parse type f).GetCandidateFormats t').1
        = (map.GetCandidateFormats t').1) := by
  have hspec : ∀ l : List String,
      (l.map (NewFormat parse)).map (fun f => f.format_specifier) = l := by
    intro l
    induction l with
    | nil => rfl
    | cons a rest ih =>
      simp only [List.map_cons, List.cons.injEq]
      exact ⟨hparse { StrpTimeFormat.default with format_specifier := a }, ih⟩
  have hhas : (DateFormatMap.empty.Run parse calls).HasFormats t = true := by
    rw [Run_HasFormats]
    simp [hadded]
  have hcf := HasFormats_candidate_formats _ t hhas
  have hcand : (DateFormatMap.empty.Run parse calls).Candidates t
      = (AddedFormats t calls).map (NewFormat parse) := by
    rw [Run_Candidates]
    simp [DateFormatMap.Candidates, DateFormatMap.empty]
  have hget : ((DateFormatMap.empty.Run parse calls).GetCandidateFormats t).1
      = (AddedFormats t calls).map (NewFormat parse) := by
    unfold DateFormatMap.GetCandidateFormats
    rw [hcf, hcand]
  have hfmt : (DateFormatMap.empty.Run parse calls).GetFormat t
      = ((AddedFormats t calls).map (NewFormat parse)).getLast? := by
    unfold DateFormatMap.GetFormat
    rw [hcf, hcand]
  refine ⟨?_, ?_, ?_, ?_⟩
  · rw [hget, hspec]
  · rw [hget, hfmt]
  · rw [hfmt, ← List.getLast?_map, hspec]
  · intro map type f t' hne
    have h1 : (map.AddFormat parse type f).candidate_formats t' = map.candidate_formats t' := by
      unfold DateFormatMap.AddFormat
      simp [hne]
    refine ⟨h1, ?_⟩
    unfold DateFormatMap.GetCandidateFormats
    rw [h1]
    cases map.candidate_formats t' <;> rfl

/-- Witness of C13: the DATE candidates after `Initialize` with two DATE templates and one
`AddFormat` for DATE. -/
theorem DateFormatMap_candidates_in_order_witness :
    AddedFormats .DATE Example.date_format_calls = ["%m-%d-%Y", "%Y-%m-%d", "%d.%m.%Y"] ∧
    ((DateFormatMap.empty.Run Example.parse_format Example.date_format_calls).GetCandidateFormats
        .DATE).1.map (fun f => f.format_specifier)
      = AddedFormats .DATE Example.date_format_calls ∧
    (DateFormatMap.empty.Run Example.parse_format Example.date_format_calls).GetFormat .DATE
      = ((DateFormatMap.empty.Run Example.parse_format
          Example.date_format_calls).GetCandidateFormats .DATE).1.getLast? ∧
    ((DateFormatMap.empty.Run Example.parse_format Example.date_format_calls).GetFormat
        .DATE).map (fun f => f.format_specifier)
      = (AddedFormats .DATE Example.date_format_calls).getLast? ∧
    (∀ (map : DateFormatMap) (type : LogicalTypeId) (f : String) (t' : LogicalTypeId),
      t' ≠ type →
      (map.AddFormat Example.parse_format type f).candidate_formats t'
        = map.candidate_formats t' ∧
      ((map.AddFormat Example.parse_format type f).GetCandidateFormats t').1
        = (map.GetCandidateFormats t').1) :=
  ⟨rfl, DateFormatMap_candidates_in_order Example.parse_format (fun _ => rfl)
    Example.date_format_calls .DATE (by decide)⟩

/-- C16: for every number of workers and every order in which their buffer requests reach the
atomic counter, the batch indices handed out are strictly increasing in hand-out order and
pairwise distinct, as long as the 64-bit counter has not run through all its values. -/
theorem HandedOutBatchIndices_strictly_increasing (states : ScanStates) (schedule : List Nat)
    (hbound : states.gstate.batch_index + schedule.length ≤ 2 ^ 64) :
    (HandedOutBatchIndices states schedule).Pairwise (fun a b => a < b) ∧
    (HandedOutBatchIndices states schedule).Nodup := by
  rw [HandedOutBatchIndices_eq_range schedule states hbound]
  exact ⟨List.pairwise_lt_range' _ _, List.nodup_range' _ _⟩

/-- Witness of C16: three workers whose requests interleave as 2, 0, 1, 0, 2. -/
theorem HandedOutBatchIndices_strictly_increasing_witness :
    HandedOutBatchIndices Example.scan_start [2, 0, 1, 0, 2] = [0, 1, 2, 3, 4] ∧
    (HandedOutBatchIndices Example.scan_start [2, 0, 1, 0, 2]).Pairwise (fun a b => a < b) ∧
    (HandedOutBatchIndices Example.scan_start [2, 0, 1, 0, 2]).Nodup :=
  ⟨by decide, HandedOutBatchIndices_strictly_increasing Example.scan_start [2, 0, 1, 0, 2]
    (by decide)⟩

/-- C17: let `BindUpdateSet` succeed for the update operator from empty `update.columns` and
`update.expressions`, and let `BindUpdateConstraints` run on the operators it has filled.  Then
`update.expressions` has one entry per entry of `update.columns`.  At the position of the i-th
pair of the set clause stands the column of the pair and its set assignment: a bound default
expression when the expression is DEFAULT, otherwise a reference `(proj.table_index, k)` with
`proj.expressions[k]` the bound expression.  At every later position stands an added column `c`
with a reference `(proj.table_index, k)` where `proj.expressions[k]` is a reference
`(get.table_index, p)` and `get.column_ids[p]` is the index of `c`.  Every entry is a bound
default or a column reference with table index `proj.table_index` and an ordinal below
`proj.expressions.size()`, and the ordinals at distinct positions are distinct. -/
theorem BindUpdate_expressions_linked (svc : BinderServices) (proj_index : idx_t)
    (root : LogicalOperator) (set_info : UpdateSetInfo) (table : TableCatalogEntry)
    (r : BindUpdateSetResult) (s : Operators)
    (hset : BindUpdateSet svc proj_index .LOGICAL_UPDATE [] root set_info table [] = .ok r)
    (hproj : r.result = .projection s.proj.table_index s.proj.expressions s.proj.child)
    (hcols : s.update.columns = r.columns) (hexprs : s.update.expressions = r.op_expressions) :
    (BindUpdateConstraints table s).update.expressions.length
      = (BindUpdateConstraints table s).update.columns.length ∧
    (∀ (i : Nat) (colname : String), set_info.columns[i]? = some colname →
      ∃ expr e, set_info.expressions[i]? = some expr ∧
        (BindUpdateConstraints table s).update.expressions[i]? = some e ∧
        (BindUpdateConstraints table s).update.columns[i]?
          = some (table.GetColumn colname).Physical ∧
        IsSetAssignment svc table (BindUpdateConstraints table s).proj.table_index
          (BindUpdateConstraints table s).proj.expressions colname expr e) ∧
    (∀ (i : Nat) (c : PhysicalIndex), set_info.columns.length ≤ i →
      (BindUpdateConstraints table s).update.columns[i]? = some c →
      ∃ e, (BindUpdateConstraints table s).update.expressions[i]? = some e ∧
        IsSelfAssignment table (BindUpdateConstraints table s) c e) ∧
    (∀ (i : Nat) (e : Expression),
      (BindUpdateConstraints table s).update.expressions[i]? = some e →
      (∃ t, e = Expression.BoundDefaultExpression t) ∨
      (∃ t k, e = Expression.BoundColumnRefExpression t
          ⟨(BindUpdateConstraints table s).proj.table_index, k⟩ ∧
        k < (BindUpdateConstraints table s).proj.expressions.length)) ∧
    DistinctOrdinals (BindUpdateConstraints table s).update.expressions := by
  obtain ⟨hlen, hpairs, hself, hwithin, hdist⟩ :=
    UpdateLinked_BindUpdateConstraints svc table set_info s
      (UpdateLinked_BindUpdateSet svc proj_index root set_info table r s hset hproj hcols hexprs)
  refine ⟨hlen, hpairs, hself, ?_, hdist⟩
  intro i e he
  have hform : ∀ k (t : LogicalType),
      e = Expression.BoundColumnRefExpression t
        ⟨(BindUpdateConstraints table s).proj.table_index, k⟩ →
      k < (BindUpdateConstraints table s).proj.expressions.length := by
    intro k t hk
    rw [hk] at he
    exact (hwithin i t _ he).2.2
  by_cases hi : i < set_info.columns.length
  · obtain ⟨colname, hcn⟩ : ∃ colname, set_info.columns[i]? = some colname :=
      ⟨set_info.columns[i], List.getElem?_eq_getElem hi⟩
    obtain ⟨expr, e', -, he', -, hassign⟩ := hpairs i colname hcn
    rw [he] at he'
    simp only [Option.some.injEq] at he'
    subst he'
    rcases hassign with ⟨-, hd⟩ | ⟨-, b0, r0, b, r1, k, -, -, hk, -⟩
    · exact Or.inl ⟨_, hd⟩
    · exact Or.inr ⟨_, k, hk, hform k _ hk⟩
  · have hi' : set_info.columns.length ≤ i := Nat.le_of_not_lt hi
    have hlt : i < (BindUpdateConstraints table s).update.columns.length := by
      rw [← hlen]; exact lt_length_of_getElem?_eq_some _ _ _ he
    obtain ⟨e', he', k, p, hk, -, -⟩ := hself i _ hi' (List.getElem?_eq_getElem hlt)
    rw [he] at he'
    simp only [Option.some.injEq] at he'
    subst he'
    exact Or.inr ⟨_, k, hk, hform k _ hk⟩

/-- Witness of C17: `UPDATE t SET i = i + 1` under `CHECK (i + j < 10)`. -/
theorem BindUpdate_expressions_linked_witness :
    (BindUpdateConstraints Example.table_ij Example.operators_set_i).update.expressions.length
      = (BindUpdateConstraints Example.table_ij Example.operators_set_i).update.columns.length ∧
    (∀ (i : Nat) (colname : String), Example.set_i.columns[i]? = some colname →
      ∃ expr e, Example.set_i.expressions[i]? = some expr ∧
        (BindUpdateConstraints Example.table_ij
          Example.operators_set_i).update.expressions[i]? = some e ∧
        (BindUpdateConstraints Example.table_ij Example.operators_set_i).update.columns[i]?
          = some (Example.table_ij.GetColumn colname).Physical ∧
        IsSetAssignment Example.services Example.table_ij
          (BindUpdateConstraints Example.table_ij Example.operators_set_i).proj.table_index
          (BindUpdateConstraints Example.table_ij Example.operators_set_i).proj.expressions
          colname expr e) ∧
    (∀ (i : Nat) (c : PhysicalIndex), Example.set_i.columns.length ≤ i →
      (BindUpdateConstraints Example.table_ij Example.operators_set_i).update.columns[i]?
        = some c →
      ∃ e, (BindUpdateConstraints Example.table_ij
          Example.operators_set_i).update.expressions[i]? = some e ∧
        IsSelfAssignment Example.table_ij
          (BindUpdateConstraints Example.table_ij Example.operators_set_i) c e) ∧
    (∀ (i : Nat) (e : Expression),
      (BindUpdateConstraints Example.table_ij Example.operators_set_i).update.expressions[i]?
        = some e →
      (∃ t, e = Expression.BoundDefaultExpression t) ∨
      (∃ t k, e = Expression.BoundColumnRefExpression t
          ⟨(BindUpdateConstraints Example.table_ij Example.operators_set_i).proj.table_index,
            k⟩ ∧
        k < (BindUpdateConstraints Example.table_ij
          Example.operators_set_i).proj.expressions.length)) ∧
    DistinctOrdinals
      (BindUpdateConstraints Example.table_ij Example.operators_set_i).update.expressions :=
  BindUpdate_expressions_linked Example.services 1 Example.root_get Example.set_i
    Example.table_ij Example.result_set_i Example.operators_set_i rfl rfl rfl rfl

/-- C15: the buffers of one file, from the cursor on and under either framing, are scanned by the
workers that hold them, each given the unterminated bytes that the worker of the buffer before
has passed forward.
The scan raises no error when no record of the file is larger than `maximum_object_size` and no
record reaches into a third buffer (a record under way at the start of a buffer that is not the
last ends in that buffer).  Whenever the scan raises no error: the records that the workers
materialize, taken in the order of the buffers, are exactly the records of the file, each once
and in order; the bytes left at a boundary between two buffers are a suffix of the earlier
buffer, and the record they begin, a record that ends in the later buffer or at the end of the
file, is the first record of the worker that holds the later buffer, which puts it together from
these bytes and a prefix of its own buffer; and the worker that holds a buffer that is not the
last one materializes only records that end at a boundary of its buffer. -/
theorem ScanBuffers_split_record_once (format : JSONFormat) (maximum_object_size : idx_t)
    (buffers : List (List Char)) :
    ((∀ record ∈ FileRecords format buffers.flatten, record.length ≤ maximum_object_size) →
      (∀ (k : Nat) (buffer : List Char), k + 1 < buffers.length → buffers[k]? = some buffer →
        RemainderBefore format buffers k ≠ [] →
        NextRecord format (RemainderBefore format buffers k) buffer ≠ none) →
      ∃ outputs, ScanBuffers format maximum_object_size [] buffers = .ok outputs) ∧
    ∀ outputs, ScanBuffers format maximum_object_size [] buffers = .ok outputs →
      outputs.flatten = FileRecords format buffers.flatten ∧
      (∀ (k : Nat) (buffer next : List Char), buffers[k]? = some buffer →
        buffers[k + 1]? = some next → RemainderBefore format buffers (k + 1) ≠ [] →
        RemainderBefore format buffers (k + 1) <:+ buffer ∧
        (NextRecord format (RemainderBefore format buffers (k + 1)) next ≠ none ∨
            format.TrailingRecord = true →
          ∃ head records, head <+: next ∧
            outputs[k + 1]?
              = some ((RemainderBefore format buffers (k + 1) ++ head) :: records))) ∧
      (∀ (k : Nat) (buffer : List Char), k + 1 < buffers.length → buffers[k]? = some buffer →
        outputs[k]?
          = some (ScanRecords format (RemainderBefore format buffers k) buffer).1) := by
  refine ⟨fun hsize hspan => ScanBuffers_eq_ok format maximum_object_size buffers [] hsize hspan,
    ?_⟩
  intro outputs h
  obtain ⟨hlen, hflat, -, hidx⟩ := ScanBuffers_ok format maximum_object_size buffers [] outputs h
  refine ⟨?_, ?_, ?_⟩
  · by_cases he : buffers = []
    · subst he
      have : outputs = [] := List.eq_nil_of_length_eq_zero (by simpa using hlen)
      subst this
      simp [FileRecords, EmitRecords, ScanRecords]
    · exact hflat he
  · intro k buffer next hk hk1 hrem
    have hlt : k + 1 < buffers.length := lt_length_of_getElem?_eq_some _ _ _ hk1
    have hsucc := RemainderBefore_succ format buffers k buffer hk
    obtain ⟨-, hspan⟩ := hidx k buffer hk
    obtain ⟨hout, hspan1⟩ := hidx (k + 1) next hk1
    refine ⟨?_, ?_⟩
    · rw [hsucc]
      rcases hspan hlt with h0 | h0
      · have h0' : RemainderBefore format buffers k = [] := h0
        rw [h0']
        exact ScanRecords_remainder_suffix format buffer.length buffer (le_refl _)
      · exact ScanRecords_remainder_suffix_of_boundary format _ _ h0
    · intro hmat
      have hout' : outputs[k + 1]? = some (EmitRecords format
          (ScanRecords format (RemainderBefore format buffers (k + 1)) next)
          (decide (k + 1 + 1 = buffers.length))) := hout
      cases hnext : NextRecord format (RemainderBefore format buffers (k + 1)) next with
      | some p =>
        obtain ⟨record, rest⟩ := p
        obtain ⟨head, c, hrec, hb⟩ := NextRecord_head format _ _ _ _ hnext
        rw [ScanRecords_of_NextRecord_some format _ _ _ _ hnext] at hout'
        refine ⟨head, (ScanRecords format [] rest).1 ++
          (if decide (k + 1 + 1 = buffers.length) = true ∧ format.TrailingRecord = true ∧
              (ScanRecords format [] rest).2 ≠ [] then [(ScanRecords format [] rest).2]
            else []), ?_, ?_⟩
        · rw [hb]; exact List.prefix_append head (c :: rest)
        · rw [hout', ← hrec]
          simp only [EmitRecords, List.cons_append]
      | none =>
        have htrail : format.TrailingRecord = true := by
          rcases hmat with h1 | h1
          · exact absurd hnext h1
          · exact h1
        have hlast : k + 1 + 1 = buffers.length := by
          by_contra hne
          have hlt2 : k + 1 + 1 < buffers.length := Nat.lt_of_le_of_ne hlt hne
          rcases hspan1 hlt2 with h1 | h1
          · exact hrem h1
          · exact h1 hnext
        rw [ScanRecords_of_NextRecord_none format _ _ hnext] at hout'
        refine ⟨next, [], List.prefix_refl next, ?_⟩
        rw [hout']
        simp [EmitRecords, hlast, htrail, hrem]
  · intro k buffer hk hb
    obtain ⟨hout, -⟩ := hidx k buffer hb
    have hout' : outputs[k]? = some (EmitRecords format
        (ScanRecords format (RemainderBefore format buffers k) buffer)
        (decide (k + 1 = buffers.length))) := hout
    rw [hout']
    have hne : ¬ k + 1 = buffers.length := Nat.ne_of_lt hk
    simp [EmitRecords, hne]

/-- Witness of C15: scenario 1 of the specification, three records in two buffers, the second
record split between them, with a `maximum_object_size` of 16 bytes.  Besides: scenario 3, an
array of two records, the second split between two buffers; a record that is all of a middle
buffer and the head of the last one; and a record that reaches into a third buffer, for which
the scan raises the error. -/
theorem ScanBuffers_split_record_once_witness :
    (∃ outputs, ScanBuffers .NEWLINE_DELIMITED 16 [] [Example.buffer_0, Example.buffer_1]
      = .ok outputs) ∧
    ScanFile .AUTO_DETECT 16 [Example.buffer_0, Example.buffer_1]
      = .ok [["\x7b\"a\":1\x7d".toList], ["\x7b\"a\":2\x7d".toList, "\x7b\"a\":3\x7d".toList]] ∧
    ScanFile .AUTO_DETECT 16 [Example.array_0, Example.array_1]
      = .ok [["\x7b\"x\":1\x7d".toList], ["\x7b\"x\":2\x7d".toList]] ∧
    ScanFile .NEWLINE_DELIMITED 16 ["ab\n".toList, "cd".toList, "ef\n".toList]
      = .ok [["ab".toList], [], ["cdef".toList]] ∧
    ScanFile .NEWLINE_DELIMITED 16 ["a".toList, "b".toList, "\nc\n".toList]
      = .error (.ObjectSizeError 2) ∧
    [["\x7b\"a\":1\x7d".toList], ["\x7b\"a\":2\x7d".toList, "\x7b\"a\":3\x7d".toList]].flatten
      = FileRecords .NEWLINE_DELIMITED [Example.buffer_0, Example.buffer_1].flatten ∧
    (∀ (k : Nat) (buffer next : List Char),
      [Example.buffer_0, Example.buffer_1][k]? = some buffer →
      [Example.buffer_0, Example.buffer_1][k + 1]? = some next →
      RemainderBefore .NEWLINE_DELIMITED [Example.buffer_0, Example.buffer_1] (k + 1) ≠ [] →
      RemainderBefore .NEWLINE_DELIMITED [Example.buffer_0, Example.buffer_1] (k + 1)
        <:+ buffer ∧
      (NextRecord .NEWLINE_DELIMITED
            (RemainderBefore .NEWLINE_DELIMITED [Example.buffer_0, Example.buffer_1] (k + 1))
            next ≠ none ∨
          JSONFormat.NEWLINE_DELIMITED.TrailingRecord = true →
        ∃ head records, head <+: next ∧
          [["\x7b\"a\":1\x7d".toList],
            ["\x7b\"a\":2\x7d".toList, "\x7b\"a\":3\x7d".toList]][k + 1]?
            = some ((RemainderBefore .NEWLINE_DELIMITED
                [Example.buffer_0, Example.buffer_1] (k + 1) ++ head) :: records))) ∧
    (∀ (k : Nat) (buffer : List Char), k + 1 < [Example.buffer_0, Example.buffer_1].length →
      [Example.buffer_0, Example.buffer_1][k]? = some buffer →
      [["\x7b\"a\":1\x7d".toList], ["\x7b\"a\":2\x7d".toList, "\x7b\"a\":3\x7d".toList]][k]?
        = some (ScanRecords .NEWLINE_DELIMITED
            (RemainderBefore .NEWLINE_DELIMITED [Example.buffer_0, Example.buffer_1] k)
            buffer).1) :=
  ⟨(ScanBuffers_split_record_once .NEWLINE_DELIMITED 16
      [Example.buffer_0, Example.buffer_1]).1 (by decide) (by
        intro k buffer hk hb hrem
        cases k with
        | zero => exact absurd rfl hrem
        | succ k' =>
          simp only [List.length_cons, List.length_nil] at hk
          exact absurd hk (by omega)),
    rfl, rfl, rfl, rfl,
    (ScanBuffers_split_record_once .NEWLINE_DELIMITED 16
      [Example.buffer_0, Example.buffer_1]).2 _ rfl⟩

/-- C21: for a `DateFormatMap` built from the empty map by `Initialize` and `AddFormat` calls
only, `HasFormats(t)` is true exactly for the types `t` that received at least one format; an
entry of the map is never an empty list, so for such a type the candidate list is not empty and
`GetFormat(t)` has a last element to return; and after an `Initialize` whose templates give `t`
only empty lists of formats, `HasFormats(t)` is false. -/
theorem DateFormatMap_HasFormats_iff (parse : String → StrpTimeFormat → StrpTimeFormat)
    (calls : List DateFormatCall) (t : LogicalTypeId) :
    ((DateFormatMap.empty.Run parse calls).HasFormats t = true ↔ AddedFormats t calls ≠ []) ∧
    (∀ formats, (DateFormatMap.empty.Run parse calls).candidate_formats t = some formats →
      formats ≠ []) ∧
    ((DateFormatMap.empty.Run parse calls).HasFormats t = true →
      ((DateFormatMap.empty.Run parse calls).GetCandidateFormats t).1 ≠ [] ∧
      ((DateFormatMap.empty.Run parse calls).GetCandidateFormats t).1.length
        = (AddedFormats t calls).length ∧
      ∃ format, (DateFormatMap.empty.Run parse calls).GetFormat t = some format ∧
        ((DateFormatMap.empty.Run parse calls).GetCandidateFormats t).1.getLast?
          = some format) ∧
    (∀ templates : List (LogicalTypeId × List String),
      (∀ entry ∈ templates, entry.1 = t → entry.2 = []) →
      (DateFormatMap.empty.Initialize parse templates).HasFormats t = false) := by
  have hiff : (DateFormatMap.empty.Run parse calls).HasFormats t = true
      ↔ AddedFormats t calls ≠ [] := by
    rw [Run_HasFormats]
    simp [DateFormatMap.HasFormats, DateFormatMap.empty]
  have hcand : (DateFormatMap.empty.Run parse calls).Candidates t
      = (AddedFormats t calls).map (NewFormat parse) := by
    rw [Run_Candidates]
    simp [DateFormatMap.Candidates, DateFormatMap.empty]
  have hentry : ∀ formats,
      (DateFormatMap.empty.Run parse calls).candidate_formats t = some formats →
      formats = (AddedFormats t calls).map (NewFormat parse) ∧ formats ≠ [] := by
    intro formats hf
    have hhas : (DateFormatMap.empty.Run parse calls).HasFormats t = true := by
      unfold DateFormatMap.HasFormats; rw [hf]; rfl
    have hc := HasFormats_candidate_formats _ t hhas
    rw [hf, hcand] at hc
    simp only [Option.some.injEq] at hc
    refine ⟨hc, ?_⟩
    rw [hc]
    intro hnil
    exact hiff.1 hhas (List.map_eq_nil_iff.1 hnil)
  refine ⟨hiff, fun formats hf => (hentry formats hf).2, ?_, ?_⟩
  · intro hhas
    have hc := HasFormats_candidate_formats _ t hhas
    obtain ⟨heq, hne⟩ := hentry _ hc
    have hget : ((DateFormatMap.empty.Run parse calls).GetCandidateFormats t).1
        = (DateFormatMap.empty.Run parse calls).Candidates t := by
      unfold DateFormatMap.GetCandidateFormats
      rw [hc]
    have hfmt : (DateFormatMap.empty.Run parse calls).GetFormat t
        = ((DateFormatMap.empty.Run parse calls).Candidates t).getLast? := by
      unfold DateFormatMap.GetFormat
      rw [hc]
    rw [hget, hfmt]
    refine ⟨hne, by rw [heq, List.length_map], ?_⟩
    exact ⟨((DateFormatMap.empty.Run parse calls).Candidates t).getLast hne,
      List.getLast?_eq_getLast _ hne, List.getLast?_eq_getLast _ hne⟩
  · intro templates hempty
    rw [Initialize_HasFormats, TemplateFormats_eq_nil t templates hempty]
    simp [DateFormatMap.HasFormats, DateFormatMap.empty]

end duckdb
